import Mathlib

/-!
# go-ico: the ICO/CUR container codec (package `icondir` and its `ico` / `cur` front doors)

A shallow embedding of `internal/icondir/decoder.go`, `internal/icondir/encoder.go`,
`reader.go`, `writer.go`, `cur/reader.go` and `cur/writer.go`.

Conventions of the embedding:

* a byte is a `Nat` below 256; a byte string or byte stream is a `List Nat`, and where a
  byte is read as a number it is taken `% 256`;
* Go's `int` / `int64` are `Int` (64-bit wrap-around is written out where a product can
  overflow), `uint16` / `uint32` conversions are explicit `% 2^16` / `% 2^32`;
* an `io.Reader` is a byte list together with the outcome of the seek probe; `bufio`
  wrapped around such a source behaves as the source itself, so header parsers are
  functions of the remaining byte stream;
* the external PNG and BMP codecs are parameters (`Codecs`).
-/

namespace Icondir

/-! ## Errors -/

/-- Error values that can leave the package: the two sentinel errors of `io`, the two
error types of `icondir`, errors of the error types of an external codec, and run-time
panics. -/
inductive Err where
  | EOF
  | ErrUnexpectedEOF
  | FormatError (msg : String)
  | UnsupportedError (msg : String)
  | external (msg : String)
  | runtimePanic (msg : String)
  deriving DecidableEq, Repr

/-- The `Error()` method. -/
def Err.Error : Err → String
  | .EOF => "EOF"
  | .ErrUnexpectedEOF => "unexpected EOF"
  | .FormatError s => s
  | .UnsupportedError s => s
  | .external s => s
  | .runtimePanic s => s

/-- Results of fallible functions can be compared when their parts can. -/
instance instDecidableEqExcept {ε α : Type} [DecidableEq ε] [DecidableEq α] :
    DecidableEq (Except ε α) := fun x y =>
  match x, y with
  | .ok a, .ok b =>
    if h : a = b then isTrue (by rw [h]) else isFalse (fun h1 => h (by cases h1; rfl))
  | .error a, .error b =>
    if h : a = b then isTrue (by rw [h]) else isFalse (fun h1 => h (by cases h1; rfl))
  | .ok _, .error _ => isFalse (fun h1 => by cases h1)
  | .error _, .ok _ => isFalse (fun h1 => by cases h1)

/-- The recurring `if err == io.EOF { err = io.ErrUnexpectedEOF }`. -/
def eofToUnexpected (e : Err) : Err :=
  if e = Err.EOF then Err.ErrUnexpectedEOF else e

/-! ## Constants -/

def icoPrefix : List Nat := [0x00, 0x00, 0x01, 0x00]
def curPrefix : List Nat := [0x00, 0x00, 0x02, 0x00]
def pngPrefix : List Nat := [0x89, 0x50, 0x4E, 0x47, 0x0D, 0x0A, 0x1A, 0x0A]

def fileHeaderLen : Nat := 6
def dirEntryLen : Nat := 16
def bmpFileHeaderLen : Nat := 14

/-! ## encoding/binary -/

namespace LittleEndian

def Uint16 (b : List Nat) : Nat := b.getD 0 0 % 256 + 256 * (b.getD 1 0 % 256)

def Uint32 (b : List Nat) : Nat :=
  b.getD 0 0 % 256 + 256 * (b.getD 1 0 % 256) + 65536 * (b.getD 2 0 % 256)
    + 16777216 * (b.getD 3 0 % 256)

def PutUint16 (v : Nat) : List Nat := [v % 256, v / 256 % 256]

def PutUint32 (v : Nat) : List Nat :=
  [v % 256, v / 256 % 256, v / 65536 % 256, v / 16777216 % 256]

end LittleEndian

namespace BigEndian

def Uint32 (b : List Nat) : Nat :=
  16777216 * (b.getD 0 0 % 256) + 65536 * (b.getD 1 0 % 256) + 256 * (b.getD 2 0 % 256)
    + b.getD 3 0 % 256

end BigEndian

/-- Conversion `uint32(n)` of a Go `int`. -/
def toUint32 (n : Int) : Nat := (n % 4294967296).toNat

/-- Conversion `uint16(n)` of a Go `int`. -/
def toUint16 (n : Int) : Nat := (n % 65536).toNat

/-- Conversion `byte(n)` of a Go `int`. -/
def toByte (n : Int) : Nat := (n % 256).toNat

/-- Conversion `int(int32(v))` of a `uint32`. -/
def toInt32 (v : Nat) : Int := ((v : Int) + 2147483648) % 4294967296 - 2147483648

/-- Two's-complement wrap of a mathematical integer into Go's 64-bit `int`. -/
def wrapInt64 (x : Int) : Int :=
  (x + 9223372036854775808) % 18446744073709551616 - 9223372036854775808

/-- Overwrite the bytes of `b` from index `i` on with `v` (as `copy(b[i:], v)` or a
`PutUint32(b[i:], _)` does). -/
def patch (b : List Nat) (i : Nat) (v : List Nat) : List Nat :=
  b.take i ++ v ++ b.drop (i + v.length)

/-! ## Byte streams: `io.ReadFull`, `io.CopyN(io.Discard, _, n)`, `Peek` -/

/-- Result of `io.ReadFull` with a buffer of `n` bytes on the stream `s`: the bytes read
and the rest of the stream, `io.EOF` when nothing could be read, `io.ErrUnexpectedEOF`
when the stream ends inside the buffer. -/
def readFull (s : List Nat) (n : Nat) : Except Err (List Nat × List Nat) :=
  if n ≤ s.length then .ok (s.take n, s.drop n)
  else if s.length = 0 then .error .EOF
  else .error .ErrUnexpectedEOF

/-- Result of `io.CopyN(io.Discard, s, n)`: the rest of the stream, or `io.EOF` when the
stream holds fewer than `n` bytes. -/
def copyNDiscard (s : List Nat) (n : Nat) : Except Err (List Nat) :=
  if n ≤ s.length then .ok (s.drop n) else .error .EOF

/-- Result of `Peek(n)` of a `bufio.Reader` over the stream `s`. -/
def peek (s : List Nat) (n : Nat) : Except Err (List Nat) :=
  if n ≤ s.length then .ok (s.take n) else .error .EOF

/-! ## The stream adapter `reader` -/

/-- The stream adapter.  `r` holds every byte of the underlying source, `pos` the current
position, `canSeekBackward` the (cached) outcome of the seek probe. -/
structure reader where
  r : List Nat
  pos : Nat
  canSeekBackward : Bool
  deriving DecidableEq, Repr

def SeekStart : Nat := 0
def SeekCurrent : Nat := 1
def SeekEnd : Nat := 2

/-- The method `reader.Read` driven by `io.ReadFull` with a buffer of `n` bytes. -/
def reader.ReadFull (r : reader) (n : Nat) : Except Err (List Nat) × reader :=
  match readFull (r.r.drop r.pos) n with
  | .ok (b, _) => (.ok b, { r with pos := r.pos + n })
  | .error e => (.error e, { r with pos := max r.pos r.r.length })

/-- The method `reader.Seek`; the new state and the error. The returned position is the
`pos` of the new state. -/
def reader.Seek (r : reader) (offset : Int) (whence : Nat) : reader × Option Err :=
  if r.canSeekBackward then
    let abs : Option Int :=
      if whence = SeekStart then some offset
      else if whence = SeekCurrent then some ((r.pos : Int) + offset)
      else if whence = SeekEnd then some ((r.r.length : Int) + offset)
      else none
    match abs with
    | none => (r, some (.external "invalid whence"))
    | some a =>
      if a < 0 then (r, some (.external "negative position"))
      else ({ r with pos := a.toNat }, none)
  else
    let offset' : Int := if whence = SeekCurrent then (r.pos : Int) + offset else offset
    let whence' : Nat := if whence = SeekCurrent then SeekStart else whence
    if offset' < (r.pos : Int) ∨ whence' ≠ SeekStart then
      (r, some (.UnsupportedError "overlapping offset"))
    else if offset' = (r.pos : Int) then (r, none)
    else
      let n := (offset' - (r.pos : Int)).toNat
      match copyNDiscard (r.r.drop r.pos) n with
      | .ok _ => ({ r with pos := r.pos + n }, none)
      | .error e => ({ r with pos := max r.pos r.r.length }, some e)

/-! ## Entries -/

/-- One directory slot with its resolved metadata. `bmpHeader = none` is Go's `nil`. -/
@[ext]
structure Entry where
  Width : Int
  Height : Int
  Colors : Int
  BPP : Int
  XHotspot : Int
  YHotspot : Int
  Offset : Int
  Size : Int
  data : List Nat
  bmpHeader : Option (List Nat)
  topDown : Bool
  deriving DecidableEq, Repr

/-- The zero value `Entry{}`. -/
def Entry.zero : Entry :=
  { Width := 0, Height := 0, Colors := 0, BPP := 0, XHotspot := 0, YHotspot := 0,
    Offset := 0, Size := 0, data := [], bmpHeader := none, topDown := false }

/-! ## Sub-image headers -/

/-- Inner function `seekChunk` of `decodePNGHeader`, with a fuel for the `for` loop.
`none` means the fuel ran out. -/
def seekChunkAux (typ : List Nat) : Nat → List Nat → Option (Except Err (Int × List Nat))
  | 0, _ => none
  | fuel + 1, s =>
    match readFull s 8 with
    | .error e => some (.error (eofToUnexpected e))
    | .ok (b, s1) =>
      let n := BigEndian.Uint32 b
      if b.drop 4 = typ then some (.ok ((n : Int), s1))
      else
        match copyNDiscard s1 (n + 4) with
        | .error e => if e = Err.EOF then some (.ok (-1, [])) else some (.error e)
        | .ok s2 => seekChunkAux typ fuel s2

/-- Inner function `seekChunk`: every round of the loop consumes at least 12 bytes, so a
fuel of `s.length + 1` is never used up. -/
def seekChunk (typ : List Nat) (s : List Nat) : Except Err (Int × List Nat) :=
  (seekChunkAux typ (s.length + 1) s).getD (.error .ErrUnexpectedEOF)

def ctGrayscale : Nat := 0
def ctTrueColor : Nat := 2
def ctPaletted : Nat := 3
def ctGrayscaleAlpha : Nat := 4
def ctTrueColorAlpha : Nat := 6

def ihdrLength : Nat := 13

/-- The `switch b[8] { ... switch b[9] ... }` of `decodePNGHeader`: the new value of
`e.BPP` (given its old value) and the flag `paletted`. -/
def pngDepth (depth colorType : Nat) (bpp : Int) : Int × Bool :=
  if depth = 1 then
    if colorType = ctPaletted then (1, true)
    else if colorType = ctGrayscale then (1, false)
    else (bpp, false)
  else if depth = 2 then
    if colorType = ctPaletted then (2, true)
    else if colorType = ctGrayscale then (2, false)
    else (bpp, false)
  else if depth = 4 then
    if colorType = ctPaletted then (4, true)
    else if colorType = ctGrayscale then (4, false)
    else (bpp, false)
  else if depth = 8 then
    if colorType = ctPaletted then (8, true)
    else if colorType = ctGrayscale then (8, false)
    else if colorType = ctTrueColor then (24, false)
    else if colorType = ctGrayscaleAlpha then (16, false)
    else if colorType = ctTrueColorAlpha then (32, false)
    else (bpp, false)
  else if depth = 16 then
    if colorType = ctGrayscale then (16, false)
    else if colorType = ctTrueColor then (48, false)
    else if colorType = ctGrayscaleAlpha then (32, false)
    else if colorType = ctTrueColorAlpha then (64, false)
    else (bpp, false)
  else (bpp, false)

/-- The function `decodePNGHeader` on the byte stream `s`. -/
def decodePNGHeader (s : List Nat) (e : Entry) : Except Err Entry :=
  match copyNDiscard s pngPrefix.length with
  | .error err => .error (eofToUnexpected err)
  | .ok s1 =>
    match seekChunk [0x49, 0x48, 0x44, 0x52] s1 with
    | .error err => .error err
    | .ok (length, s2) =>
      if length ≠ (ihdrLength : Int) then .error (.UnsupportedError "PNG image")
      else
        match readFull s2 (ihdrLength + 4) with
        | .error err => .error (eofToUnexpected err)
        | .ok (b, s3) =>
          let e1 := { e with Width := (BigEndian.Uint32 b : Int),
                             Height := (BigEndian.Uint32 (b.drop 4) : Int) }
          let (bpp, paletted) := pngDepth (b.getD 8 0) (b.getD 9 0) e1.BPP
          let e2 := { e1 with BPP := bpp }
          if e2.BPP = 0 then .error (.UnsupportedError "PNG image")
          else if paletted then
            match seekChunk [0x50, 0x4C, 0x54, 0x45] s3 with
            | .error err => .error err
            | .ok (length2, _) =>
              if length2 ≠ -1 then .ok { e2 with Colors := length2 / 3 }
              else .ok e2
          else .ok e2

def infoHeaderLen : Nat := 40
def biBitFields : Nat := 3

/-- The function `decodeBMPHeader` on the byte stream `s`. -/
def decodeBMPHeader (s : List Nat) (e : Entry) : Except Err Entry :=
  match readFull s infoHeaderLen with
  | .error err => .error (eofToUnexpected err)
  | .ok (info, _) =>
    let h0 : List Nat := List.replicate bmpFileHeaderLen 0 ++ info
    let infoLen := LittleEndian.Uint32 (h0.drop 14)
    if infoLen < infoHeaderLen then .error (.UnsupportedError "BMP image")
    else
      let h1 := patch h0 0 [0x42, 0x4D]
      let width := toInt32 (LittleEndian.Uint32 (h1.drop 18))
      let height0 := toInt32 (LittleEndian.Uint32 (h1.drop 22))
      let bpp : Int := (LittleEndian.Uint16 (h1.drop 28) : Int)
      let height1 : Int := if height0 < 0 then -height0 else height0
      let topDown : Bool := if height0 < 0 then true else e.topDown
      if height1 % 2 ≠ 0 then .error (.UnsupportedError "BMP image")
      else
        let height := height1 / 2
        let compression := LittleEndian.Uint32 (h1.drop 30)
        let colors0 : Int := (LittleEndian.Uint32 (h1.drop 46) : Int)
        let colors : Int := if bpp ≤ 8 ∧ colors0 = 0 then (2 : Int) ^ bpp.toNat else colors0
        let colorMaskLen : Nat :=
          if infoLen = infoHeaderLen ∧ (bpp = 16 ∨ bpp = 32) ∧ compression = biBitFields
          then 4 * 3 else 0
        let h2 := patch h1 10 (LittleEndian.PutUint32
          ((bmpFileHeaderLen + infoLen + toUint32 colors * 4 + colorMaskLen) % 4294967296))
        let h3 := patch h2 22 (LittleEndian.PutUint32 (toUint32 height))
        .ok { e with
                bmpHeader := some h3, Width := width, Height := height, BPP := bpp,
                topDown := topDown, Colors := colors,
                Offset := e.Offset + infoHeaderLen, Size := e.Size - infoHeaderLen,
                data := e.data.drop infoHeaderLen }

/-- The function `decodeHeader` on the byte stream `s`. -/
def decodeHeader (s : List Nat) (e : Entry) : Except Err Entry :=
  match peek s pngPrefix.length with
  | .error err => .error (eofToUnexpected err)
  | .ok b => if b = pngPrefix then decodePNGHeader s e else decodeBMPHeader s e

/-! ## The directory decoder -/

structure Decoder where
  r : reader
  icon : Bool
  entries : List Entry
  deriving DecidableEq, Repr

/-- The constructor `NewDecoder`; the `io.Reader` is given by its bytes and by whether it
is a seeker whose probe succeeds. -/
def NewDecoder (src : List Nat) (seekable : Bool) (icon : Bool) : Decoder :=
  { r := { r := src, pos := 0, canSeekBackward := seekable }, icon := icon, entries := [] }

/-- The `for i := uint16(0); i < count; i++` loop of `DecodeDir`. -/
def readDirEntries (icon : Bool) : Nat → reader → Except Err (List Entry × reader)
  | 0, r => .ok ([], r)
  | n + 1, r =>
    match r.ReadFull dirEntryLen with
    | (.error err, _) => .error (eofToUnexpected err)
    | (.ok b, r1) =>
      let xHotspot : Int := if icon then 0 else (LittleEndian.Uint16 (b.drop 4) : Int)
      let yHotspot : Int := if icon then 0 else (LittleEndian.Uint16 (b.drop 6) : Int)
      let size := LittleEndian.Uint32 (b.drop 8)
      let offset := LittleEndian.Uint32 (b.drop 12)
      let e : Entry := { Entry.zero with
        XHotspot := xHotspot, YHotspot := yHotspot, Offset := (offset : Int), Size := (size : Int) }
      match readDirEntries icon n r1 with
      | .error err => .error err
      | .ok (es, r2) => .ok (e :: es, r2)

/-- The loop of `readHeaders` on a seekable source. The read position that the buffered
header parser leaves behind is not tracked: every later access to a seekable source
starts with an absolute `Seek`. -/
def readHeadersLoop : reader → List Entry → Except Err (List Entry × reader)
  | r, [] => .ok ([], r)
  | r, e :: es =>
    match r.Seek e.Offset SeekStart with
    | (_, some err) => .error err
    | (r1, none) =>
      match decodeHeader (r1.r.drop r1.pos) e with
      | .error err => .error err
      | .ok e1 =>
        match readHeadersLoop r1 es with
        | .error err => .error err
        | .ok (es1, r2) => .ok (e1 :: es1, r2)

/-- Insertion into a list ordered by `Offset`; the inserted element stays in front of
elements with the same offset. -/
def insertByOffset (x : Nat × Entry) : List (Nat × Entry) → List (Nat × Entry)
  | [] => [x]
  | y :: ys => if y.2.Offset < x.2.Offset then y :: insertByOffset x ys else x :: y :: ys

/-- The `sort.Slice(entries, ... entries[i].Offset < entries[j].Offset)` of `readData`,
as a stable sort of the entries tagged with their directory index. For up to 12 entries
`sort.Slice` is an insertion sort, which is stable; for more entries it is not stable, and
the order in which it leaves entries of equal offset is not modelled: with pairwise
distinct offsets every sorting algorithm gives this list. -/
def sortByOffset : List (Nat × Entry) → List (Nat × Entry)
  | [] => []
  | x :: xs => insertByOffset x (sortByOffset xs)

/-- The loop of `readData` over the entries in ascending offset order. -/
def readDataLoop : reader → List (Nat × Entry) → Except Err (List (Nat × Entry) × reader)
  | r, [] => .ok ([], r)
  | r, (i, e) :: es =>
    match r.Seek e.Offset SeekStart with
    | (_, some err) => .error err
    | (r1, none) =>
      match r1.ReadFull e.Size.toNat with
      | (.error err, _) => .error err
      | (.ok data, r2) =>
        match decodeHeader data { e with data := data } with
        | .error err => .error err
        | .ok e1 =>
          match readDataLoop r2 es with
          | .error err => .error err
          | .ok (es1, r3) => .ok ((i, e1) :: es1, r3)

/-- The entry with directory index `i` among the processed entries. -/
def lookupEntry (i : Nat) : List (Nat × Entry) → Option Entry
  | [] => none
  | (j, e) :: es => if j = i then some e else lookupEntry i es

/-- The method `readData`: the entries are shared between the sorted copy and
`d.entries`, so the directory keeps its order and every slot sees its processed entry. -/
def readData (d : Decoder) : Except Err Decoder :=
  match readDataLoop d.r (sortByOffset d.entries.enum) with
  | .error err => .error err
  | .ok (done, r1) =>
    .ok { d with r := r1,
                 entries := d.entries.enum.map (fun p => (lookupEntry p.1 done).getD p.2) }

/-- The method `readHeaders`. -/
def readHeaders (d : Decoder) : Except Err Decoder :=
  if ¬ d.r.canSeekBackward then readData d
  else
    match readHeadersLoop d.r d.entries with
    | .error err => .error err
    | .ok (es, r1) => .ok { d with r := r1, entries := es }

/-- The method `DecodeDir`. -/
def DecodeDir (d : Decoder) : Except Err Decoder :=
  match d.r.ReadFull fileHeaderLen with
  | (.error err, _) => .error (eofToUnexpected err)
  | (.ok b, r1) =>
    if d.icon ∧ b.take 4 ≠ icoPrefix then .error (.FormatError "not an ICO file")
    else if ¬ d.icon ∧ b.take 4 ≠ curPrefix then .error (.FormatError "not a CUR file")
    else
      let count := LittleEndian.Uint16 (b.drop 4)
      if count = 0 then
        if d.icon then .error (.FormatError "no icons")
        else .error (.FormatError "no cursors")
      else
        match readDirEntries d.icon count r1 with
        | .error err => .error err
        | .ok (es, r2) => readHeaders { d with r := r2, entries := d.entries ++ es }

/-- One step of the loop of `Best`; `Width*Height` is a product of Go `int`s. -/
def bestStep (best : Option Entry) (e : Entry) : Option Entry :=
  match best with
  | none => some e
  | some b =>
    if wrapInt64 (e.Width * e.Height) > wrapInt64 (b.Width * b.Height) ∨ e.BPP > b.BPP
    then some e else some b

/-- The method `Best`: the selected entry (`none` is Go's `nil`) and the error. -/
def Best (d : Decoder) : Option Entry × Option Err :=
  (d.entries.foldl bestStep none, none)

/-! ## The in-memory raster abstraction (packages `image`, `image/color`, `image/draw`)

A colour is what its method `RGBA()` returns.  A raster is one of the dynamic types the
codec distinguishes; pixels are addressed by absolute coordinates. -/

structure Point where
  X : Int
  Y : Int
  deriving DecidableEq, Repr

structure Rectangle where
  Min : Point
  Max : Point
  deriving DecidableEq, Repr

def Rectangle.Size (r : Rectangle) : Point := ⟨r.Max.X - r.Min.X, r.Max.Y - r.Min.Y⟩

def Rectangle.Empty (r : Rectangle) : Bool :=
  decide (r.Min.X ≥ r.Max.X) || decide (r.Min.Y ≥ r.Max.Y)

/-- Test `Point{x, y}.In(r)`. -/
def Rectangle.Has (r : Rectangle) (x y : Int) : Bool :=
  decide (r.Min.X ≤ x) && decide (x < r.Max.X) && decide (r.Min.Y ≤ y) && decide (y < r.Max.Y)

/-- The constructor `image.Rect`, which orders its corners. -/
def Rect (x0 y0 x1 y1 : Int) : Rectangle :=
  ⟨⟨min x0 x1, min y0 y1⟩, ⟨max x0 x1, max y0 y1⟩⟩

/-- The values `lo, lo+1, ..., hi-1` of a `for v := lo; v < hi; v++` loop. -/
def intRange (lo hi : Int) : List Int :=
  (List.range (hi - lo).toNat).map (fun i => lo + (i : Int))

/-- A `color.Color`, given by the four results of `RGBA()`. -/
structure Color where
  R : Nat
  G : Nat
  B : Nat
  A : Nat
  deriving DecidableEq, Repr

namespace color

def Transparent : Color := ⟨0, 0, 0, 0⟩
def Opaque : Color := ⟨0xffff, 0xffff, 0xffff, 0xffff⟩
def Black : Color := ⟨0, 0, 0, 0xffff⟩

end color

/-- A pixel of an `*image.RGBA`: four 8-bit alpha-premultiplied channels. -/
structure RGBA8 where
  R : Nat
  G : Nat
  B : Nat
  A : Nat
  deriving DecidableEq, Repr

/-- Method `color.RGBA.RGBA()`. -/
def RGBA8.RGBA (c : RGBA8) : Color := ⟨c.R * 0x101, c.G * 0x101, c.B * 0x101, c.A * 0x101⟩

/-- Conversion `color.RGBAModel.Convert`, which keeps the high byte of every channel. -/
def RGBAModel (c : Color) : RGBA8 :=
  ⟨c.R / 256 % 256, c.G / 256 % 256, c.B / 256 % 256, c.A / 256 % 256⟩

/-- Conversion `color.GrayModel.Convert`, as the 8-bit luminance. -/
def GrayModel (c : Color) : Nat :=
  ((19595 * c.R + 38470 * c.G + 7471 * c.B + 32768) % 4294967296) / 16777216

/-- Helper `sqDiff` of package `color`, in `uint32` arithmetic. -/
def sqDiff (x y : Nat) : Nat :=
  let d := (x + 4294967296 - y % 4294967296) % 4294967296
  (d * d % 4294967296) / 4

/-- The loop of `color.Palette.Index`: `ret` and `bestSum` are the running best, `i` is
the index of the head of the remaining palette. -/
def paletteIndexLoop (c : Color) : List Color → Nat → Nat → Nat → Nat
  | [], _, ret, _ => ret
  | v :: vs, i, ret, bestSum =>
    let sum := (sqDiff c.R v.R + sqDiff c.G v.G + sqDiff c.B v.B + sqDiff c.A v.A) % 4294967296
    if sum < bestSum then
      if sum = 0 then i else paletteIndexLoop c vs (i + 1) i sum
    else paletteIndexLoop c vs (i + 1) ret bestSum

/-- Method `color.Palette.Index`. -/
def paletteIndex (p : List Color) (c : Color) : Nat :=
  paletteIndexLoop c p 0 0 4294967295

/-- The dynamic types of `image.Image` that the codec tells apart.  `Other` stands for
every further type: `At` gives its pixels, `opaqueMethod` is the result of its method
`Opaque()` when it has one, `Model` is what its method `Set` stores (seen through
`RGBA()`) when it is a `draw.Image`. -/
inductive Image where
  | Paletted (Rect : Rectangle) (Palette : List Color) (Pix : Int → Int → Nat)
  | Gray (Rect : Rectangle) (Pix : Int → Int → Nat)
  | RGBA (Rect : Rectangle) (Pix : Int → Int → RGBA8)
  | nonOpaqueRGBA (Rect : Rectangle) (Pix : Int → Int → RGBA8)
  | Other (Rect : Rectangle) (At : Int → Int → Color) (opaqueMethod : Option Bool)
      (Model : Option (Color → Color))

/-- Method `Bounds()`. -/
def Image.Bounds : Image → Rectangle
  | .Paletted r _ _ => r
  | .Gray r _ => r
  | .RGBA r _ => r
  | .nonOpaqueRGBA r _ => r
  | .Other r _ _ _ => r

/-- Method `At(x, y)`, seen through `RGBA()`. A palette index beyond the palette (a
run-time panic in Go) reads as the zero colour. -/
def Image.At (m : Image) (x y : Int) : Color :=
  match m with
  | .Paletted r p pix =>
    if r.Has x y then p.getD (pix x y) ⟨0, 0, 0, 0⟩ else p.getD 0 ⟨0, 0, 0, 0⟩
  | .Gray r pix =>
    if r.Has x y then ⟨pix x y * 0x101, pix x y * 0x101, pix x y * 0x101, 0xffff⟩
    else ⟨0, 0, 0, 0xffff⟩
  | .RGBA r pix => if r.Has x y then (pix x y).RGBA else ⟨0, 0, 0, 0⟩
  | .nonOpaqueRGBA r pix => if r.Has x y then (pix x y).RGBA else ⟨0, 0, 0, 0⟩
  | .Other _ f _ _ => f x y

/-- All pixels of the rectangle satisfy `p`. -/
def Rectangle.all (r : Rectangle) (p : Int → Int → Bool) : Bool :=
  (intRange r.Min.Y r.Max.Y).all (fun y => (intRange r.Min.X r.Max.X).all (fun x => p x y))

/-- Interface `opaquer`: the result of `Opaque()` for the types that have the method. -/
def Image.opaqueMethod : Image → Option Bool
  | .Paletted r p pix =>
    some (r.all (fun x y => decide (pix x y < p.length → (p.getD (pix x y) ⟨0, 0, 0, 0⟩).A = 0xffff)))
  | .Gray _ _ => some true
  | .RGBA r pix => some (r.all (fun x y => decide ((pix x y).A = 0xff)))
  | .nonOpaqueRGBA _ _ => some false
  | .Other _ _ o _ => o

/-- The net effect of calling the method `Set(x, y, c)` of a `draw.Image` once for every
pixel `(x, y)` with `sel x y`; `none` when the type has no such method. -/
def Image.setWhere (m : Image) (sel : Int → Int → Bool) (c : Color) : Option Image :=
  match m with
  | .Paletted r p pix =>
    some (.Paletted r p (fun x y => if r.Has x y ∧ sel x y then paletteIndex p c % 256 else pix x y))
  | .Gray r pix =>
    some (.Gray r (fun x y => if r.Has x y ∧ sel x y then GrayModel c else pix x y))
  | .RGBA r pix =>
    some (.RGBA r (fun x y => if r.Has x y ∧ sel x y then RGBAModel c else pix x y))
  | .nonOpaqueRGBA r pix =>
    some (.nonOpaqueRGBA r (fun x y => if r.Has x y ∧ sel x y then RGBAModel c else pix x y))
  | .Other r f o model =>
    match model with
    | none => none
    | some conv => some (.Other r (fun x y => if sel x y then conv c else f x y) o (some conv))

/-- The call `draw.Draw(tmp, tmp.Bounds(), m, m.Bounds().Min, draw.Src)` on a fresh
`tmp := image.NewRGBA(m.Bounds())`: the pixels of `tmp`. -/
def drawSrcRGBA (m : Image) : Int → Int → RGBA8 :=
  fun x y => if m.Bounds.Has x y then RGBAModel (m.At x y) else ⟨0, 0, 0, 0⟩

/-- One channel of the `draw.Over` compositing of `image/draw` into an `*image.RGBA`:
`uint8((d*a + s*m) / m >> 8)` with `m = 0xffff`, in `uint32` arithmetic. -/
def overChannel (d a s : Nat) : Nat :=
  ((d * a + s * 0xffff) % 4294967296) / 0xffff / 256 % 256

/-- The `draw.Over` compositing of the source colour `s` onto the destination pixel `d`. -/
def drawOverPixel (d : RGBA8) (s : Color) : RGBA8 :=
  let a := ((0xffff + 4294967296 - s.A % 4294967296) % 4294967296) * 0x101 % 4294967296
  ⟨overChannel d.R a s.R, overChannel d.G a s.G, overChannel d.B a s.B, overChannel d.A a s.A⟩

/-- The two calls `draw.Draw(tmp, ..., image.Black, ..., draw.Src)` and
`draw.Draw(tmp, ..., m, m.Bounds().Min, draw.Over)` on a fresh `tmp`: the pixels of `tmp`. -/
def drawOverBlack (m : Image) : Int → Int → RGBA8 :=
  fun x y => if m.Bounds.Has x y then drawOverPixel ⟨0, 0, 0, 0xff⟩ (m.At x y) else ⟨0, 0, 0, 0⟩

/-- Result of `image.DecodeConfig`. -/
structure Config where
  ColorModel : String
  Width : Int
  Height : Int
  deriving DecidableEq, Repr

/-- Errors an external codec can return: the sentinel errors of `io` it meets on its
input, and values of its own error types. -/
inductive CodecErr where
  | EOF
  | ErrUnexpectedEOF
  | other (msg : String)
  deriving DecidableEq, Repr

def CodecErr.toErr : CodecErr → Err
  | .EOF => .EOF
  | .ErrUnexpectedEOF => .ErrUnexpectedEOF
  | .other msg => .external msg

/-- The external collaborators: the PNG codec of the standard library and the BMP codec
`github.com/sergeymakinen/go-bmp`.  Encoders return the bytes they write; decoders get
the byte stream they read from; `bmpDecode` also returns the part of the stream it has
not consumed, which `Decode` goes on to read the mask from. -/
structure Codecs where
  pngEncode : Image → Except CodecErr (List Nat)
  pngDecode : List Nat → Except CodecErr Image
  pngDecodeConfig : List Nat → Except CodecErr Config
  bmpEncode : Image → Except CodecErr (List Nat)
  bmpDecode : List Nat → Except CodecErr (Image × List Nat)
  bmpDecodeConfig : List Nat → Except CodecErr Config

/-! ## The mask codec -/

def maskPalette : List Color := [color.Transparent, color.Opaque]

/-- Row length of the mask in bytes: `((width+8-1)/8 + 3) &^ 3`. -/
def maskStride (width : Nat) : Nat := ((width + 8 - 1) / 8 + 3) / 4 * 4

/-- The inner loop of `encodeMask` over `n` more pixels, from pixel `x` on, with the
cursor at bit `bit` of byte `byte` of the row buffer `b`. -/
def encodeMaskRow (pix : Nat → Nat) : Nat → List Nat → Nat → Nat → Nat → List Nat
  | 0, b, _, _, _ => b
  | n + 1, b, x, byte, bit =>
    let b1 := b.set byte (((b.getD byte 0 &&& (255 - 2 ^ bit)) ||| (pix x <<< bit)) % 256)
    if bit = 0 then encodeMaskRow pix n b1 (x + 1) (byte + 1) 7
    else encodeMaskRow pix n b1 (x + 1) byte (bit - 1)

/-- The outer loop of `encodeMask`, `y` going from `rows - 1` down to `0`; the row buffer
is reused from one row to the next. The result is what is written. -/
def encodeMaskRows (pix : Nat → Nat → Nat) (width : Nat) : Nat → List Nat → List Nat
  | 0, _ => []
  | y + 1, b =>
    let b1 := encodeMaskRow (fun x => pix x y) width b 0 0 7
    b1 ++ encodeMaskRows pix width y b1

/-- The raster `mask` built at the start of `encodeMask`: `mask.Pix[y*mask.Stride+x]`. -/
def encodeMaskPix (m : Image) (x y : Nat) : Nat :=
  if (m.At (m.Bounds.Min.X + (x : Int)) (m.Bounds.Min.Y + (y : Int))).A = 0
  then paletteIndex maskPalette color.Opaque % 256 else 0

/-- The function `encodeMask` writing to a sink that accepts every write: the bytes
written and the count `n`. -/
def encodeMask (m : Image) : List Nat × Nat :=
  let d := m.Bounds.Size
  let b := List.replicate (maskStride d.X.toNat) 0
  let out := encodeMaskRows (encodeMaskPix m) d.X.toNat d.Y.toNat b
  (out, out.length)

/-- The inner loop of `decodeMask` over `n` more pixels with the cursor at bit `bit` of
byte `byte` of the row `b`: the pixel values `p[x]`. -/
def decodeMaskRow (b : List Nat) : Nat → Nat → Nat → List Nat
  | 0, _, _ => []
  | n + 1, byte, bit =>
    ((b.getD byte 0 >>> bit) &&& 1) ::
      (if bit = 0 then decodeMaskRow b n (byte + 1) 7 else decodeMaskRow b n byte (bit - 1))

/-- The outer loop of `decodeMask` over `rows` more rows: the rows in the order read and
the rest of the stream. A failed `io.ReadFull` is returned as it is. -/
def decodeMaskRows (stride width : Nat) : Nat → List Nat → Except Err (List (List Nat) × List Nat)
  | 0, s => .ok ([], s)
  | rows + 1, s =>
    match readFull s stride with
    | .error err => .error err
    | .ok (b, s1) =>
      match decodeMaskRows stride width rows s1 with
      | .error err => .error err
      | .ok (ps, s2) => .ok (decodeMaskRow b width 0 7 :: ps, s2)

/-- The function `decodeMask` on the stream `s`: the pixels of the mask (palette indices
into `maskPalette`), the flag `opaque` and the rest of the stream. A negative width or
height (a run-time panic in Go) is reported as `runtimePanic`. -/
def decodeMask (s : List Nat) (e : Entry) :
    Except Err ((Int → Int → Nat) × Bool × List Nat) :=
  if e.Width = 0 ∨ e.Height = 0 then .ok (fun _ _ => 0, true, s)
  else if e.Width < 0 ∨ e.Height < 0 then .error (.runtimePanic "slice bounds out of range")
  else
    let width := e.Width.toNat
    let height := e.Height.toNat
    match decodeMaskRows (maskStride width) width height s with
    | .error err => .error err
    | .ok (rows, rest) =>
      let pix : Int → Int → Nat := fun x y =>
        if 0 ≤ x ∧ x < e.Width ∧ 0 ≤ y ∧ y < e.Height then
          let k := if e.topDown then y.toNat else height - 1 - y.toNat
          (rows.getD k []).getD x.toNat 0
        else 0
      (.ok (pix, rows.all (fun row => row.all (fun v => v == 0)), rest))

/-! ## The entry assembler -/

structure Encoder where
  w : List Nat
  icon : Bool
  entries : List Entry
  deriving DecidableEq, Repr

/-- The constructor `NewEncoder`; `w` is what the sink holds already. -/
def NewEncoder (w : List Nat) (icon : Bool) : Encoder :=
  { w := w, icon := icon, entries := [] }

/-- Function `strconv.Itoa`. -/
def Itoa (n : Int) : String := toString n

/-- The function `drawOpaque(dst, src)` on a fresh `dst := image.NewPaletted(src.Bounds(), p)`:
the pixels of `dst`. -/
def drawOpaque (p : List Color) (src : Image) : Int → Int → Nat :=
  fun x y =>
    if src.Bounds.Has x y ∧ (src.At x y).A ≠ 0 then paletteIndex p (src.At x y) % 256 else 0

/-- The inner loop of the function `opaque` over one row, which `break`s at the first
pixel that is neither transparent nor fully opaque. -/
def opaqueRow (m : Image) (y : Int) : List Int → Bool × Bool → Bool × Bool
  | [], st => st
  | x :: xs, st =>
    if (m.At x y).A ≠ 0 then
      if (m.At x y).A ≠ 0xFFFF then (false, true)
      else opaqueRow m y xs (false, st.2)
    else opaqueRow m y xs st

/-- The function `opaque` of `encoder.go`: the results `(opaque, semiopaque)`. -/
def opaqueOf (m : Image) : Bool × Bool :=
  if m.opaqueMethod = some true then (true, false)
  else
    (intRange m.Bounds.Min.Y m.Bounds.Max.Y).foldl
      (fun st y => opaqueRow m y (intRange m.Bounds.Min.X m.Bounds.Max.X) st) (true, false)

/-- The raster `m2` that `Add` hands to `png.Encode`. -/
def pngRaster (m : Image) : Image :=
  match m with
  | .RGBA r pix => .nonOpaqueRGBA r pix
  | _ => .nonOpaqueRGBA m.Bounds (drawSrcRGBA m)

/-- The raster `m2` that `Add` hands to `bmp.Encode`, and the value `entry.Colors` has
at that point. -/
def dibRaster (m : Image) (colors : Int) : Image × Int :=
  match m with
  | .Paletted _ palette _ =>
    let p := palette.filter (fun c => c.A ≠ 0)
    let redraw := decide (p.length ≠ palette.length)
    let n := p.length
    let p1 := if n = 3 ∨ n = 4 then p ++ [color.Black, color.Black].take (5 - n) else p
    let redraw1 := if n = 3 ∨ n = 4 then true else redraw
    if redraw1 then (.Paletted m.Bounds p1 (drawOpaque p1 m), (p1.length : Int))
    else (m, colors)
  | .Gray _ _ => (m, colors)
  | _ =>
    if (opaqueOf m).1 = false ∧ (opaqueOf m).2 = false
    then (.RGBA m.Bounds (drawOverBlack m), colors)
    else (m, colors)

/-- The end of `Add`: the entry's own bytes are parsed again for the metadata. -/
def finishEntry (entry : Entry) : Except Err Entry :=
  match decodeHeader entry.data Entry.zero with
  | .error err => .error err
  | .ok tmp =>
    .ok { entry with Colors := tmp.Colors, BPP := tmp.BPP, Size := (entry.data.length : Int) }

/-- The palette length that fails the second admission check of `Add`, if any. -/
def badPaletteLen : Image → Option Nat
  | .Paletted _ palette _ =>
    if palette.length = 0 ∨ palette.length > 256 then some palette.length else none
  | _ => none

/-- The `if d.X == 256 && d.Y == 256 { switch ... }` of `Add`: the value given to
`entry.Colors` and the flag `isPNG`. -/
def formatSelect (m : Image) : Int × Bool :=
  if m.Bounds.Size.X = 256 ∧ m.Bounds.Size.Y = 256 then
    match m with
    | .Paletted _ palette _ => ((palette.length : Int), false)
    | .Gray _ _ => (256, false)
    | _ => (0, true)
  else (0, false)

/-- The body of `Add` after the admission checks, up to its last statement: the entry that
is appended, or the error that is returned. -/
def assembleEntry (cod : Codecs) (m : Image) (xHotspot yHotspot : Int) : Except Err Entry :=
  let d := m.Bounds.Size
  let entry : Entry := { Entry.zero with
    Width := d.X, Height := d.Y, XHotspot := xHotspot, YHotspot := yHotspot }
  let sel := formatSelect m
  if sel.2 then
    match cod.pngEncode (pngRaster m) with
    | .error err => .error err.toErr
    | .ok buf => finishEntry { entry with Colors := sel.1, data := buf }
  else
    let m2 := dibRaster m sel.1
    match cod.bmpEncode m2.1 with
    | .error err => .error err.toErr
    | .ok buf =>
      let mask := encodeMask m
      let all := buf ++ mask.1
      if all.length < bmpFileHeaderLen + 24 then
        .error (.runtimePanic "slice bounds out of range")
      else
        let data := all.drop bmpFileHeaderLen
        let data1 := patch data 8 (LittleEndian.PutUint32 (toUint32 (entry.Height * 2)))
        let size := LittleEndian.Uint32 (data1.drop 20)
        let data2 := patch data1 20
          (LittleEndian.PutUint32 ((size + mask.2 % 4294967296) % 4294967296))
        finishEntry { entry with
          Colors := m2.2, bmpHeader := some (buf.take bmpFileHeaderLen), data := data2 }

/-- The body of `Add` up to its last statement: the three admission checks, then the
assembly of the entry. -/
def addEntry (cod : Codecs) (m : Image) (xHotspot yHotspot : Int) : Except Err Entry :=
  let d := m.Bounds.Size
  if d.X < 1 ∨ d.Y < 1 ∨ d.X > 256 ∨ d.Y > 256 then
    .error (.FormatError ("invalid image size: " ++ Itoa d.X ++ "x" ++ Itoa d.Y))
  else
    match badPaletteLen m with
    | some n => .error (.FormatError ("bad palette length: " ++ Itoa (n : Int)))
    | none =>
      if xHotspot < 0 ∨ yHotspot < 0 ∨ xHotspot > 256 ∨ yHotspot > 256 then
        .error (.FormatError ("invalid hotspot: " ++ Itoa xHotspot ++ "x" ++ Itoa yHotspot))
      else assembleEntry cod m xHotspot yHotspot

/-- The method `Add`: the encoder afterwards and the error returned. -/
def Encoder.Add (cod : Codecs) (e : Encoder) (m : Image) (xHotspot yHotspot : Int) :
    Encoder × Option Err :=
  match addEntry cod m xHotspot yHotspot with
  | .error err => (e, some err)
  | .ok entry => ({ e with entries := e.entries ++ [entry] }, none)

/-- The closure `trunc` of `Encode`. -/
def trunc (n : Int) : Nat := toByte (if n ≥ 256 then 0 else n)

/-- One directory record as `binary.Write` lays it out. -/
def dirRecord (icon : Bool) (m : Entry) (off : Int) : List Nat :=
  [trunc m.Width, trunc m.Height, trunc m.Colors, 0]
    ++ LittleEndian.PutUint16 (if icon then 1 else toUint16 m.XHotspot)
    ++ LittleEndian.PutUint16 (if icon then toUint16 m.BPP else toUint16 m.YHotspot)
    ++ LittleEndian.PutUint32 (toUint32 (m.data.length : Int))
    ++ LittleEndian.PutUint32 (toUint32 off)

/-- The first loop of `Encode`, with the running offset `off`. -/
def encodeDir (icon : Bool) : List Entry → Int → List Nat
  | [], _ => []
  | m :: ms, off => dirRecord icon m off ++ encodeDir icon ms (off + (m.data.length : Int))

/-- The second loop of `Encode`. -/
def encodeData : List Entry → List Nat
  | [] => []
  | m :: ms => m.data ++ encodeData ms

/-- The bytes `Encode` writes for the entries `es`. -/
def encodeBytes (icon : Bool) (es : List Entry) : List Nat :=
  (if icon then icoPrefix else curPrefix) ++ LittleEndian.PutUint16 (toUint16 (es.length : Int))
    ++ encodeDir icon es ((fileHeaderLen : Int) + (dirEntryLen : Int) * (es.length : Int))
    ++ encodeData es

/-- The method `Encode` on a sink that accepts every write. -/
def Encoder.Encode (e : Encoder) : Encoder × Option Err :=
  ({ e with w := e.w ++ encodeBytes e.icon e.entries }, none)

/-! ## Entry decode to pixels -/

/-- The method `Decoder.reader`: the byte stream the sub-image is read from, and `isPNG`.
On a seekable source the stream runs from the entry's offset to the end of the source;
otherwise it is the buffered payload. For a DIB entry the synthesized header comes first. -/
def Decoder.reader (d : Decoder) (e : Entry) : Except Err (List Nat × Bool) :=
  let base : Except Err (List Nat) :=
    if d.r.canSeekBackward then
      match d.r.Seek e.Offset SeekStart with
      | (_, some err) => .error err
      | (r1, none) => .ok (r1.r.drop r1.pos)
    else .ok e.data
  match base with
  | .error err => .error err
  | .ok s =>
    match e.bmpHeader with
    | none => .ok (s, true)
    | some h => .ok (h ++ s, false)

/-- The `if !opaque { ... }` block of `Decode`: `m` is the decoded DIB, `mask` the decoded
mask. A raster that is no `draw.Image` (a run-time panic in Go) gives `runtimePanic`. -/
def applyMask (m : Image) (mask : Int → Int → Nat) (e : Entry) : Except Err Image :=
  let sel : Int → Int → Bool := fun x y =>
    decide (0 ≤ x ∧ x < e.Width ∧ 0 ≤ y ∧ y < e.Height) &&
      decide (maskPalette.getD (mask x y) ⟨0, 0, 0, 0⟩ = color.Opaque)
  let prepared : Image × Color :=
    match m with
    | .Paletted r palette pix =>
      match palette.find? (fun c => c.A = 0) with
      | some c => (m, c)
      | none =>
        if palette.length ≥ 256 then (.RGBA m.Bounds (drawSrcRGBA m), color.Transparent)
        else (.Paletted r (palette ++ [color.Transparent]) pix, color.Transparent)
    | _ => (m, color.Transparent)
  match prepared.1.setWhere sel prepared.2 with
  | none => .error (.runtimePanic "interface conversion: image.Image is not draw.Image")
  | some m1 => .ok m1

/-- The method `Decode`. -/
def Decoder.Decode (cod : Codecs) (d : Decoder) (e : Entry) : Except Err Image :=
  match d.reader e with
  | .error err => .error err
  | .ok (s, isPNG) =>
    if isPNG then
      match cod.pngDecode s with
      | .error err => .error err.toErr
      | .ok m => .ok m
    else
      match cod.bmpDecode s with
      | .error err => .error err.toErr
      | .ok (m, rest) =>
        match decodeMask rest e with
        | .error err => .error err
        | .ok (mask, isOpaque, _) =>
          if ¬ isOpaque then applyMask m mask e else .ok m

/-- The method `DecodeConfig`. -/
def Decoder.DecodeConfig (cod : Codecs) (d : Decoder) (e : Entry) : Except Err Config :=
  match d.reader e with
  | .error err => .error err
  | .ok (s, isPNG) =>
    match (if isPNG then cod.pngDecodeConfig s else cod.bmpDecodeConfig s) with
    | .error err => .error err.toErr
    | .ok c => .ok c

/-- The loop of `DecodeAll`. -/
def decodeAllLoop (cod : Codecs) (d : Decoder) : List Entry → Except Err (List Image)
  | [] => .ok []
  | e :: es =>
    match d.Decode cod e with
    | .error err => .error err
    | .ok m =>
      match decodeAllLoop cod d es with
      | .error err => .error err
      | .ok mm => .ok (m :: mm)

/-- The method `DecodeAll`. -/
def Decoder.DecodeAll (cod : Codecs) (d : Decoder) : Except Err (List Entry × List Image) :=
  match decodeAllLoop cod d d.entries with
  | .error err => .error err
  | .ok mm => .ok (d.entries, mm)

end Icondir

/-! ## Package `ico` -/

namespace Ico

open Icondir

/-- The error values of package `ico`: its two error types, and every other error value,
which `convertErr` hands on as it is. -/
inductive Error where
  | FormatError (msg : String)
  | UnsupportedError (msg : String)
  | other (err : Err)
  deriving DecidableEq, Repr

/-- The `Error()` methods. -/
def Error.Error : Error → String
  | .FormatError s => "ico: invalid format: " ++ s
  | .UnsupportedError s => "ico: unsupported feature: " ++ s
  | .other err => err.Error

def convertErr (err : Err) : Error :=
  match err with
  | .FormatError s => .FormatError (Err.Error (.FormatError s))
  | .UnsupportedError s => .UnsupportedError (Err.Error (.UnsupportedError s))
  | _ => .other err

/-- Function `ico.DecodeAll`; `r` is the source, `seekable` the outcome of its seek probe. -/
def DecodeAll (cod : Codecs) (r : List Nat) (seekable : Bool) : Except Error (List Image) :=
  match DecodeDir (NewDecoder r seekable true) with
  | .error err => .error (convertErr err)
  | .ok d =>
    match d.DecodeAll cod with
    | .error err => .error (convertErr err)
    | .ok (_, mm) => .ok mm

/-- Function `ico.Decode`. -/
def Decode (cod : Codecs) (r : List Nat) (seekable : Bool) : Except Error Image :=
  match DecodeDir (NewDecoder r seekable true) with
  | .error err => .error (convertErr err)
  | .ok d =>
    match Best d with
    | (_, some err) => .error (convertErr err)
    | (none, none) => .error (.other (.runtimePanic "nil pointer dereference"))
    | (some e, none) =>
      match d.Decode cod e with
      | .error err => .error (convertErr err)
      | .ok m => .ok m

/-- Function `ico.DecodeConfig`. -/
def DecodeConfig (cod : Codecs) (r : List Nat) (seekable : Bool) : Except Error Config :=
  match DecodeDir (NewDecoder r seekable true) with
  | .error err => .error (convertErr err)
  | .ok d =>
    match Best d with
    | (_, some err) => .error (convertErr err)
    | (none, none) => .error (.other (.runtimePanic "nil pointer dereference"))
    | (some e, none) =>
      match d.DecodeConfig cod e with
      | .error err => .error (convertErr err)
      | .ok c => .ok c

/-- The loop of `EncodeAll`. -/
def addAll (cod : Codecs) : Encoder → List Image → Encoder × Option Err
  | e, [] => (e, none)
  | e, m :: mm =>
    match e.Add cod m 0 0 with
    | (e1, some err) => (e1, some err)
    | (e1, none) => addAll cod e1 mm

/-- Function `ico.EncodeAll`; `w` is what the sink holds already. The results are what the
sink holds afterwards and the error. -/
def EncodeAll (cod : Codecs) (w : List Nat) (mm : List Image) : List Nat × Option Error :=
  match addAll cod (NewEncoder w true) mm with
  | (e, some err) => (e.w, some (convertErr err))
  | (e, none) =>
    match e.Encode with
    | (e1, some err) => (e1.w, some (convertErr err))
    | (e1, none) => (e1.w, none)

/-- Function `ico.Encode`. -/
def Encode (cod : Codecs) (w : List Nat) (m : Image) : List Nat × Option Error :=
  match (NewEncoder w true).Add cod m 0 0 with
  | (e, some err) => (e.w, some (convertErr err))
  | (e, none) =>
    match e.Encode with
    | (e1, some err) => (e1.w, some (convertErr err))
    | (e1, none) => (e1.w, none)

end Ico

/-! ## Package `cur` -/

namespace Cur

open Icondir

inductive Error where
  | FormatError (msg : String)
  | UnsupportedError (msg : String)
  | other (err : Err)
  deriving DecidableEq, Repr

def Error.Error : Error → String
  | .FormatError s => "cur: invalid format: " ++ s
  | .UnsupportedError s => "cur: unsupported feature: " ++ s
  | .other err => err.Error

def convertErr (err : Err) : Error :=
  match err with
  | .FormatError s => .FormatError (Err.Error (.FormatError s))
  | .UnsupportedError s => .UnsupportedError (Err.Error (.UnsupportedError s))
  | _ => .other err

structure Hotspot where
  X : Int
  Y : Int
  deriving DecidableEq, Repr

structure CUR where
  Cursor : List Image
  Hotspot : List Hotspot

/-- Function `cur.DecodeAll`. -/
def DecodeAll (cod : Codecs) (r : List Nat) (seekable : Bool) : Except Error CUR :=
  match DecodeDir (NewDecoder r seekable false) with
  | .error err => .error (convertErr err)
  | .ok d =>
    match d.DecodeAll cod with
    | .error err => .error (convertErr err)
    | .ok (entries, mm) =>
      .ok { Cursor := mm.take entries.length,
            Hotspot := entries.map (fun e => ⟨e.XHotspot, e.YHotspot⟩) }

/-- Function `cur.Decode`. -/
def Decode (cod : Codecs) (r : List Nat) (seekable : Bool) : Except Error Image :=
  match DecodeDir (NewDecoder r seekable false) with
  | .error err => .error (convertErr err)
  | .ok d =>
    match Best d with
    | (_, some err) => .error (convertErr err)
    | (none, none) => .error (.other (.runtimePanic "nil pointer dereference"))
    | (some e, none) =>
      match d.Decode cod e with
      | .error err => .error (convertErr err)
      | .ok m => .ok m

/-- Function `cur.DecodeConfig`. -/
def DecodeConfig (cod : Codecs) (r : List Nat) (seekable : Bool) : Except Error Config :=
  match DecodeDir (NewDecoder r seekable false) with
  | .error err => .error (convertErr err)
  | .ok d =>
    match Best d with
    | (_, some err) => .error (convertErr err)
    | (none, none) => .error (.other (.runtimePanic "nil pointer dereference"))
    | (some e, none) =>
      match d.DecodeConfig cod e with
      | .error err => .error (convertErr err)
      | .ok c => .ok c

/-- The loop of `EncodeAll`. -/
def addAll (cod : Codecs) : Encoder → List Image → Encoder × Option Err
  | e, [] => (e, none)
  | e, m :: mm =>
    match e.Add cod m 0 0 with
    | (e1, some err) => (e1, some err)
    | (e1, none) => addAll cod e1 mm

/-- Function `cur.EncodeAll`, which returns the error of `Encode` unconverted. -/
def EncodeAll (cod : Codecs) (w : List Nat) (mm : List Image) : List Nat × Option Error :=
  match addAll cod (NewEncoder w false) mm with
  | (e, some err) => (e.w, some (convertErr err))
  | (e, none) =>
    match e.Encode with
    | (e1, some err) => (e1.w, some (.other err))
    | (e1, none) => (e1.w, none)

/-- Function `cur.Encode`. -/
def Encode (cod : Codecs) (w : List Nat) (m : Image) : List Nat × Option Error :=
  match (NewEncoder w false).Add cod m 0 0 with
  | (e, some err) => (e.w, some (convertErr err))
  | (e, none) =>
    match e.Encode with
    | (e1, some err) => (e1.w, some (.other err))
    | (e1, none) => (e1.w, none)

end Cur

/-! # A small codec pair for worked examples

`toyCodecs` stores every raster as 32-bit pixels behind a 14-byte file header and a
40-byte info-header (BMP side) or behind a signature and an `IHDR` chunk (PNG side, header
only). It stands in for the external codecs where a statement is evaluated on concrete
input. -/

namespace Icondir

/-- The four bytes of one pixel. -/
def toyPixel (c : RGBA8) : List Nat := [c.B % 256, c.G % 256, c.R % 256, c.A % 256]

/-- The pixel rows of `m`, bottom row first. -/
def toyRows (m : Image) (width : Nat) : Nat → List Nat
  | 0 => []
  | y + 1 =>
    ((List.range width).map (fun x =>
        toyPixel (RGBAModel (m.At (m.Bounds.Min.X + (x : Int)) (m.Bounds.Min.Y + (y : Int)))))).flatten
      ++ toyRows m width y

def toyBmpEncode (m : Image) : Except CodecErr (List Nat) :=
  let width := m.Bounds.Size.X.toNat
  let height := m.Bounds.Size.Y.toNat
  .ok ([0x42, 0x4D] ++ LittleEndian.PutUint32 (54 + 4 * width * height) ++ [0, 0, 0, 0]
    ++ LittleEndian.PutUint32 54
    ++ LittleEndian.PutUint32 40 ++ LittleEndian.PutUint32 width ++ LittleEndian.PutUint32 height
    ++ LittleEndian.PutUint16 1 ++ LittleEndian.PutUint16 32 ++ LittleEndian.PutUint32 0
    ++ LittleEndian.PutUint32 (4 * width * height) ++ List.replicate 16 0
    ++ toyRows m width height)

def toyBmpDecode (s : List Nat) : Except CodecErr (Image × List Nat) :=
  let width := LittleEndian.Uint32 (s.drop 18)
  let height := LittleEndian.Uint32 (s.drop 22)
  if s.length < 54 + 4 * width * height then .error .ErrUnexpectedEOF
  else
    let body := s.drop 54
    .ok (.RGBA (Rect 0 0 width height) (fun x y =>
          let i := 4 * ((height - 1 - y.toNat) * width + x.toNat)
          ⟨body.getD (i + 2) 0, body.getD (i + 1) 0, body.getD i 0, body.getD (i + 3) 0⟩),
        body.drop (4 * width * height))

def toyBmpDecodeConfig (s : List Nat) : Except CodecErr Config :=
  if s.length < 54 then .error .ErrUnexpectedEOF
  else .ok ⟨"RGBA", (LittleEndian.Uint32 (s.drop 18) : Int), (LittleEndian.Uint32 (s.drop 22) : Int)⟩

def toyPngEncode (m : Image) : Except CodecErr (List Nat) :=
  let width := m.Bounds.Size.X.toNat
  let height := m.Bounds.Size.Y.toNat
  .ok (pngPrefix ++ [0, 0, 0, 13, 0x49, 0x48, 0x44, 0x52]
    ++ [width / 16777216 % 256, width / 65536 % 256, width / 256 % 256, width % 256]
    ++ [height / 16777216 % 256, height / 65536 % 256, height / 256 % 256, height % 256]
    ++ [8, 6, 0, 0, 0] ++ [0, 0, 0, 0])

def toyPngDecode (s : List Nat) : Except CodecErr Image :=
  if s.length < 33 then .error .ErrUnexpectedEOF
  else .ok (.RGBA (Rect 0 0 (BigEndian.Uint32 (s.drop 16)) (BigEndian.Uint32 (s.drop 20)))
    (fun _ _ => ⟨0, 0, 0, 0⟩))

def toyPngDecodeConfig (s : List Nat) : Except CodecErr Config :=
  if s.length < 33 then .error .ErrUnexpectedEOF
  else .ok ⟨"NRGBA", (BigEndian.Uint32 (s.drop 16) : Int), (BigEndian.Uint32 (s.drop 20) : Int)⟩

def toyCodecs : Codecs :=
  { pngEncode := toyPngEncode, pngDecode := toyPngDecode, pngDecodeConfig := toyPngDecodeConfig,
    bmpEncode := toyBmpEncode, bmpDecode := toyBmpDecode, bmpDecodeConfig := toyBmpDecodeConfig }

/-- A 1x1 `*image.Gray` with the given luminance. -/
def grayPixel (v : Nat) : Image := .Gray (Rect 0 0 1 1) (fun _ _ => v)

/-- A 2x1 `*image.RGBA`: an opaque red pixel and a fully transparent one. -/
def redAndClear : Image :=
  .RGBA (Rect 0 0 2 1) (fun x _ => if x = 0 then ⟨255, 0, 0, 255⟩ else ⟨0, 0, 0, 0⟩)

end Icondir

/-! # Properties -/

namespace Icondir

/-! ## Best-entry selection -/

/-- A 40-byte DIB info-header with the given width, on-disk height and bit depth. -/
def dibInfoHeader (width height bpp : Nat) : List Nat :=
  LittleEndian.PutUint32 40 ++ LittleEndian.PutUint32 width ++ LittleEndian.PutUint32 height
    ++ LittleEndian.PutUint16 1 ++ LittleEndian.PutUint16 bpp ++ List.replicate 24 0

/-- An icon file whose directory lists a 256x256 entry of 8 bits per pixel at offset 38 and
a 16x16 entry of 32 bits per pixel at offset 78 (info-headers only). -/
def bestInput : List Nat :=
  [0, 0, 1, 0, 2, 0]
    ++ [0, 0, 0, 0, 1, 0, 8, 0, 40, 0, 0, 0, 38, 0, 0, 0]
    ++ [16, 16, 0, 0, 1, 0, 32, 0, 40, 0, 0, 0, 78, 0, 0, 0]
    ++ dibInfoHeader 256 512 8 ++ dibInfoHeader 16 32 32

/-- The width, height and bit depth of an entry. -/
def Entry.shape (e : Entry) : Int × Int × Int := (e.Width, e.Height, e.BPP)

/-- C2 (evaluation at the failing input): on a directory that lists a 256x256 entry of
8 bits per pixel and then a 16x16 entry of 32 bits per pixel, `Best` selects the 16x16
entry, whose area is not maximal. -/
theorem Best_prefers_depth_over_area :
    (DecodeDir (NewDecoder bestInput true true)).toOption.map
        (fun d => (d.entries.map Entry.shape, (Best d).1.map Entry.shape))
      = some ([(256, 256, 8), (16, 16, 32)], some (16, 16, 32)) := by
  decide


/-! ## Failures of `DecodeDir` -/

/-- The four magic bytes of the declared kind. -/
def magic (icon : Bool) : List Nat := if icon then icoPrefix else curPrefix

/-- The message of the magic check for the declared kind. -/
def notKindMsg (icon : Bool) : String := if icon then "not an ICO file" else "not a CUR file"

/-- The message of the count check for the declared kind. -/
def noEntriesMsg (icon : Bool) : String := if icon then "no icons" else "no cursors"

theorem readFull_of_le (s : List Nat) (n : Nat) (h : n ≤ s.length) :
    readFull s n = .ok (s.take n, s.drop n) := by
  simp [readFull, h]

theorem readFull_short (s : List Nat) (n : Nat) (h : s.length < n) :
    ∃ err, readFull s n = .error err ∧ eofToUnexpected err = .ErrUnexpectedEOF := by
  unfold readFull
  rw [if_neg (by omega)]
  by_cases h0 : s.length = 0
  · exact ⟨.EOF, by simp [h0], by decide⟩
  · exact ⟨.ErrUnexpectedEOF, by simp [h0], by decide⟩

/-- What `DecodeDir` does with an input of at least six bytes, up to the directory. -/
theorem DecodeDir_header (input : List Nat) (seekable icon : Bool) (h6 : 6 ≤ input.length) :
    DecodeDir (NewDecoder input seekable icon) =
      if icon = true ∧ input.take 4 ≠ icoPrefix then .error (.FormatError "not an ICO file")
      else if ¬ icon = true ∧ input.take 4 ≠ curPrefix then .error (.FormatError "not a CUR file")
      else if LittleEndian.Uint16 (input.drop 4) = 0 then
        (if icon = true then .error (.FormatError "no icons") else .error (.FormatError "no cursors"))
      else
        match readDirEntries icon (LittleEndian.Uint16 (input.drop 4))
            { r := input, pos := 6, canSeekBackward := seekable } with
        | .error err => .error err
        | .ok (es, r2) => readHeaders { r := r2, icon := icon, entries := es } := by
  have h1 : (List.take 6 input).take 4 = input.take 4 := by
    rw [List.take_take]; simp
  have h2 : LittleEndian.Uint16 ((List.take 6 input).drop 4) = LittleEndian.Uint16 (input.drop 4) := by
    simp only [LittleEndian.Uint16, List.getD_eq_getElem?_getD, List.getElem?_drop, List.getElem?_take]
    simp
  simp only [DecodeDir, NewDecoder, reader.ReadFull, fileHeaderLen, List.drop_zero,
    readFull_of_le input 6 h6, h1, h2]
  simp

theorem DecodeDir_bad_magic (input : List Nat) (seekable icon : Bool) (h6 : 6 ≤ input.length)
    (hm : input.take 4 ≠ magic icon) :
    DecodeDir (NewDecoder input seekable icon) = .error (.FormatError (notKindMsg icon)) := by
  rw [DecodeDir_header input seekable icon h6]
  cases icon <;> simp_all [magic, notKindMsg]

theorem DecodeDir_zero_count (input : List Nat) (seekable icon : Bool) (h6 : 6 ≤ input.length)
    (hm : input.take 4 = magic icon) (hc : LittleEndian.Uint16 (input.drop 4) = 0) :
    DecodeDir (NewDecoder input seekable icon) = .error (.FormatError (noEntriesMsg icon)) := by
  rw [DecodeDir_header input seekable icon h6]
  cases icon <;> simp_all [magic, noEntriesMsg]

/-- An input whose kind tag (bytes 2-3) says "icon" and whose count is 0, with a reserved
byte set. -/
def reservedSetInput : List Nat := [1, 0, 1, 0, 0, 0]

/-- C3 (counterexample): on the six bytes `01 00 01 00 00 00` the kind tag matches the
declared kind (icon) and the count is 0, yet the icon decoder answers "not an ICO file"
and not "no icons". -/
theorem DecodeDir_kind_tag_matches_yet_not_ico :
    6 ≤ reservedSetInput.length
      ∧ LittleEndian.Uint16 (reservedSetInput.drop 2) = 1
      ∧ LittleEndian.Uint16 (reservedSetInput.drop 4) = 0
      ∧ DecodeDir (NewDecoder reservedSetInput true true) = .error (.FormatError "not an ICO file")
      ∧ DecodeDir (NewDecoder reservedSetInput true true) ≠ .error (.FormatError "no icons") := by
  decide

/-- C3 (amended): for every input of at least 6 bytes, `DecodeDir` fails with the
FormatError "not an ICO file" / "not a CUR file" when the first four bytes differ from the
magic `00 00 01 00` / `00 00 02 00` of the declared kind, and otherwise with "no icons" /
"no cursors" when the little-endian count at bytes 4-5 is 0; the public `Decode` and
`DecodeConfig` of `ico` and `cur` report the first case with the messages
"ico: invalid format: not an ICO file" and "cur: invalid format: not a CUR file". -/
theorem DecodeDir_magic_then_count (cod : Codecs) (input : List Nat) (seekable : Bool)
    (h6 : 6 ≤ input.length) :
    (∀ icon, input.take 4 ≠ magic icon →
        DecodeDir (NewDecoder input seekable icon) = .error (.FormatError (notKindMsg icon)))
    ∧ (∀ icon, input.take 4 = magic icon → LittleEndian.Uint16 (input.drop 4) = 0 →
        DecodeDir (NewDecoder input seekable icon) = .error (.FormatError (noEntriesMsg icon)))
    ∧ (input.take 4 ≠ icoPrefix →
        (∃ err, Ico.Decode cod input seekable = .error err
            ∧ err.Error = "ico: invalid format: not an ICO file")
        ∧ (∃ err, Ico.DecodeConfig cod input seekable = .error err
            ∧ err.Error = "ico: invalid format: not an ICO file"))
    ∧ (input.take 4 ≠ curPrefix →
        (∃ err, Cur.Decode cod input seekable = .error err
            ∧ err.Error = "cur: invalid format: not a CUR file")
        ∧ (∃ err, Cur.DecodeConfig cod input seekable = .error err
            ∧ err.Error = "cur: invalid format: not a CUR file")) := by
  refine ⟨fun icon hm => DecodeDir_bad_magic input seekable icon h6 hm,
    fun icon hm hc => DecodeDir_zero_count input seekable icon h6 hm hc, ?_, ?_⟩
  · intro hm
    have h := DecodeDir_bad_magic input seekable true h6 (by simpa [magic] using hm)
    refine ⟨⟨.FormatError "not an ICO file", ?_, by decide⟩,
      ⟨.FormatError "not an ICO file", ?_, by decide⟩⟩
    · simp [Ico.Decode, h, notKindMsg, Ico.convertErr, Err.Error]
    · simp [Ico.DecodeConfig, h, notKindMsg, Ico.convertErr, Err.Error]
  · intro hm
    have h := DecodeDir_bad_magic input seekable false h6 (by simpa [magic] using hm)
    refine ⟨⟨.FormatError "not a CUR file", ?_, by decide⟩,
      ⟨.FormatError "not a CUR file", ?_, by decide⟩⟩
    · simp [Cur.Decode, h, notKindMsg, Cur.convertErr, Err.Error]
    · simp [Cur.DecodeConfig, h, notKindMsg, Cur.convertErr, Err.Error]

/-- C3 (witness): the ten zero bytes of the tests. -/
theorem DecodeDir_magic_then_count_witness :
    (∀ icon, (List.replicate 10 0).take 4 ≠ magic icon →
        DecodeDir (NewDecoder (List.replicate 10 0) true icon)
          = .error (.FormatError (notKindMsg icon)))
    ∧ (∀ icon, (List.replicate 10 0).take 4 = magic icon →
        LittleEndian.Uint16 ((List.replicate 10 0).drop 4) = 0 →
        DecodeDir (NewDecoder (List.replicate 10 0) true icon)
          = .error (.FormatError (noEntriesMsg icon)))
    ∧ ((List.replicate 10 0).take 4 ≠ icoPrefix →
        (∃ err, Ico.Decode toyCodecs (List.replicate 10 0) true = .error err
            ∧ err.Error = "ico: invalid format: not an ICO file")
        ∧ (∃ err, Ico.DecodeConfig toyCodecs (List.replicate 10 0) true = .error err
            ∧ err.Error = "ico: invalid format: not an ICO file"))
    ∧ ((List.replicate 10 0).take 4 ≠ curPrefix →
        (∃ err, Cur.Decode toyCodecs (List.replicate 10 0) true = .error err
            ∧ err.Error = "cur: invalid format: not a CUR file")
        ∧ (∃ err, Cur.DecodeConfig toyCodecs (List.replicate 10 0) true = .error err
            ∧ err.Error = "cur: invalid format: not a CUR file")) :=
  DecodeDir_magic_then_count toyCodecs (List.replicate 10 0) true (by decide)

/-- An icon file that ends right after its single directory record; the record declares a
48-byte payload at offset 22. -/
def endsAfterDirectory : List Nat :=
  [0, 0, 1, 0, 1, 0] ++ [0, 0, 0, 0, 1, 0, 32, 0, 48, 0, 0, 0, 22, 0, 0, 0]

/-- An icon file that ends right after its single directory record; the record declares a
48-byte payload at offset 100. -/
def endsBeforePayload : List Nat :=
  [0, 0, 1, 0, 1, 0] ++ [0, 0, 0, 0, 1, 0, 32, 0, 48, 0, 0, 0, 100, 0, 0, 0]

/-- C4 (evaluation at the failing inputs): on a forward-only source, an input that ends
before the payload of its only entry makes `DecodeDir` return the bare `io.EOF`, both
when the payload would start at the end of the input (`io.ReadFull` in `readData`) and
when it would start beyond it (`io.CopyN` in `Seek`); on a seekable source the same
inputs give `io.ErrUnexpectedEOF`. -/
theorem DecodeDir_forward_only_returns_bare_EOF :
    DecodeDir (NewDecoder endsAfterDirectory false true) = .error .EOF
      ∧ DecodeDir (NewDecoder endsBeforePayload false true) = .error .EOF
      ∧ DecodeDir (NewDecoder endsAfterDirectory true true) = .error .ErrUnexpectedEOF
      ∧ DecodeDir (NewDecoder endsBeforePayload true true) = .error .ErrUnexpectedEOF
      ∧ Err.EOF.Error = "EOF" := by
  decide


/-! ## Truncated input through the public functions -/

/-- The entry `DecodeDir` makes of the directory record at the head of `s`. -/
def parseDirEntry (icon : Bool) (s : List Nat) : Entry :=
  { Entry.zero with
    XHotspot := if icon then 0 else (LittleEndian.Uint16 (s.drop 4) : Int),
    YHotspot := if icon then 0 else (LittleEndian.Uint16 (s.drop 6) : Int),
    Offset := (LittleEndian.Uint32 (s.drop 12) : Int),
    Size := (LittleEndian.Uint32 (s.drop 8) : Int) }

theorem Uint16_drop_take (s : List Nat) (k n : Nat) (h : k + 2 ≤ n) :
    LittleEndian.Uint16 ((s.take n).drop k) = LittleEndian.Uint16 (s.drop k) := by
  simp only [LittleEndian.Uint16, List.getD_eq_getElem?_getD, List.getElem?_drop,
    List.getElem?_take]
  rw [if_pos (by omega), if_pos (by omega)]

theorem Uint32_drop_take (s : List Nat) (k n : Nat) (h : k + 4 ≤ n) :
    LittleEndian.Uint32 ((s.take n).drop k) = LittleEndian.Uint32 (s.drop k) := by
  simp only [LittleEndian.Uint32, List.getD_eq_getElem?_getD, List.getElem?_drop,
    List.getElem?_take]
  rw [if_pos (by omega), if_pos (by omega), if_pos (by omega), if_pos (by omega)]

theorem parseDirEntry_take (icon : Bool) (s : List Nat) :
    parseDirEntry icon (s.take 16) = parseDirEntry icon s := by
  simp only [parseDirEntry, Uint16_drop_take s 4 16 (by omega), Uint16_drop_take s 6 16 (by omega),
    Uint32_drop_take s 12 16 (by omega), Uint32_drop_take s 8 16 (by omega)]

/-- The directory loop on a source that holds all `n` records. -/
theorem readDirEntries_ok (icon : Bool) (input : List Nat) (sk : Bool) :
    ∀ (n pos : Nat), pos + 16 * n ≤ input.length →
      readDirEntries icon n { r := input, pos := pos, canSeekBackward := sk }
        = .ok ((List.range n).map (fun i => parseDirEntry icon (input.drop (pos + 16 * i))),
            { r := input, pos := pos + 16 * n, canSeekBackward := sk }) := by
  intro n
  induction n with
  | zero => intro pos _; simp [readDirEntries]
  | succ n ih =>
    intro pos h
    have hlen : 16 ≤ (input.drop pos).length := by simp; omega
    have ih1 := ih (pos + 16) (by omega)
    simp only [readDirEntries, reader.ReadFull, dirEntryLen, readFull_of_le _ 16 hlen, ih1]
    rw [List.range_succ_eq_map]
    simp only [List.map_cons, List.map_map, Nat.mul_zero, Nat.add_zero]
    have hp : parseDirEntry icon (List.drop pos input)
        = { Entry.zero with
            XHotspot := if icon then 0 else (LittleEndian.Uint16 (((input.drop pos).take 16).drop 4) : Int),
            YHotspot := if icon then 0 else (LittleEndian.Uint16 (((input.drop pos).take 16).drop 6) : Int),
            Offset := (LittleEndian.Uint32 (((input.drop pos).take 16).drop 12) : Int),
            Size := (LittleEndian.Uint32 (((input.drop pos).take 16).drop 8) : Int) } := by
      rw [← parseDirEntry_take]; rfl
    rw [hp]
    have hf : ((fun i => parseDirEntry icon (List.drop (pos + 16 * i) input)) ∘ Nat.succ)
        = (fun i => parseDirEntry icon (List.drop (pos + 16 + 16 * i) input)) := by
      funext i
      simp only [Function.comp, Nat.succ_eq_add_one]
      congr 2
      omega
    rw [hf]
    have hpos : pos + 16 + 16 * n = pos + 16 * (n + 1) := by omega
    rw [hpos]

/-- The directory loop on a source that ends inside the `n` records. -/
theorem readDirEntries_short (icon : Bool) (input : List Nat) (sk : Bool) :
    ∀ (n pos : Nat), pos ≤ input.length → input.length < pos + 16 * n →
      readDirEntries icon n { r := input, pos := pos, canSeekBackward := sk }
        = .error .ErrUnexpectedEOF := by
  intro n
  induction n with
  | zero => intro pos h0 h; omega
  | succ n ih =>
    intro pos h0 h
    by_cases hlen : 16 ≤ (input.drop pos).length
    · have ih1 := ih (pos + 16) (by simp at hlen; omega) (by simp at hlen; omega)
      simp only [readDirEntries, reader.ReadFull, dirEntryLen, readFull_of_le _ 16 hlen, ih1]
    · obtain ⟨err, h1, h2⟩ := readFull_short (input.drop pos) 16 (Nat.lt_of_not_le hlen)
      simp only [readDirEntries, reader.ReadFull, dirEntryLen, h1, h2]

/-- The input ends inside the file header or inside the directory records. -/
def EndsInDirectory (icon : Bool) (input : List Nat) : Prop :=
  input.length < 6 ∨
    (input.take 4 = magic icon ∧ LittleEndian.Uint16 (input.drop 4) ≠ 0
      ∧ input.length < 6 + 16 * LittleEndian.Uint16 (input.drop 4))

/-- The directory is complete, and the input ends inside the sub-image header of the first
entry: inside the 8 bytes of the signature sniff, or, when these are not the PNG
signature, inside the 40 bytes of the DIB info-header. -/
def EndsInFirstHeader (icon : Bool) (input : List Nat) : Prop :=
  input.take 4 = magic icon ∧ LittleEndian.Uint16 (input.drop 4) ≠ 0
    ∧ 6 + 16 * LittleEndian.Uint16 (input.drop 4) ≤ input.length
    ∧ (input.length < LittleEndian.Uint32 (input.drop 18) + 8
        ∨ ((input.drop (LittleEndian.Uint32 (input.drop 18))).take 8 ≠ pngPrefix
            ∧ input.length < LittleEndian.Uint32 (input.drop 18) + 40))

theorem DecodeDir_short_header (input : List Nat) (seekable icon : Bool)
    (h : input.length < 6) :
    DecodeDir (NewDecoder input seekable icon) = .error .ErrUnexpectedEOF := by
  obtain ⟨err, h1, h2⟩ := readFull_short input 6 h
  simp only [DecodeDir, NewDecoder, reader.ReadFull, fileHeaderLen, List.drop_zero, h1, h2]

theorem decodeHeader_short (s : List Nat) (e : Entry)
    (h : s.length < 8 ∨ (s.take 8 ≠ pngPrefix ∧ s.length < 40)) :
    decodeHeader s e = .error .ErrUnexpectedEOF := by
  by_cases h8 : s.length < 8
  · have : ¬ (8 ≤ s.length) := by omega
    simp [decodeHeader, peek, pngPrefix, this, eofToUnexpected]
  · rcases h with h | ⟨hp, h40⟩
    · omega
    · have h8' : 8 ≤ s.length := by omega
      obtain ⟨err, h1, h2⟩ := readFull_short s 40 h40
      have hp' : ¬ (List.take 8 s = pngPrefix) := hp
      simp only [decodeHeader, peek, show pngPrefix.length = 8 from rfl, if_pos h8', if_neg hp',
        decodeBMPHeader, infoHeaderLen, h1, h2]

theorem DecodeDir_truncated (input : List Nat) (seekable icon : Bool)
    (h : EndsInDirectory icon input ∨ (seekable = true ∧ EndsInFirstHeader icon input)) :
    DecodeDir (NewDecoder input seekable icon) = .error .ErrUnexpectedEOF := by
  rcases h with (h | ⟨hm, hc, hl⟩) | ⟨hs, hm, hc, hl, hh⟩
  · exact DecodeDir_short_header input seekable icon h
  · by_cases h6 : 6 ≤ input.length
    · rw [DecodeDir_header input seekable icon h6]
      have := readDirEntries_short icon input seekable (LittleEndian.Uint16 (input.drop 4)) 6 h6 hl
      cases icon <;> simp_all [magic]
    · exact DecodeDir_short_header input seekable icon (by omega)
  · subst hs
    have h6 : 6 ≤ input.length := by omega
    rw [DecodeDir_header input true icon h6]
    have hr := readDirEntries_ok icon input true (LittleEndian.Uint16 (input.drop 4)) 6 hl
    obtain ⟨n, hn⟩ : ∃ n, LittleEndian.Uint16 (input.drop 4) = n + 1 :=
      ⟨LittleEndian.Uint16 (input.drop 4) - 1, by omega⟩
    rw [hn] at hr
    rw [List.range_succ_eq_map] at hr
    simp only [List.map_cons, Nat.mul_zero, Nat.add_zero] at hr
    have hoff : (parseDirEntry icon (List.drop 6 input)).Offset
        = (LittleEndian.Uint32 (input.drop 18) : Int) := by
      simp [parseDirEntry, List.drop_drop]
    have hdec : decodeHeader (input.drop (LittleEndian.Uint32 (input.drop 18)))
        (parseDirEntry icon (List.drop 6 input)) = .error .ErrUnexpectedEOF := by
      apply decodeHeader_short
      rcases hh with hh | ⟨hp, hh⟩
      · left; simp; omega
      · by_cases h8 : (input.drop (LittleEndian.Uint32 (input.drop 18))).length < 8
        · left; exact h8
        · right; exact ⟨hp, by simp; omega⟩
    have hseek : ∀ (p : Nat),
        reader.Seek { r := input, pos := p, canSeekBackward := true }
          (parseDirEntry icon (List.drop 6 input)).Offset SeekStart
        = ({ r := input, pos := LittleEndian.Uint32 (input.drop 18), canSeekBackward := true }, none) := by
      intro p
      rw [hoff]
      simp [reader.Seek, SeekStart]
    have hfin : readHeaders (Decoder.mk
        (reader.mk input (6 + 16 * (n + 1)) true) icon
        (parseDirEntry icon (List.drop 6 input) ::
          List.map ((fun i => parseDirEntry icon (List.drop (6 + 16 * i) input)) ∘ Nat.succ)
            (List.range n))) = .error .ErrUnexpectedEOF := by
      simp only [readHeaders, readHeadersLoop, hseek, hdec]
      simp
    cases icon <;> simp_all [magic]

/-- Is the error a value of the type `FormatError` of package `ico`? -/
def isIcoFormatError : Ico.Error → Bool
  | .FormatError _ => true
  | _ => false

/-- Is the error a value of the type `FormatError` of package `cur`? -/
def isCurFormatError : Cur.Error → Bool
  | .FormatError _ => true
  | _ => false

/-- C5 (counterexample): on the three bytes `00 00 01`, which end inside the file header,
`ico.Decode`, `ico.DecodeAll` and `ico.DecodeConfig` return `io.ErrUnexpectedEOF` itself,
which is not a value of `ico.FormatError`. -/
theorem ico_truncated_error_is_not_FormatError :
    Ico.Decode toyCodecs [0, 0, 1] true = .error (.other .ErrUnexpectedEOF)
      ∧ Ico.DecodeAll toyCodecs [0, 0, 1] true = .error (.other .ErrUnexpectedEOF)
      ∧ Ico.DecodeConfig toyCodecs [0, 0, 1] true = .error (.other .ErrUnexpectedEOF)
      ∧ isIcoFormatError (.other .ErrUnexpectedEOF) = false := by
  refine ⟨rfl, rfl, rfl, rfl⟩

/-- The 23 bytes of the package tests: magic, count 1, one zero record and one more byte. -/
def testInput23 : List Nat := [0, 0, 1, 0, 1, 0] ++ List.replicate 17 0

theorem testInput23_ends_in_header : EndsInFirstHeader true testInput23 := by
  unfold EndsInFirstHeader
  decide

theorem three_bytes_end_in_directory : EndsInDirectory false [0, 0, 2] := by
  unfold EndsInDirectory
  decide

/-! ## The sub-image header parsers in closed form -/

/-- The on-disk height field of a DIB info-header, as a signed number. -/
def dibDiskHeight (info : List Nat) : Int := toInt32 (LittleEndian.Uint32 (info.drop 8))

/-- The absolute value of the on-disk height. -/
def dibAbsHeight (info : List Nat) : Int :=
  if dibDiskHeight info < 0 then - dibDiskHeight info else dibDiskHeight info

/-- The bit depth field of a DIB info-header. -/
def dibBPP (info : List Nat) : Int := (LittleEndian.Uint16 (info.drop 14) : Int)

/-- The colour count `decodeBMPHeader` settles on. -/
def dibColors (info : List Nat) : Int :=
  if dibBPP info ≤ 8 ∧ (LittleEndian.Uint32 (info.drop 32) : Int) = 0
  then (2 : Int) ^ (dibBPP info).toNat else (LittleEndian.Uint32 (info.drop 32) : Int)

/-- The length of the colour-mask block that follows a BITFIELDS header. -/
def dibColorMaskLen (info : List Nat) : Nat :=
  if LittleEndian.Uint32 info = 40 ∧ (dibBPP info = 16 ∨ dibBPP info = 32)
      ∧ LittleEndian.Uint32 (info.drop 16) = 3
  then 12 else 0

/-- The 54 bytes `decodeBMPHeader` leaves in `e.bmpHeader`: the synthesized file header
and the info-header with the halved height. -/
def dibHeader (info : List Nat) : List Nat :=
  [0x42, 0x4D, 0, 0, 0, 0, 0, 0, 0, 0]
    ++ LittleEndian.PutUint32
        ((14 + LittleEndian.Uint32 info + toUint32 (dibColors info) * 4 + dibColorMaskLen info)
          % 4294967296)
    ++ info.take 8 ++ LittleEndian.PutUint32 (toUint32 (dibAbsHeight info / 2)) ++ info.drop 12

/-- The entry `decodeBMPHeader` returns for the info-header `info`. -/
def dibEntry (info : List Nat) (e : Entry) : Entry :=
  { e with
    bmpHeader := some (dibHeader info),
    Width := toInt32 (LittleEndian.Uint32 (info.drop 4)),
    Height := dibAbsHeight info / 2,
    BPP := dibBPP info,
    topDown := if dibDiskHeight info < 0 then true else e.topDown,
    Colors := dibColors info,
    Offset := e.Offset + 40, Size := e.Size - 40, data := e.data.drop 40 }

theorem patch_header_drop (info : List Nat) (k : Nat) (hk : 2 ≤ k) :
    (patch (List.replicate 14 0 ++ info) 0 [0x42, 0x4D]).drop k
      = (List.replicate 14 0 ++ info).drop k := by
  obtain ⟨j, rfl⟩ : ∃ j, k = j + 2 := ⟨k - 2, by omega⟩
  show List.drop (j + 2) (0x42 :: 0x4D :: (List.replicate 12 0 ++ info))
    = List.drop (j + 2) (0 :: 0 :: (List.replicate 12 0 ++ info))
  rfl

theorem header_drop (info : List Nat) (k : Nat) (hk : 14 ≤ k) :
    (List.replicate 14 0 ++ info).drop k = info.drop (k - 14) := by
  rw [List.drop_append_eq_append_drop]
  simp only [List.length_replicate]
  rw [List.drop_eq_nil_of_le (by simp; omega)]
  simp

/-- The function `decodeBMPHeader` on a stream of at least 40 bytes. -/
theorem decodeBMPHeader_eq (s : List Nat) (e : Entry) (h40 : 40 ≤ s.length) :
    decodeBMPHeader s e =
      if LittleEndian.Uint32 (s.take 40) < 40 then .error (.UnsupportedError "BMP image")
      else if dibAbsHeight (s.take 40) % 2 ≠ 0 then .error (.UnsupportedError "BMP image")
      else .ok (dibEntry (s.take 40) e) := by
  have hlen : (s.take 40).length = 40 := by simp; omega
  generalize hinfo : s.take 40 = info at hlen
  unfold decodeBMPHeader
  simp only [infoHeaderLen, bmpFileHeaderLen, biBitFields, readFull_of_le s 40 h40, hinfo]
  simp only [patch_header_drop info _ (by omega : 2 ≤ 18), patch_header_drop info _ (by omega : 2 ≤ 22),
    patch_header_drop info _ (by omega : 2 ≤ 28), patch_header_drop info _ (by omega : 2 ≤ 30),
    patch_header_drop info _ (by omega : 2 ≤ 46), header_drop info _ (by omega : 14 ≤ 14),
    header_drop info _ (by omega : 14 ≤ 18), header_drop info _ (by omega : 14 ≤ 22),
    header_drop info _ (by omega : 14 ≤ 28), header_drop info _ (by omega : 14 ≤ 30),
    header_drop info _ (by omega : 14 ≤ 46)]
  simp only [show 14 - 14 = 0 from rfl, show 18 - 14 = 4 from rfl, show 22 - 14 = 8 from rfl,
    show 28 - 14 = 14 from rfl, show 30 - 14 = 16 from rfl, show 46 - 14 = 32 from rfl,
    List.drop_zero]
  by_cases h1 : LittleEndian.Uint32 info < 40
  · simp only [if_pos h1]
  · simp only [if_neg h1]
    have hh : (if toInt32 (LittleEndian.Uint32 (List.drop 8 info)) < 0
          then -toInt32 (LittleEndian.Uint32 (List.drop 8 info))
          else toInt32 (LittleEndian.Uint32 (List.drop 8 info))) = dibAbsHeight info := rfl
    simp only [hh]
    by_cases h2 : dibAbsHeight info % 2 ≠ 0
    · simp only [if_pos h2]
    · simp only [if_neg h2]
      rfl

/-- The function `decodeHeader` in closed form. -/
theorem decodeHeader_eq (s : List Nat) (e : Entry) :
    decodeHeader s e =
      if s.length < 8 then .error .ErrUnexpectedEOF
      else if s.take 8 = pngPrefix then decodePNGHeader s e
      else decodeBMPHeader s e := by
  unfold decodeHeader peek
  by_cases h8 : s.length < 8
  · have : ¬ (pngPrefix.length ≤ s.length) := by simp [pngPrefix]; omega
    simp only [if_neg this, if_pos h8]
    rfl
  · have : pngPrefix.length ≤ s.length := by simp [pngPrefix]; omega
    simp only [if_pos this, if_neg h8]
    rfl

theorem seekChunkAux_error (typ : List Nat) :
    ∀ (fuel : Nat) (s : List Nat) (err : Err),
      seekChunkAux typ fuel s = some (.error err) → err = .ErrUnexpectedEOF := by
  intro fuel
  induction fuel with
  | zero => intro s err h; simp [seekChunkAux] at h
  | succ fuel ih =>
    intro s err h
    unfold seekChunkAux at h
    by_cases h8 : 8 ≤ s.length
    · rw [readFull_of_le s 8 h8] at h
      simp only at h
      by_cases ht : (List.take 8 s).drop 4 = typ
      · simp [ht] at h
      · simp only [if_neg ht] at h
        unfold copyNDiscard at h
        by_cases hn : BigEndian.Uint32 (List.take 8 s) + 4 ≤ (List.drop 8 s).length
        · simp only [if_pos hn] at h
          exact ih _ _ h
        · simp only [if_neg hn] at h
          simp at h
    · obtain ⟨e1, h1, h2⟩ := readFull_short s 8 (by omega)
      rw [h1] at h
      simp only [h2] at h
      simp at h
      exact h.symm

theorem seekChunk_error (typ : List Nat) (s : List Nat) (err : Err)
    (h : seekChunk typ s = .error err) : err = .ErrUnexpectedEOF := by
  unfold seekChunk at h
  cases hx : seekChunkAux typ (s.length + 1) s with
  | none => simp [hx] at h; exact h.symm
  | some r =>
    simp only [hx, Option.getD_some] at h
    subst h
    exact seekChunkAux_error typ _ _ _ hx

theorem decodePNGHeader_error (s : List Nat) (e : Entry) (err : Err)
    (h : decodePNGHeader s e = .error err) :
    err = .ErrUnexpectedEOF ∨ ∃ msg, err = .UnsupportedError msg := by
  unfold decodePNGHeader at h
  by_cases h8 : pngPrefix.length ≤ s.length
  swap
  · have hc0 : copyNDiscard s pngPrefix.length = .error .EOF := by simp [copyNDiscard, h8]
    rw [hc0] at h
    left; simp [eofToUnexpected] at h; exact h.symm
  · have hc0 : copyNDiscard s pngPrefix.length = .ok (s.drop pngPrefix.length) := by
      simp [copyNDiscard, h8]
    rw [hc0] at h
    simp only at h
    cases hc : seekChunk [0x49, 0x48, 0x44, 0x52] (s.drop pngPrefix.length) with
    | error e1 =>
      simp only [hc] at h
      have := seekChunk_error _ _ _ hc
      left; simp at h; rw [← h, this]
    | ok v =>
      obtain ⟨length, s2⟩ := v
      simp only [hc] at h
      by_cases hl : length ≠ (ihdrLength : Int)
      · simp only [if_pos hl] at h
        right; exact ⟨_, by simp at h; exact h.symm⟩
      · simp only [if_neg hl] at h
        by_cases h17 : ihdrLength + 4 ≤ s2.length
        · rw [readFull_of_le s2 _ h17] at h
          simp only at h
          split at h
          · right; exact ⟨_, by simp at h; exact h.symm⟩
          · split at h
            · cases hc2 : seekChunk [0x50, 0x4C, 0x54, 0x45] (List.drop (ihdrLength + 4) s2) with
              | error e2 =>
                simp only [hc2] at h
                have := seekChunk_error _ _ _ hc2
                left; simp at h; rw [← h, this]
              | ok v2 =>
                simp only [hc2] at h
                split at h <;> simp at h
            · simp at h
        · obtain ⟨e1, h1, h2⟩ := readFull_short s2 (ihdrLength + 4) (by omega)
          rw [h1] at h
          simp only [h2] at h
          left; simp at h; exact h.symm

/-- The errors of `decodeHeader` are the unexpected-EOF error and `UnsupportedError`s. -/
theorem decodeHeader_error (s : List Nat) (e : Entry) (err : Err)
    (h : decodeHeader s e = .error err) :
    err = .ErrUnexpectedEOF ∨ ∃ msg, err = .UnsupportedError msg := by
  rw [decodeHeader_eq] at h
  by_cases h8 : s.length < 8
  · simp only [if_pos h8] at h
    left; simp at h; exact h.symm
  · simp only [if_neg h8] at h
    by_cases hp : s.take 8 = pngPrefix
    · simp only [if_pos hp] at h
      exact decodePNGHeader_error s e err h
    · simp only [if_neg hp] at h
      by_cases h40 : 40 ≤ s.length
      · rw [decodeBMPHeader_eq s e h40] at h
        split at h
        · right; exact ⟨_, by simp at h; exact h.symm⟩
        · split at h
          · right; exact ⟨_, by simp at h; exact h.symm⟩
          · simp at h
      · obtain ⟨e1, h1, h2⟩ := readFull_short s 40 (by omega)
        unfold decodeBMPHeader at h
        simp only [infoHeaderLen, h1, h2] at h
        left; simp at h; exact h.symm


/-! ## Admission -/

/-- The first admission rule: width and height within [1,256]. -/
def SizeOK (m : Image) : Prop :=
  1 ≤ m.Bounds.Size.X ∧ 1 ≤ m.Bounds.Size.Y ∧ m.Bounds.Size.X ≤ 256 ∧ m.Bounds.Size.Y ≤ 256

/-- The second admission rule: a paletted raster has between 1 and 256 palette entries. -/
def PaletteOK : Image → Prop
  | .Paletted _ palette _ => 1 ≤ palette.length ∧ palette.length ≤ 256
  | _ => True

/-- The third admission rule: both hotspot coordinates within [0,256]. -/
def HotspotOK (x y : Int) : Prop := 0 ≤ x ∧ 0 ≤ y ∧ x ≤ 256 ∧ y ≤ 256

/-- The palette length of a paletted raster. -/
def paletteLen : Image → Nat
  | .Paletted _ palette _ => palette.length
  | _ => 0

theorem badPaletteLen_none (m : Image) (h : PaletteOK m) : badPaletteLen m = none := by
  cases m with
  | Paletted r p pix =>
    simp only [PaletteOK] at h
    simp only [badPaletteLen]
    rw [if_neg (by omega)]
  | Gray r pix => rfl
  | RGBA r pix => rfl
  | nonOpaqueRGBA r pix => rfl
  | Other r f o c => rfl

theorem badPaletteLen_some (m : Image) (h : ¬ PaletteOK m) :
    badPaletteLen m = some (paletteLen m) := by
  cases m with
  | Paletted r p pix =>
    simp only [PaletteOK] at h
    simp only [badPaletteLen, paletteLen]
    rw [if_pos (by omega)]
  | Gray r pix => exact absurd trivial h
  | RGBA r pix => exact absurd trivial h
  | nonOpaqueRGBA r pix => exact absurd trivial h
  | Other r f o c => exact absurd trivial h

theorem addEntry_bad_size (cod : Codecs) (m : Image) (x y : Int) (h : ¬ SizeOK m) :
    addEntry cod m x y = .error (.FormatError
      ("invalid image size: " ++ Itoa m.Bounds.Size.X ++ "x" ++ Itoa m.Bounds.Size.Y)) := by
  unfold addEntry
  simp only [SizeOK] at h
  rw [if_pos (by omega)]

theorem addEntry_bad_palette (cod : Codecs) (m : Image) (x y : Int) (hs : SizeOK m)
    (h : ¬ PaletteOK m) :
    addEntry cod m x y
      = .error (.FormatError ("bad palette length: " ++ Itoa (paletteLen m : Int))) := by
  unfold addEntry
  simp only [SizeOK] at hs
  rw [if_neg (by omega), badPaletteLen_some m h]

theorem addEntry_bad_hotspot (cod : Codecs) (m : Image) (x y : Int) (hs : SizeOK m)
    (hp : PaletteOK m) (h : ¬ HotspotOK x y) :
    addEntry cod m x y
      = .error (.FormatError ("invalid hotspot: " ++ Itoa x ++ "x" ++ Itoa y)) := by
  unfold addEntry
  simp only [SizeOK] at hs
  simp only [HotspotOK] at h
  rw [if_neg (by omega), badPaletteLen_none m hp]
  simp only
  rw [if_pos (by omega)]

theorem addEntry_admitted (cod : Codecs) (m : Image) (x y : Int) (hs : SizeOK m)
    (hp : PaletteOK m) (h : HotspotOK x y) :
    addEntry cod m x y = assembleEntry cod m x y := by
  unfold addEntry
  simp only [SizeOK] at hs
  simp only [HotspotOK] at h
  rw [if_neg (by omega), badPaletteLen_none m hp]
  simp only
  rw [if_neg (by omega)]

theorem finishEntry_error (entry : Entry) (err : Err) (h : finishEntry entry = .error err) :
    err = .ErrUnexpectedEOF ∨ ∃ msg, err = .UnsupportedError msg := by
  unfold finishEntry at h
  cases hd : decodeHeader entry.data Entry.zero with
  | error e1 =>
    rw [hd] at h
    simp at h
    subst h
    exact decodeHeader_error _ _ _ hd
  | ok tmp => rw [hd] at h; simp at h

theorem toErr_ne_FormatError (err : CodecErr) (msg : String) : err.toErr ≠ .FormatError msg := by
  cases err <;> simp [CodecErr.toErr]

/-- After the admission checks `Add` returns no `FormatError`. -/
theorem assembleEntry_no_FormatError (cod : Codecs) (m : Image) (x y : Int) (msg : String) :
    assembleEntry cod m x y ≠ .error (.FormatError msg) := by
  intro h
  unfold assembleEntry at h
  simp only at h
  by_cases hsel : (formatSelect m).2 = true
  · rw [if_pos hsel] at h
    cases hc : cod.pngEncode (pngRaster m) with
    | error err =>
      rw [hc] at h
      simp only [Except.error.injEq] at h
      exact toErr_ne_FormatError _ _ h
    | ok buf =>
      rw [hc] at h
      rcases finishEntry_error _ _ h with h1 | ⟨m1, h1⟩ <;> simp at h1
  · rw [if_neg hsel] at h
    cases hc : cod.bmpEncode (dibRaster m (formatSelect m).1).1 with
    | error err =>
      rw [hc] at h
      simp only [Except.error.injEq] at h
      exact toErr_ne_FormatError _ _ h
    | ok buf =>
      rw [hc] at h
      simp only at h
      split at h
      · simp at h
      · rcases finishEntry_error _ _ h with h1 | ⟨m1, h1⟩ <;> simp at h1

/-- C6 (counterexample): an icon encoder rejects a 1x1 image, which satisfies the size and
palette rules, because of the hotspot (-1, 0); the hotspot rule is not limited to cursor
encoders. -/
theorem icon_Add_checks_hotspot :
    (NewEncoder [] true).icon = true
      ∧ (grayPixel 0).Bounds.Size = ⟨1, 1⟩
      ∧ badPaletteLen (grayPixel 0) = none
      ∧ (NewEncoder [] true).Add toyCodecs (grayPixel 0) (-1) 0
          = (NewEncoder [] true, some (.FormatError "invalid hotspot: -1x0")) := by
  decide

/-- C6 (amended): `Add` returns a FormatError, checked in this order, when the width or
height is outside [1,256] ("invalid image size: WxH"), when the image is paletted with
palette length 0 or above 256 ("bad palette length: N"), or, for an icon encoder as well
as for a cursor encoder, when a hotspot coordinate is outside [0,256]
("invalid hotspot: XxY"); an image and hotspot that satisfy all three rules are never
rejected with a FormatError. Through `ico.Encode` and `ico.EncodeAll` a 0x0 image yields
"ico: invalid format: invalid image size: 0x0". -/
theorem Add_admission (cod : Codecs) (e : Encoder) (m : Image) (x y : Int) (w : List Nat)
    (mm : List Image) :
    (¬ SizeOK m → e.Add cod m x y = (e, some (.FormatError
        ("invalid image size: " ++ Itoa m.Bounds.Size.X ++ "x" ++ Itoa m.Bounds.Size.Y))))
    ∧ (SizeOK m → ¬ PaletteOK m → e.Add cod m x y = (e, some (.FormatError
        ("bad palette length: " ++ Itoa (paletteLen m : Int)))))
    ∧ (SizeOK m → PaletteOK m → ¬ HotspotOK x y → e.Add cod m x y = (e, some (.FormatError
        ("invalid hotspot: " ++ Itoa x ++ "x" ++ Itoa y))))
    ∧ (SizeOK m → PaletteOK m → HotspotOK x y →
        ∀ msg, (e.Add cod m x y).2 ≠ some (.FormatError msg))
    ∧ (m.Bounds.Size = ⟨0, 0⟩ →
        (∃ err, (Ico.Encode cod w m).2 = some err
          ∧ err.Error = "ico: invalid format: invalid image size: 0x0")
        ∧ (∃ err, (Ico.EncodeAll cod w (m :: mm)).2 = some err
          ∧ err.Error = "ico: invalid format: invalid image size: 0x0")) := by
  refine ⟨fun h => ?_, fun hs h => ?_, fun hs hp h => ?_, fun hs hp h msg => ?_, fun h0 => ?_⟩
  · simp only [Encoder.Add, addEntry_bad_size cod m x y h]
  · simp only [Encoder.Add, addEntry_bad_palette cod m x y hs h]
  · simp only [Encoder.Add, addEntry_bad_hotspot cod m x y hs hp h]
  · simp only [Encoder.Add, addEntry_admitted cod m x y hs hp h]
    cases ha : assembleEntry cod m x y with
    | ok entry => simp
    | error err =>
      simp only [Option.some.injEq, ne_eq]
      intro hcon
      subst hcon
      exact assembleEntry_no_FormatError cod m x y msg ha
  · have hbad : ¬ SizeOK m := by simp [SizeOK, h0]
    have ha := addEntry_bad_size cod m 0 0 hbad
    rw [h0] at ha
    refine ⟨⟨.FormatError "invalid image size: 0x0", ?_, by decide⟩,
      ⟨.FormatError "invalid image size: 0x0", ?_, by decide⟩⟩
    · simp only [Ico.Encode, Encoder.Add, ha, Ico.convertErr, Err.Error]
      rfl
    · simp only [Ico.EncodeAll, Ico.addAll, Encoder.Add, ha, Ico.convertErr, Err.Error]
      rfl

/-- A paletted 1x1 raster with an empty palette. -/
def emptyPalette : Image := .Paletted (Rect 0 0 1 1) [] (fun _ _ => 0)

/-- An `*image.Gray` with the empty rectangle, as `&image.Gray{}` in the tests. -/
def zeroGray : Image := .Gray (Rect 0 0 0 0) (fun _ _ => 0)

/-- C6 (witness): a 0x0 image, an empty palette, a hotspot of 257 and an admitted call. -/
theorem Add_admission_witness :
    (¬ SizeOK zeroGray ∧ (NewEncoder [] true).Add toyCodecs zeroGray 0 0
        = (NewEncoder [] true, some (.FormatError "invalid image size: 0x0")))
    ∧ (SizeOK emptyPalette ∧ ¬ PaletteOK emptyPalette
        ∧ (NewEncoder [] true).Add toyCodecs emptyPalette 0 0
          = (NewEncoder [] true, some (.FormatError "bad palette length: 0")))
    ∧ (SizeOK (grayPixel 0) ∧ PaletteOK (grayPixel 0) ∧ ¬ HotspotOK 257 0
        ∧ (NewEncoder [] false).Add toyCodecs (grayPixel 0) 257 0
          = (NewEncoder [] false, some (.FormatError "invalid hotspot: 257x0")))
    ∧ (HotspotOK 3 4
        ∧ ∀ msg, ((NewEncoder [] false).Add toyCodecs (grayPixel 0) 3 4).2
            ≠ some (.FormatError msg))
    ∧ (∃ err, (Ico.Encode toyCodecs [] zeroGray).2 = some err
          ∧ err.Error = "ico: invalid format: invalid image size: 0x0") :=
  have h1 : ¬ SizeOK zeroGray := by simp [SizeOK, zeroGray, Image.Bounds, Rect, Rectangle.Size]
  have h2 : SizeOK emptyPalette := by
    simp [SizeOK, emptyPalette, Image.Bounds, Rect, Rectangle.Size]
  have h3 : ¬ PaletteOK emptyPalette := by simp [PaletteOK, emptyPalette]
  have h4 : SizeOK (grayPixel 0) := by
    simp [SizeOK, grayPixel, Image.Bounds, Rect, Rectangle.Size]
  have h5 : PaletteOK (grayPixel 0) := trivial
  have h6 : ¬ HotspotOK 257 0 := by simp [HotspotOK]
  have h7 : HotspotOK 3 4 := by simp [HotspotOK]
  ⟨⟨h1, (Add_admission toyCodecs (NewEncoder [] true) zeroGray 0 0 [] []).1 h1⟩,
    ⟨h2, h3, (Add_admission toyCodecs (NewEncoder [] true) emptyPalette 0 0 [] []).2.1 h2 h3⟩,
    ⟨h4, h5, h6,
      (Add_admission toyCodecs (NewEncoder [] false) (grayPixel 0) 257 0 [] []).2.2.1 h4 h5 h6⟩,
    ⟨h7, (Add_admission toyCodecs (NewEncoder [] false) (grayPixel 0) 3 4 [] []).2.2.2.1 h4 h5 h7⟩,
    ((Add_admission toyCodecs (NewEncoder [] true) zeroGray 0 0 [] []).2.2.2.2 rfl).1⟩


/-! ## A failed `Add` changes nothing -/

theorem Add_w (cod : Codecs) (e : Encoder) (m : Image) (x y : Int) :
    (e.Add cod m x y).1.w = e.w ∧ (e.Add cod m x y).1.icon = e.icon := by
  unfold Encoder.Add
  cases addEntry cod m x y <;> simp

theorem Add_fails_of_not_admitted (cod : Codecs) (e : Encoder) (m : Image) (x y : Int)
    (h : ¬ (SizeOK m ∧ PaletteOK m)) : (e.Add cod m x y).2 ≠ none := by
  unfold Encoder.Add
  by_cases hs : SizeOK m
  · have hp : ¬ PaletteOK m := fun hp => h ⟨hs, hp⟩
    rw [addEntry_bad_palette cod m x y hs hp]
    simp
  · rw [addEntry_bad_size cod m x y hs]
    simp

theorem ico_addAll_w (cod : Codecs) (mm : List Image) :
    ∀ e : Encoder, (Ico.addAll cod e mm).1.w = e.w := by
  induction mm with
  | nil => intro e; rfl
  | cons m mm ih =>
    intro e
    unfold Ico.addAll
    have hw := (Add_w cod e m 0 0).1
    cases ha : e.Add cod m 0 0 with
    | mk e1 r =>
      rw [ha] at hw
      cases r with
      | some err => exact hw
      | none => simp only; rw [ih e1]; exact hw

theorem ico_addAll_fails (cod : Codecs) (mm : List Image)
    (h : ∃ m ∈ mm, ¬ (SizeOK m ∧ PaletteOK m)) :
    ∀ e : Encoder, (Ico.addAll cod e mm).2 ≠ none := by
  induction mm with
  | nil => obtain ⟨m, hm, _⟩ := h; simp at hm
  | cons m mm ih =>
    intro e
    unfold Ico.addAll
    cases ha : e.Add cod m 0 0 with
    | mk e1 r =>
      cases r with
      | some err => simp
      | none =>
        simp only
        apply ih
        obtain ⟨m1, hm1, hbad⟩ := h
        rcases List.mem_cons.mp hm1 with rfl | hmem
        · have := Add_fails_of_not_admitted cod e m1 0 0 hbad
          rw [ha] at this
          exact absurd rfl this
        · exact ⟨m1, hmem, hbad⟩

theorem cur_addAll_eq (cod : Codecs) (mm : List Image) :
    ∀ e : Encoder, Cur.addAll cod e mm = Ico.addAll cod e mm := by
  induction mm with
  | nil => intro e; rfl
  | cons m mm ih =>
    intro e
    unfold Cur.addAll Ico.addAll
    cases ha : e.Add cod m 0 0 with
    | mk e1 r =>
      cases r with
      | some err => rfl
      | none => exact ih e1

/-- C7: a call to `Add` that returns an error leaves the encoder (its entry list and its
sink) exactly as it was, and no call to `Add` writes to the sink; consequently `EncodeAll`
(of `ico` and of `cur`) on a list that contains an image failing admission returns an
error and leaves the sink as it was. -/
theorem Add_failure_changes_nothing (cod : Codecs) (e : Encoder) (m : Image) (x y : Int)
    (w : List Nat) (mm : List Image) :
    ((e.Add cod m x y).2 ≠ none → (e.Add cod m x y).1 = e)
    ∧ (e.Add cod m x y).1.w = e.w
    ∧ ((∃ m1 ∈ mm, ¬ (SizeOK m1 ∧ PaletteOK m1)) →
        (Ico.EncodeAll cod w mm).1 = w ∧ (Ico.EncodeAll cod w mm).2 ≠ none
        ∧ (Cur.EncodeAll cod w mm).1 = w ∧ (Cur.EncodeAll cod w mm).2 ≠ none) := by
  refine ⟨?_, (Add_w cod e m x y).1, ?_⟩
  · intro h
    unfold Encoder.Add at h ⊢
    cases ha : addEntry cod m x y with
    | error err => rfl
    | ok entry => rw [ha] at h; simp at h
  · intro h
    have hi1 := ico_addAll_w cod mm (NewEncoder w true)
    have hi2 := ico_addAll_fails cod mm h (NewEncoder w true)
    have hc1 := ico_addAll_w cod mm (NewEncoder w false)
    have hc2 := ico_addAll_fails cod mm h (NewEncoder w false)
    unfold Ico.EncodeAll Cur.EncodeAll
    rw [cur_addAll_eq]
    cases hx : Ico.addAll cod (NewEncoder w true) mm with
    | mk e1 r1 =>
      cases hy : Ico.addAll cod (NewEncoder w false) mm with
      | mk e2 r2 =>
        rw [hx] at hi1 hi2
        rw [hy] at hc1 hc2
        cases r1 with
        | none => exact absurd rfl hi2
        | some err1 =>
          cases r2 with
          | none => exact absurd rfl hc2
          | some err2 =>
            simp only [NewEncoder] at hi1 hc1
            simp [hi1, hc1]

/-- C7 (witness): a 0x0 image offered to an encoder that already holds an entry, and a
list whose second image is 0x0. -/
theorem Add_failure_changes_nothing_witness :
    (((NewEncoder [9] true).Add toyCodecs (grayPixel 1) 0 0).1.Add toyCodecs zeroGray 0 0).2 ≠ none
    ∧ (((NewEncoder [9] true).Add toyCodecs (grayPixel 1) 0 0).1.Add toyCodecs zeroGray 0 0).1
        = ((NewEncoder [9] true).Add toyCodecs (grayPixel 1) 0 0).1
    ∧ (∃ m1 ∈ [grayPixel 1, zeroGray], ¬ (SizeOK m1 ∧ PaletteOK m1))
    ∧ (Ico.EncodeAll toyCodecs [9] [grayPixel 1, zeroGray]).1 = [9] :=
  have h1 : (((NewEncoder [9] true).Add toyCodecs (grayPixel 1) 0 0).1.Add
      toyCodecs zeroGray 0 0).2 ≠ none := by decide
  have h2 : ∃ m1 ∈ [grayPixel 1, zeroGray], ¬ (SizeOK m1 ∧ PaletteOK m1) :=
    ⟨zeroGray, by simp, by simp [SizeOK, zeroGray, Image.Bounds, Rect, Rectangle.Size]⟩
  ⟨h1,
    (Add_failure_changes_nothing toyCodecs ((NewEncoder [9] true).Add toyCodecs (grayPixel 1) 0 0).1
      zeroGray 0 0 [9] [grayPixel 1, zeroGray]).1 h1,
    h2,
    ((Add_failure_changes_nothing toyCodecs (NewEncoder [] true) zeroGray 0 0 [9]
      [grayPixel 1, zeroGray]).2.2 h2).1⟩


/-! ## The layout `Encode` writes -/

/-- The sum of the payload sizes of the entries `es`. -/
def payloadTotal (es : List Entry) : Nat := (es.map (fun e => e.data.length)).sum

/-- The 16 bytes of the directory record number `i` of a container. -/
def recordAt (out : List Nat) (i : Nat) : List Nat := (out.drop (6 + 16 * i)).take 16

/-- The size field of the directory record number `i`. -/
def recordSize (out : List Nat) (i : Nat) : Nat := LittleEndian.Uint32 ((recordAt out i).drop 8)

/-- The offset field of the directory record number `i`. -/
def recordOffset (out : List Nat) (i : Nat) : Nat := LittleEndian.Uint32 ((recordAt out i).drop 12)

theorem Uint16_PutUint16 (v : Nat) (rest : List Nat) :
    LittleEndian.Uint16 (LittleEndian.PutUint16 v ++ rest) = v % 65536 := by
  simp [LittleEndian.Uint16, LittleEndian.PutUint16]
  omega

theorem Uint32_PutUint32 (v : Nat) (rest : List Nat) :
    LittleEndian.Uint32 (LittleEndian.PutUint32 v ++ rest) = v % 4294967296 := by
  simp [LittleEndian.Uint32, LittleEndian.PutUint32]
  omega

theorem dirRecord_length (icon : Bool) (m : Entry) (off : Int) :
    (dirRecord icon m off).length = 16 := by
  simp [dirRecord, LittleEndian.PutUint16, LittleEndian.PutUint32]

theorem encodeDir_length (icon : Bool) :
    ∀ (es : List Entry) (off : Int), (encodeDir icon es off).length = 16 * es.length := by
  intro es
  induction es with
  | nil => intro off; rfl
  | cons m ms ih =>
    intro off
    simp only [encodeDir, List.length_append, dirRecord_length, ih, List.length_cons]
    omega

theorem encodeData_eq (es : List Entry) : encodeData es = (es.map (fun e => e.data)).flatten := by
  induction es with
  | nil => rfl
  | cons m ms ih => simp [encodeData, ih]

theorem encodeData_length (es : List Entry) : (encodeData es).length = payloadTotal es := by
  induction es with
  | nil => rfl
  | cons m ms ih => simp [encodeData, payloadTotal, ih] at *

theorem payloadTotal_take_succ (es : List Entry) (i : Nat) (h : i < es.length) :
    payloadTotal (es.take (i + 1)) = payloadTotal (es.take i) + es[i].data.length := by
  induction es generalizing i with
  | nil => simp at h
  | cons m ms ih =>
    cases i with
    | zero => simp [payloadTotal]
    | succ i =>
      have h1 : i < ms.length := by simpa using h
      have := ih i h1
      simp only [payloadTotal, List.take_succ_cons, List.map_cons, List.sum_cons,
        List.getElem_cons_succ] at this ⊢
      omega

theorem payloadTotal_take_le (es : List Entry) (i : Nat) :
    payloadTotal (es.take i) ≤ payloadTotal es := by
  induction es generalizing i with
  | nil => simp [payloadTotal]
  | cons m ms ih =>
    cases i with
    | zero => simp [payloadTotal]
    | succ i =>
      have := ih i
      simp only [payloadTotal, List.take_succ_cons, List.map_cons, List.sum_cons] at this ⊢
      omega

/-- The record number `i` that the directory loop writes. -/
theorem encodeDir_record (icon : Bool) :
    ∀ (es : List Entry) (off : Int) (i : Nat) (h : i < es.length) (rest : List Nat),
      ((encodeDir icon es off ++ rest).drop (16 * i)).take 16
        = dirRecord icon es[i] (off + (payloadTotal (es.take i) : Int)) := by
  intro es
  induction es with
  | nil => intro off i h; simp at h
  | cons m ms ih =>
    intro off i h rest
    cases i with
    | zero =>
      simp only [encodeDir, Nat.mul_zero, List.drop_zero, List.append_assoc,
        List.getElem_cons_zero,
        List.take_zero, payloadTotal, List.map_nil, List.sum_nil, Nat.cast_zero, add_zero]
      rw [List.take_append_of_le_length (by rw [dirRecord_length])]
      rw [List.take_of_length_le (by rw [dirRecord_length])]
    | succ i =>
      have h1 : i < ms.length := by simpa using h
      have hd : List.drop (16 * (i + 1)) (encodeDir icon (m :: ms) off ++ rest)
          = List.drop (16 * i) (encodeDir icon ms (off + (m.data.length : Int)) ++ rest) := by
        simp only [encodeDir, List.append_assoc]
        rw [show 16 * (i + 1) = (dirRecord icon m off).length + 16 * i by
          rw [dirRecord_length]; omega]
        rw [List.drop_append]
      rw [hd, ih (off + (m.data.length : Int)) i h1 rest]
      simp only [List.getElem_cons_succ, List.take_succ_cons, payloadTotal, List.map_cons,
        List.sum_cons, Nat.cast_add]
      congr 1
      omega

theorem encodeBytes_drop_header (icon : Bool) (es : List Entry) (k : Nat) :
    (encodeBytes icon es).drop (6 + k)
      = (encodeDir icon es ((fileHeaderLen : Int) + (dirEntryLen : Int) * (es.length : Int))
          ++ encodeData es).drop k := by
  unfold encodeBytes
  have h6 : ((if icon = true then icoPrefix else curPrefix)
      ++ LittleEndian.PutUint16 (toUint16 (es.length : Int))).length = 6 := by
    cases icon <;> simp [icoPrefix, curPrefix, LittleEndian.PutUint16]
  rw [List.append_assoc, ← h6, List.drop_append]

/-- The record number `i` of the bytes `Encode` writes. -/
theorem recordAt_encodeBytes (icon : Bool) (es : List Entry) (i : Nat) (h : i < es.length) :
    recordAt (encodeBytes icon es) i
      = dirRecord icon es[i]
          (6 + 16 * (es.length : Int) + (payloadTotal (es.take i) : Int)) := by
  unfold recordAt
  rw [encodeBytes_drop_header, encodeDir_record icon es _ i h]
  simp [fileHeaderLen, dirEntryLen]

theorem encodeBytes_length (icon : Bool) (es : List Entry) :
    (encodeBytes icon es).length = 6 + 16 * es.length + payloadTotal es := by
  unfold encodeBytes
  simp only [List.length_append, encodeDir_length, encodeData_length]
  cases icon <;> simp [icoPrefix, curPrefix, LittleEndian.PutUint16]

theorem encodeBytes_payloads (icon : Bool) (es : List Entry) :
    (encodeBytes icon es).drop (6 + 16 * es.length) = encodeData es := by
  rw [encodeBytes_drop_header]
  rw [← encodeDir_length icon es ((fileHeaderLen : Int) + (dirEntryLen : Int) * (es.length : Int))]
  rw [List.drop_left]

theorem encodeData_drop_take (es : List Entry) (i : Nat) (h : i < es.length) :
    ((encodeData es).drop (payloadTotal (es.take i))).take es[i].data.length
      = es[i].data := by
  induction es generalizing i with
  | nil => simp at h
  | cons m ms ih =>
    cases i with
    | zero =>
      simp only [List.take_zero, payloadTotal, List.map_nil, List.sum_nil, List.drop_zero,
        List.getElem_cons_zero, encodeData]
      rw [List.take_left]
    | succ i =>
      have h1 : i < ms.length := by simpa using h
      have := ih i h1
      simp only [List.take_succ_cons, payloadTotal, List.map_cons, List.sum_cons,
        List.getElem_cons_succ, encodeData] at this ⊢
      rw [List.drop_append]
      exact this

theorem recordSize_encodeBytes (icon : Bool) (es : List Entry) (i : Nat) (h : i < es.length) :
    recordSize (encodeBytes icon es) i = es[i].data.length % 4294967296 := by
  unfold recordSize
  rw [recordAt_encodeBytes icon es i h]
  have : List.drop 8 (dirRecord icon es[i]
      (6 + 16 * (es.length : Int) + (payloadTotal (es.take i) : Int)))
      = LittleEndian.PutUint32 (toUint32 (es[i].data.length : Int))
        ++ LittleEndian.PutUint32
          (toUint32 (6 + 16 * (es.length : Int) + (payloadTotal (es.take i) : Int))) := by
    simp [dirRecord, LittleEndian.PutUint16]
  rw [this, Uint32_PutUint32]
  simp only [toUint32]
  omega

theorem recordOffset_encodeBytes (icon : Bool) (es : List Entry) (i : Nat) (h : i < es.length) :
    recordOffset (encodeBytes icon es) i
      = (6 + 16 * es.length + payloadTotal (es.take i)) % 4294967296 := by
  unfold recordOffset
  rw [recordAt_encodeBytes icon es i h]
  have : List.drop 12 (dirRecord icon es[i]
      (6 + 16 * (es.length : Int) + (payloadTotal (es.take i) : Int)))
      = LittleEndian.PutUint32
          (toUint32 (6 + 16 * (es.length : Int) + (payloadTotal (es.take i) : Int))) ++ [] := by
    simp [dirRecord, LittleEndian.PutUint16, LittleEndian.PutUint32]
  rw [this, Uint32_PutUint32]
  simp only [toUint32]
  omega

theorem payloadTotal_replicate (k : Nat) (e : Entry) :
    payloadTotal (List.replicate k e) = k * e.data.length := by
  induction k with
  | zero => simp [payloadTotal]
  | succ k ih =>
    simp only [payloadTotal, List.replicate_succ, List.map_cons, List.sum_cons] at ih ⊢
    rw [ih]
    ring

/-- A payload of the size of a 256x256 DIB of 8 bits per pixel with its mask:
40 + 1024 + 65536 + 8192 bytes. -/
def largePayload : List Nat := List.replicate 74792 0

/-- An entry for a 256x256 image of 8 bits per pixel. -/
def largeEntry : Entry :=
  { Entry.zero with Width := 256, Height := 256, Colors := 256, BPP := 8, Size := 74792,
                    data := largePayload }

/-- An icon encoder that holds 60000 such entries, 4.4 GB of payload. -/
def largeEncoder : Encoder := { w := [], icon := true, entries := List.replicate 60000 largeEntry }

theorem largeEntry_data_length : largeEntry.data.length = 74792 := by
  show (List.replicate 74792 0).length = 74792
  exact List.length_replicate _ _

theorem largeEncoder_length : largeEncoder.entries.length = 60000 := by
  show (List.replicate 60000 largeEntry).length = 60000
  exact List.length_replicate _ _

theorem largeEncoder_offset (i : Nat) (h : i < 60000) :
    recordOffset (encodeBytes largeEncoder.icon largeEncoder.entries) i
      = (960006 + i * 74792) % 4294967296 := by
  have hi : i < largeEncoder.entries.length := by rw [largeEncoder_length]; exact h
  rw [recordOffset_encodeBytes _ _ i hi, largeEncoder_length]
  have : payloadTotal (List.take i largeEncoder.entries) = i * 74792 := by
    simp only [largeEncoder, List.take_replicate, payloadTotal_replicate, largeEntry_data_length]
    rw [Nat.min_eq_left (by omega)]
  rw [this]

theorem largeEncoder_size (i : Nat) (h : i < 60000) :
    recordSize (encodeBytes largeEncoder.icon largeEncoder.entries) i = 74792 := by
  have hi : i < largeEncoder.entries.length := by rw [largeEncoder_length]; exact h
  rw [recordSize_encodeBytes _ _ i hi]
  have : largeEncoder.entries[i] = largeEntry := by
    simp only [largeEncoder, List.getElem_replicate]
  rw [this, largeEntry_data_length]

/-- C8 (counterexample): an encoder that holds 60000 entries (fewer than 65536) with
payloads of 74792 bytes each writes more than 2^32 bytes; the offset field of record
57413 is then 25806, which is neither the offset of record 57412 plus its size nor larger
than the offset of record 57412. -/
theorem Encode_offsets_wrap :
    largeEncoder.entries.length < 65536
      ∧ (∀ x ∈ largeEncoder.entries, x.data ≠ [])
      ∧ recordOffset (encodeBytes largeEncoder.icon largeEncoder.entries) 57413 = 25806
      ∧ recordOffset (encodeBytes largeEncoder.icon largeEncoder.entries) 57413
          ≠ recordOffset (encodeBytes largeEncoder.icon largeEncoder.entries) 57412
            + recordSize (encodeBytes largeEncoder.icon largeEncoder.entries) 57412
      ∧ ¬ (recordOffset (encodeBytes largeEncoder.icon largeEncoder.entries) 57412
            < recordOffset (encodeBytes largeEncoder.icon largeEncoder.entries) 57413) := by
  have h1 := largeEncoder_offset 57413 (by omega)
  have h2 := largeEncoder_offset 57412 (by omega)
  have h3 := largeEncoder_size 57412 (by omega)
  refine ⟨by rw [largeEncoder_length]; omega, ?_, ?_, ?_, ?_⟩
  · intro x hx
    have : x = largeEntry := by
      simp only [largeEncoder] at hx
      exact List.eq_of_mem_replicate hx
    rw [this]
    intro hcon
    have := largeEntry_data_length
    rw [hcon] at this
    simp at this
  · rw [h1]
  · rw [h1, h2, h3]; omega
  · rw [h1, h2]; omega

/-- C8 (amended): for an encoder holding n entries (n < 65536) with non-empty payloads,
as `Add` stores them, and a total output length 6 + 16n + (sum of the payload sizes)
below 2^32, `Encode` writes the 6-byte file header (kind magic, then n as u16 LE), then n
16-byte directory records in insertion order, then the n payloads in the same order with
no padding: the first record's offset is 6 + 16n, every later record's offset equals the
previous record's offset plus the previous record's size, offsets are strictly increasing,
and the total output length is 6 + 16n + the sum of the payload sizes. -/
theorem Encode_layout (e : Encoder) (hn : e.entries.length < 65536)
    (hne : ∀ x ∈ e.entries, x.data ≠ [])
    (hsize : 6 + 16 * e.entries.length + payloadTotal e.entries < 4294967296) :
    e.Encode = ({ e with w := e.w ++ encodeBytes e.icon e.entries }, none)
    ∧ (encodeBytes e.icon e.entries).take 4 = magic e.icon
    ∧ LittleEndian.Uint16 ((encodeBytes e.icon e.entries).drop 4) = e.entries.length
    ∧ (encodeBytes e.icon e.entries).length = 6 + 16 * e.entries.length + payloadTotal e.entries
    ∧ (encodeBytes e.icon e.entries).drop (6 + 16 * e.entries.length)
        = (e.entries.map (fun x => x.data)).flatten
    ∧ (∀ (i : Nat) (h : i < e.entries.length),
        recordSize (encodeBytes e.icon e.entries) i = e.entries[i].data.length
        ∧ ((encodeBytes e.icon e.entries).drop (recordOffset (encodeBytes e.icon e.entries) i)).take
            (recordSize (encodeBytes e.icon e.entries) i) = e.entries[i].data)
    ∧ (0 < e.entries.length →
        recordOffset (encodeBytes e.icon e.entries) 0 = 6 + 16 * e.entries.length)
    ∧ (∀ i, i + 1 < e.entries.length →
        recordOffset (encodeBytes e.icon e.entries) (i + 1)
          = recordOffset (encodeBytes e.icon e.entries) i
            + recordSize (encodeBytes e.icon e.entries) i
        ∧ recordOffset (encodeBytes e.icon e.entries) i
          < recordOffset (encodeBytes e.icon e.entries) (i + 1)) := by
  have hoff : ∀ (i : Nat) (h : i < e.entries.length),
      recordOffset (encodeBytes e.icon e.entries) i
        = 6 + 16 * e.entries.length + payloadTotal (e.entries.take i) := by
    intro i h
    rw [recordOffset_encodeBytes _ _ i h]
    have := payloadTotal_take_le e.entries i
    omega
  have hsz : ∀ (i : Nat) (h : i < e.entries.length),
      recordSize (encodeBytes e.icon e.entries) i = e.entries[i].data.length := by
    intro i h
    rw [recordSize_encodeBytes _ _ i h]
    have h1 := payloadTotal_take_succ e.entries i h
    have h2 := payloadTotal_take_le e.entries (i + 1)
    omega
  refine ⟨rfl, ?_, ?_, encodeBytes_length _ _, ?_, ?_, ?_, ?_⟩
  · unfold encodeBytes magic
    cases e.icon <;> rfl
  · have h4 : (encodeBytes e.icon e.entries).drop 4
        = LittleEndian.PutUint16 (toUint16 (e.entries.length : Int))
          ++ (encodeDir e.icon e.entries
                ((fileHeaderLen : Int) + (dirEntryLen : Int) * (e.entries.length : Int))
              ++ encodeData e.entries) := by
      unfold encodeBytes
      cases e.icon <;> simp [icoPrefix, curPrefix]
    rw [h4, Uint16_PutUint16]
    simp only [toUint16]
    omega
  · rw [encodeBytes_payloads, encodeData_eq]
  · intro i h
    refine ⟨hsz i h, ?_⟩
    rw [hsz i h, hoff i h]
    rw [show 6 + 16 * e.entries.length + payloadTotal (List.take i e.entries)
      = (6 + 16 * e.entries.length) + payloadTotal (List.take i e.entries) by omega]
    rw [← List.drop_drop, encodeBytes_payloads]
    exact encodeData_drop_take e.entries i h
  · intro h0
    rw [hoff 0 h0]
    simp [payloadTotal]
  · intro i h
    have hi : i < e.entries.length := by omega
    rw [hoff (i + 1) h, hoff i hi, hsz i hi, payloadTotal_take_succ e.entries i hi]
    have hpos : 0 < e.entries[i].data.length := by
      have := hne e.entries[i] (List.getElem_mem hi)
      exact List.length_pos.mpr this
    omega

/-- A cursor encoder after two successful calls of `Add`. -/
def twoCursors : Encoder :=
  (((NewEncoder [] false).Add toyCodecs redAndClear 3 4).1.Add toyCodecs (grayPixel 9) 5 6).1

/-- C8 (witness): the encoder `twoCursors`. -/
theorem Encode_layout_witness :
    twoCursors.entries.length < 65536
      ∧ (∀ x ∈ twoCursors.entries, x.data ≠ [])
      ∧ 6 + 16 * twoCursors.entries.length + payloadTotal twoCursors.entries < 4294967296
      ∧ (encodeBytes twoCursors.icon twoCursors.entries).length
          = 6 + 16 * twoCursors.entries.length + payloadTotal twoCursors.entries
      ∧ recordOffset (encodeBytes twoCursors.icon twoCursors.entries) 0 = 38
      ∧ recordOffset (encodeBytes twoCursors.icon twoCursors.entries) 1 = 90 :=
  have h1 : twoCursors.entries.length < 65536 := by decide
  have h2 : ∀ x ∈ twoCursors.entries, x.data ≠ [] := by decide
  have h3 : 6 + 16 * twoCursors.entries.length + payloadTotal twoCursors.entries < 4294967296 := by
    decide
  ⟨h1, h2, h3, (Encode_layout twoCursors h1 h2 h3).2.2.2.1,
    ((Encode_layout twoCursors h1 h2 h3).2.2.2.2.2.2.1 (by decide)).trans (by decide),
    (((Encode_layout twoCursors h1 h2 h3).2.2.2.2.2.2.2 0 (by decide)).1).trans (by decide)⟩


/-! ## The DIB info-header -/

theorem Uint16_lt (b : List Nat) : LittleEndian.Uint16 b < 65536 := by
  unfold LittleEndian.Uint16
  omega

theorem Uint32_lt (b : List Nat) : LittleEndian.Uint32 b < 4294967296 := by
  unfold LittleEndian.Uint32
  omega

/-- The value of a 32-bit field read as a signed number. -/
def signed32 (v : Nat) : Int := if v < 2147483648 then (v : Int) else (v : Int) - 4294967296

theorem toInt32_eq_signed32 (v : Nat) (h : v < 4294967296) : toInt32 v = signed32 v := by
  unfold toInt32 signed32
  split <;> omega

theorem dibEntry_topDown (info : List Nat) (e : Entry) :
    (dibEntry info e).topDown = (if dibDiskHeight info < 0 then true else e.topDown) := by
  unfold dibEntry
  simp only

theorem dibEntry_Width (info : List Nat) (e : Entry) :
    (dibEntry info e).Width = toInt32 (LittleEndian.Uint32 (info.drop 4)) := by
  unfold dibEntry
  simp only

theorem dibEntry_Height (info : List Nat) (e : Entry) :
    (dibEntry info e).Height = dibAbsHeight info / 2 := by
  unfold dibEntry
  simp only

/-- C14: for a DIB payload of at least 40 bytes, `decodeBMPHeader` fails with
UnsupportedError when the declared header size is below 40 or when the on-disk height (a
signed 32-bit little-endian value) is odd; otherwise it sets Width to the signed
little-endian width, sets `topDown` exactly when the on-disk height is negative, and sets
Height to half of the absolute value of the on-disk height. -/
theorem decodeBMPHeader_size_and_height (s : List Nat) (e : Entry) (h40 : 40 ≤ s.length) :
    (LittleEndian.Uint32 s < 40 →
        decodeBMPHeader s e = .error (.UnsupportedError "BMP image"))
    ∧ (signed32 (LittleEndian.Uint32 (s.drop 8)) % 2 ≠ 0 →
        decodeBMPHeader s e = .error (.UnsupportedError "BMP image"))
    ∧ (40 ≤ LittleEndian.Uint32 s → signed32 (LittleEndian.Uint32 (s.drop 8)) % 2 = 0 →
        ∃ t, decodeBMPHeader s e = .ok t
          ∧ t.Width = signed32 (LittleEndian.Uint32 (s.drop 4))
          ∧ t.topDown = (if signed32 (LittleEndian.Uint32 (s.drop 8)) < 0 then true else e.topDown)
          ∧ t.Height = |signed32 (LittleEndian.Uint32 (s.drop 8))| / 2) := by
  have hsz : LittleEndian.Uint32 (s.take 40) = LittleEndian.Uint32 s := by
    have := Uint32_drop_take s 0 40 (by omega)
    simpa using this
  have hw : LittleEndian.Uint32 ((s.take 40).drop 4) = LittleEndian.Uint32 (s.drop 4) :=
    Uint32_drop_take s 4 40 (by omega)
  have hh : LittleEndian.Uint32 ((s.take 40).drop 8) = LittleEndian.Uint32 (s.drop 8) :=
    Uint32_drop_take s 8 40 (by omega)
  have hdisk : dibDiskHeight (s.take 40) = signed32 (LittleEndian.Uint32 (s.drop 8)) := by
    unfold dibDiskHeight
    rw [hh, toInt32_eq_signed32 _ (Uint32_lt _)]
  have habs : dibAbsHeight (s.take 40) = |signed32 (LittleEndian.Uint32 (s.drop 8))| := by
    unfold dibAbsHeight
    rw [hdisk]
    split
    · rw [abs_of_neg (by assumption)]
    · rw [abs_of_nonneg (by omega)]
  have hodd : dibAbsHeight (s.take 40) % 2 ≠ 0
      ↔ signed32 (LittleEndian.Uint32 (s.drop 8)) % 2 ≠ 0 := by
    rw [habs]
    rcases abs_choice (signed32 (LittleEndian.Uint32 (s.drop 8))) with h | h <;> rw [h] <;> omega
  rw [decodeBMPHeader_eq s e h40, hsz]
  refine ⟨fun h => by rw [if_pos h], fun h => ?_, fun h1 h2 => ?_⟩
  · by_cases h1 : LittleEndian.Uint32 s < 40
    · rw [if_pos h1]
    · rw [if_neg h1, if_pos (hodd.mpr h)]
  · have h2' : ¬ dibAbsHeight (s.take 40) % 2 ≠ 0 := fun hc => (hodd.mp hc) h2
    rw [if_neg (by omega), if_neg h2']
    refine ⟨_, rfl, ?_, ?_, ?_⟩
    · rw [dibEntry_Width, hw, toInt32_eq_signed32 _ (Uint32_lt _)]
    · rw [dibEntry_topDown, hdisk]
    · rw [dibEntry_Height, habs]

/-- A DIB info-header for a 2x2 image (on-disk height 4) of 32 bits per pixel. -/
def header2x2 : List Nat := dibInfoHeader 2 4 32

/-- C14 (witness): the info-header of a 2x2 image. -/
theorem decodeBMPHeader_size_and_height_witness :
    ∃ t, decodeBMPHeader header2x2 Entry.zero = .ok t
      ∧ t.Width = signed32 (LittleEndian.Uint32 (header2x2.drop 4))
      ∧ t.topDown = (if signed32 (LittleEndian.Uint32 (header2x2.drop 8)) < 0 then true
          else Entry.zero.topDown)
      ∧ t.Height = |signed32 (LittleEndian.Uint32 (header2x2.drop 8))| / 2 :=
  (decodeBMPHeader_size_and_height header2x2 Entry.zero (by decide)).2.2 (by decide) (by decide)


/-- A DIB info-header of 8 bits per pixel that declares 2^30 colours. -/
def manyColorsHeader : List Nat :=
  LittleEndian.PutUint32 40 ++ LittleEndian.PutUint32 1 ++ LittleEndian.PutUint32 2
    ++ LittleEndian.PutUint16 1 ++ LittleEndian.PutUint16 8 ++ List.replicate 16 0
    ++ LittleEndian.PutUint32 1073741824 ++ [0, 0, 0, 0]

/-- C27 (counterexample): for a header that declares size 40, depth 8 and 2^30 colours,
`Colors` is 2^30 and the patched field holds 54, not 14 + 40 + 4 * 2^30. -/
theorem decodeBMPHeader_offset_field_wraps :
    (decodeBMPHeader manyColorsHeader Entry.zero).toOption.map
        (fun t => (t.Colors, (t.bmpHeader.map (fun h => LittleEndian.Uint32 (h.drop 10)))))
      = some (1073741824, some 54)
    ∧ 54 ≠ 14 + 40 + 4 * 1073741824 := by
  decide

theorem dibColors_range (info : List Nat) : 0 ≤ dibColors info ∧ dibColors info < 4294967296 := by
  unfold dibColors
  have hb := Uint16_lt (info.drop 14)
  have hc := Uint32_lt (info.drop 32)
  split
  · rename_i h
    have h8 : (dibBPP info).toNat ≤ 8 := by
      have := h.1
      omega
    have hp : (2 : Int) ^ (dibBPP info).toNat ≤ 2 ^ 8 :=
      pow_le_pow_right₀ (by norm_num) h8
    have hp0 : (0 : Int) < 2 ^ (dibBPP info).toNat := by positivity
    constructor
    · omega
    · have : (2 : Int) ^ 8 = 256 := by norm_num
      omega
  · omega

theorem dibAbsHeight_range (info : List Nat) :
    0 ≤ dibAbsHeight info ∧ dibAbsHeight info ≤ 2147483648 := by
  unfold dibAbsHeight dibDiskHeight toInt32
  split <;> omega

theorem dibHeader_fields (info : List Nat) (h : info.length = 40) :
    (dibHeader info).take 2 = [0x42, 0x4D]
      ∧ LittleEndian.Uint32 ((dibHeader info).drop 10)
          = (14 + LittleEndian.Uint32 info + toUint32 (dibColors info) * 4 + dibColorMaskLen info)
              % 4294967296
      ∧ LittleEndian.Uint32 ((dibHeader info).drop 22) = toUint32 (dibAbsHeight info / 2) % 4294967296
      ∧ (dibHeader info).length = 54 := by
  refine ⟨rfl, ?_, ?_, ?_⟩
  · have : (dibHeader info).drop 10 = LittleEndian.PutUint32
        ((14 + LittleEndian.Uint32 info + toUint32 (dibColors info) * 4 + dibColorMaskLen info)
          % 4294967296)
        ++ (info.take 8 ++ LittleEndian.PutUint32 (toUint32 (dibAbsHeight info / 2))
            ++ info.drop 12) := by
      simp [dibHeader]
    rw [this, Uint32_PutUint32]
    omega
  · have : (dibHeader info).drop 22
        = LittleEndian.PutUint32 (toUint32 (dibAbsHeight info / 2)) ++ info.drop 12 := by
      unfold dibHeader
      have h8 : (info.take 8).length = 8 := by simp; omega
      rw [show (22 : Nat) = ([0x42, 0x4D, 0, 0, 0, 0, 0, 0, 0, 0]
            ++ LittleEndian.PutUint32
              ((14 + LittleEndian.Uint32 info + toUint32 (dibColors info) * 4
                + dibColorMaskLen info) % 4294967296)
            ++ info.take 8).length by
          simp [LittleEndian.PutUint32, h8]]
      rw [List.append_assoc _ _ (List.drop 12 info), List.drop_left]
    rw [this, Uint32_PutUint32]
  · simp [dibHeader, LittleEndian.PutUint32, h]

theorem decodeBMPHeader_short (s : List Nat) (e : Entry) (h : s.length < 40) :
    ∃ err, decodeBMPHeader s e = .error err := by
  obtain ⟨err, h1, h2⟩ := readFull_short s 40 h
  exact ⟨eofToUnexpected err, by simp only [decodeBMPHeader, infoHeaderLen, h1]⟩

theorem header2x2_decodes :
    decodeBMPHeader header2x2 Entry.zero = .ok (dibEntry (header2x2.take 40) Entry.zero) := by
  have h40 : 40 ≤ header2x2.length := by decide
  have h1 : ¬ LittleEndian.Uint32 (header2x2.take 40) < 40 := by decide
  have h2 : ¬ dibAbsHeight (header2x2.take 40) % 2 ≠ 0 := by decide
  rw [decodeBMPHeader_eq header2x2 Entry.zero h40, if_neg h1, if_neg h2]

theorem dibEntry_Colors (info : List Nat) (e : Entry) :
    (dibEntry info e).Colors = dibColors info := by
  unfold dibEntry
  simp only

theorem dibEntry_bmpHeader (info : List Nat) (e : Entry) :
    (dibEntry info e).bmpHeader = some (dibHeader info) := by
  unfold dibEntry
  simp only

theorem dibEntry_Offset (info : List Nat) (e : Entry) :
    (dibEntry info e).Offset = e.Offset + 40 := by
  unfold dibEntry
  simp only

theorem dibEntry_Size (info : List Nat) (e : Entry) :
    (dibEntry info e).Size = e.Size - 40 := by
  unfold dibEntry
  simp only

theorem dibEntry_data (info : List Nat) (e : Entry) :
    (dibEntry info e).data = e.data.drop 40 := by
  unfold dibEntry
  simp only

/-- A successful `decodeBMPHeader` returns `dibEntry` of the first 40 bytes. -/
theorem decodeBMPHeader_ok (s : List Nat) (e t : Entry) (h : decodeBMPHeader s e = .ok t) :
    40 ≤ s.length ∧ 40 ≤ LittleEndian.Uint32 (s.take 40)
      ∧ dibAbsHeight (s.take 40) % 2 = 0 ∧ t = dibEntry (s.take 40) e := by
  have h40 : 40 ≤ s.length := by
    by_contra hc
    obtain ⟨err, herr⟩ := decodeBMPHeader_short s e (by omega)
    rw [herr] at h
    cases h
  rw [decodeBMPHeader_eq s e h40] at h
  by_cases h1 : LittleEndian.Uint32 (s.take 40) < 40
  · rw [if_pos h1] at h
    cases h
  · rw [if_neg h1] at h
    by_cases h2 : dibAbsHeight (s.take 40) % 2 ≠ 0
    · rw [if_pos h2] at h
      cases h
    · rw [if_neg h2] at h
      refine ⟨h40, by omega, by omega, ?_⟩
      exact (Except.ok.inj h).symm

theorem dibColors_eq (s : List Nat) :
    dibColors (s.take 40)
      = ((if LittleEndian.Uint16 (s.drop 14) ≤ 8 ∧ LittleEndian.Uint32 (s.drop 32) = 0
          then 2 ^ LittleEndian.Uint16 (s.drop 14)
          else LittleEndian.Uint32 (s.drop 32) : Nat) : Int) := by
  have hb : LittleEndian.Uint16 ((s.take 40).drop 14) = LittleEndian.Uint16 (s.drop 14) :=
    Uint16_drop_take s 14 40 (by omega)
  have hc : LittleEndian.Uint32 ((s.take 40).drop 32) = LittleEndian.Uint32 (s.drop 32) :=
    Uint32_drop_take s 32 40 (by omega)
  unfold dibColors dibBPP
  rw [hb, hc]
  by_cases hcase : LittleEndian.Uint16 (s.drop 14) ≤ 8 ∧ LittleEndian.Uint32 (s.drop 32) = 0
  · rw [if_pos hcase, if_pos ⟨by exact_mod_cast hcase.1, by exact_mod_cast hcase.2⟩]
    rw [Int.toNat_ofNat]
    push_cast
    rfl
  · rw [if_neg hcase, if_neg]
    intro hn
    exact hcase ⟨by exact_mod_cast hn.1, by exact_mod_cast hn.2⟩

theorem dibColorMaskLen_eq (s : List Nat) :
    dibColorMaskLen (s.take 40)
      = (if LittleEndian.Uint32 s = 40
          ∧ (LittleEndian.Uint16 (s.drop 14) = 16 ∨ LittleEndian.Uint16 (s.drop 14) = 32)
          ∧ LittleEndian.Uint32 (s.drop 16) = 3 then 12 else 0) := by
  have hsz : LittleEndian.Uint32 (s.take 40) = LittleEndian.Uint32 s := by
    have := Uint32_drop_take s 0 40 (by omega)
    simpa using this
  have hb : LittleEndian.Uint16 ((s.take 40).drop 14) = LittleEndian.Uint16 (s.drop 14) :=
    Uint16_drop_take s 14 40 (by omega)
  have hm : LittleEndian.Uint32 ((s.take 40).drop 16) = LittleEndian.Uint32 (s.drop 16) :=
    Uint32_drop_take s 16 40 (by omega)
  unfold dibColorMaskLen dibBPP
  rw [hsz, hb, hm]
  by_cases hcase : LittleEndian.Uint32 s = 40
      ∧ (LittleEndian.Uint16 (s.drop 14) = 16 ∨ LittleEndian.Uint16 (s.drop 14) = 32)
      ∧ LittleEndian.Uint32 (s.drop 16) = 3
  · rw [if_pos hcase, if_pos]
    refine ⟨hcase.1, ?_, hcase.2.2⟩
    rcases hcase.2.1 with h | h
    · left; rw [h]; rfl
    · right; rw [h]; rfl
  · rw [if_neg hcase, if_neg]
    intro hn
    refine hcase ⟨hn.1, ?_, hn.2.2⟩
    rcases hn.2.1 with h | h
    · left; exact_mod_cast h
    · right; exact_mod_cast h

theorem toUint32_of_range (x : Int) (h0 : 0 ≤ x) (h1 : x < 4294967296) :
    toUint32 x = x.toNat := by
  unfold toUint32
  rw [Int.emod_eq_of_lt h0 h1]

theorem halved_height_field (a : Int) (h0 : 0 ≤ a) (h1 : a ≤ 2147483648) :
    ((toUint32 (a / 2) % 4294967296 : Nat) : Int) = a / 2 := by
  unfold toUint32
  omega

/-- C27 (amended): after a successful `decodeBMPHeader` with declared header size n, bit
depth b, declared colour count c and compression mode m: Colors = 2^b if b <= 8 and c = 0,
else c; the synthesized file header starts with "BM" and its patched little-endian field
(bytes 10-13) holds 14 + n + 4*Colors + k reduced modulo 2^32, where k = 12 exactly when
n = 40, b is 16 or 32 and m = 3, else 0; the info-header height field holds the halved
height; the entry's Offset has grown by 40, its Size has shrunk by 40, and the buffered
payload has lost its first 40 bytes. -/
theorem decodeBMPHeader_patches (s : List Nat) (e t : Entry)
    (h : decodeBMPHeader s e = .ok t) :
    t.Colors = (if LittleEndian.Uint16 (s.drop 14) ≤ 8 ∧ LittleEndian.Uint32 (s.drop 32) = 0
        then 2 ^ LittleEndian.Uint16 (s.drop 14) else LittleEndian.Uint32 (s.drop 32) : Nat)
    ∧ (∃ hdr, t.bmpHeader = some hdr ∧ hdr.length = 54 ∧ hdr.take 2 = [0x42, 0x4D]
        ∧ LittleEndian.Uint32 (hdr.drop 10)
            = (14 + LittleEndian.Uint32 s + 4 * t.Colors.toNat
                + (if LittleEndian.Uint32 s = 40
                      ∧ (LittleEndian.Uint16 (s.drop 14) = 16 ∨ LittleEndian.Uint16 (s.drop 14) = 32)
                      ∧ LittleEndian.Uint32 (s.drop 16) = 3 then 12 else 0)) % 4294967296
        ∧ (LittleEndian.Uint32 (hdr.drop 22) : Int) = t.Height)
    ∧ t.Offset = e.Offset + 40 ∧ t.Size = e.Size - 40 ∧ t.data = e.data.drop 40 := by
  obtain ⟨h40, _, _, ht⟩ := decodeBMPHeader_ok s e t h
  have hlen : (s.take 40).length = 40 := by simp; omega
  have hsz : LittleEndian.Uint32 (s.take 40) = LittleEndian.Uint32 s := by
    have := Uint32_drop_take s 0 40 (by omega)
    simpa using this
  have hcol : t.Colors = dibColors (s.take 40) := by rw [ht]; exact dibEntry_Colors _ _
  have hhdr : t.bmpHeader = some (dibHeader (s.take 40)) := by
    rw [ht]; exact dibEntry_bmpHeader _ _
  have hhei : t.Height = dibAbsHeight (s.take 40) / 2 := by rw [ht]; exact dibEntry_Height _ _
  obtain ⟨f1, f2, f3, f4⟩ := dibHeader_fields (s.take 40) hlen
  have hr := dibColors_range (s.take 40)
  have ha := dibAbsHeight_range (s.take 40)
  refine ⟨by rw [hcol, dibColors_eq], ⟨dibHeader (s.take 40), hhdr, f4, f1, ?_, ?_⟩, ?_, ?_, ?_⟩
  · rw [f2, hsz, hcol, dibColorMaskLen_eq]
    have hu : toUint32 (dibColors (s.take 40)) = (dibColors (s.take 40)).toNat :=
      toUint32_of_range _ hr.1 hr.2
    rw [hu, Nat.mul_comm]
  · rw [f3, hhei]
    exact halved_height_field _ ha.1 ha.2
  · rw [ht]; exact dibEntry_Offset _ _
  · rw [ht]; exact dibEntry_Size _ _
  · rw [ht]; exact dibEntry_data _ _

/-- C27 (witness): the info-header of a 2x2 image. -/
theorem decodeBMPHeader_patches_witness :
    ∃ t, decodeBMPHeader header2x2 Entry.zero = .ok t
      ∧ t.Offset = Entry.zero.Offset + 40 ∧ t.Size = Entry.zero.Size - 40 :=
  ⟨(dibEntry (header2x2.take 40) Entry.zero), header2x2_decodes,
    (decodeBMPHeader_patches header2x2 Entry.zero (dibEntry (header2x2.take 40) Entry.zero)
      header2x2_decodes).2.2.1,
    (decodeBMPHeader_patches header2x2 Entry.zero (dibEntry (header2x2.take 40) Entry.zero)
      header2x2_decodes).2.2.2.1⟩

/-- A top-down DIB info-header: width 1, on-disk height -2, 32 bits per pixel. -/
def topDownHeader : List Nat :=
  LittleEndian.PutUint32 40 ++ LittleEndian.PutUint32 1 ++ LittleEndian.PutUint32 4294967294
    ++ LittleEndian.PutUint16 1 ++ LittleEndian.PutUint16 32 ++ List.replicate 24 0

/-- C29 (evaluation at the failing input): for an info-header with on-disk height -2 the
entry is marked `topDown` (the mask rows are read top to bottom), while the header handed
to the DIB pixel codec declares the height +1, that is bottom-up rows. -/
theorem decodeBMPHeader_drops_row_order :
    signed32 (LittleEndian.Uint32 (topDownHeader.drop 8)) = -2
      ∧ (decodeBMPHeader topDownHeader Entry.zero).toOption.map
          (fun t => (t.topDown, t.Height,
            t.bmpHeader.map (fun h => signed32 (LittleEndian.Uint32 (h.drop 22)))))
        = some (true, 1, some 1) := by
  decide


/-! ## Seeking on a forward-only source -/

/-- A seek from the start on a forward-only source. -/
theorem Seek_forward_start (r : reader) (hf : r.canSeekBackward = false) (t : Int) :
    r.Seek t SeekStart =
      if t < (r.pos : Int) then (r, some (.UnsupportedError "overlapping offset"))
      else if t = (r.pos : Int) then (r, none)
      else
        match copyNDiscard (r.r.drop r.pos) (t - (r.pos : Int)).toNat with
        | .ok _ => ({ r with pos := r.pos + (t - (r.pos : Int)).toNat }, none)
        | .error e => ({ r with pos := max r.pos r.r.length }, some e) := by
  unfold reader.Seek
  simp [hf, SeekStart, SeekCurrent]

/-- A relative seek on a forward-only source is the seek from the start to the sum. -/
theorem Seek_forward_current (r : reader) (hf : r.canSeekBackward = false) (d : Int) :
    r.Seek d SeekCurrent = r.Seek ((r.pos : Int) + d) SeekStart := by
  unfold reader.Seek
  simp [hf, SeekStart, SeekCurrent]

/-- Any other reference point is refused on a forward-only source. -/
theorem Seek_forward_other (r : reader) (hf : r.canSeekBackward = false) (o : Int)
    (whence : Nat) (h1 : whence ≠ SeekStart) (h2 : whence ≠ SeekCurrent) :
    r.Seek o whence = (r, some (.UnsupportedError "overlapping offset")) := by
  unfold reader.Seek
  simp [hf, h1, h2]

/-- C21: on a forward-only source positioned at p, `Seek(o, Start)` and
`Seek(o - p, Current)` with o >= p read and discard exactly o - p bytes and return
position o when the source holds that many bytes; a seek to a target below p, or with a
reference point other than Start or Current, fails with UnsupportedError, consumes no
bytes and leaves the position at p. -/
theorem forward_only_Seek (r : reader) (o : Int) (whence : Nat)
    (hf : r.canSeekBackward = false) (hp : r.pos ≤ r.r.length) :
    ((r.pos : Int) ≤ o → o ≤ (r.r.length : Int) →
        r.Seek o SeekStart = ({ r with pos := r.pos + (o - (r.pos : Int)).toNat }, none)
        ∧ r.Seek (o - (r.pos : Int)) SeekCurrent
            = ({ r with pos := r.pos + (o - (r.pos : Int)).toNat }, none)
        ∧ ((r.pos + (o - (r.pos : Int)).toNat : Nat) : Int) = o)
    ∧ (o < (r.pos : Int) →
        r.Seek o SeekStart = (r, some (.UnsupportedError "overlapping offset"))
        ∧ r.Seek (o - (r.pos : Int)) SeekCurrent
            = (r, some (.UnsupportedError "overlapping offset")))
    ∧ (whence ≠ SeekStart → whence ≠ SeekCurrent →
        r.Seek o whence = (r, some (.UnsupportedError "overlapping offset"))) := by
  have hcur : (r.pos : Int) + (o - (r.pos : Int)) = o := by omega
  rw [Seek_forward_current r hf, hcur]
  refine ⟨fun h1 h2 => ?_, fun h1 => ?_, fun h1 h2 => Seek_forward_other r hf o whence h1 h2⟩
  · have hstart : r.Seek o SeekStart
        = ({ r with pos := r.pos + (o - (r.pos : Int)).toNat }, none) := by
      rw [Seek_forward_start r hf, if_neg (by omega)]
      by_cases heq : o = (r.pos : Int)
      · rw [if_pos heq, heq]
        simp
      · rw [if_neg heq]
        have hn : (o - (r.pos : Int)).toNat ≤ (r.r.drop r.pos).length := by
          rw [List.length_drop]
          omega
        unfold copyNDiscard
        rw [if_pos hn]
    exact ⟨hstart, hstart, by omega⟩
  · have hstart : r.Seek o SeekStart = (r, some (.UnsupportedError "overlapping offset")) := by
      rw [Seek_forward_start r hf, if_pos h1]
    exact ⟨hstart, hstart⟩

/-- C21 (witness): a forward-only source of ten bytes positioned at 4. -/
theorem forward_only_Seek_witness :
    reader.Seek { r := List.replicate 10 0, pos := 4, canSeekBackward := false } 7 SeekStart
        = ({ r := List.replicate 10 0, pos := 4 + ((7 : Int) - ((4 : Nat) : Int)).toNat,
             canSeekBackward := false }, none)
    ∧ reader.Seek { r := List.replicate 10 0, pos := 4, canSeekBackward := false } 2 SeekStart
        = ({ r := List.replicate 10 0, pos := 4, canSeekBackward := false },
            some (.UnsupportedError "overlapping offset"))
    ∧ reader.Seek { r := List.replicate 10 0, pos := 4, canSeekBackward := false } 7 SeekEnd
        = ({ r := List.replicate 10 0, pos := 4, canSeekBackward := false },
            some (.UnsupportedError "overlapping offset")) :=
  ⟨((forward_only_Seek { r := List.replicate 10 0, pos := 4, canSeekBackward := false } 7 0
      rfl (by decide)).1 (by decide) (by decide)).1,
    ((forward_only_Seek { r := List.replicate 10 0, pos := 4, canSeekBackward := false } 2 0
      rfl (by decide)).2.1 (by decide)).1,
    (forward_only_Seek { r := List.replicate 10 0, pos := 4, canSeekBackward := false } 7 SeekEnd
      rfl (by decide)).2.2 (by decide) (by decide)⟩

/-! ## The reserved bytes -/

/-- The icon file `bestInput` with its second reserved byte set to 9. -/
def bestInputReserved : List Nat := [0, 9] ++ bestInput.drop 2

/-- C22 (counterexample): two inputs that differ only in byte 1; the icon decoder accepts
the first and rejects the second as "not an ICO file", although its kind tag and count
are valid. -/
theorem DecodeDir_depends_on_reserved_bytes :
    bestInputReserved.drop 2 = bestInput.drop 2
      ∧ bestInputReserved.length = bestInput.length
      ∧ (DecodeDir (NewDecoder bestInput true true)).toOption.isSome = true
      ∧ DecodeDir (NewDecoder bestInputReserved true true)
          = .error (.FormatError "not an ICO file") := by
  decide

/-- C22 (amended): the two reserved bytes are checked together with the kind tag: an
input of at least 6 bytes whose bytes 0-1 are not both zero is rejected with
"not an ICO file" / "not a CUR file", whatever its kind tag and count. -/
theorem DecodeDir_rejects_reserved_bytes (input : List Nat) (seekable icon : Bool)
    (h6 : 6 ≤ input.length) (hr : input.getD 0 0 ≠ 0 ∨ input.getD 1 0 ≠ 0) :
    DecodeDir (NewDecoder input seekable icon) = .error (.FormatError (notKindMsg icon)) := by
  apply DecodeDir_bad_magic input seekable icon h6
  intro hm
  match input, h6 with
  | a :: b :: c :: d :: rest, _ =>
    cases icon <;> simp [magic, icoPrefix, curPrefix] at hm hr <;> omega

/-- C22 (witness): the six bytes `01 00 02 00 01 00` offered to the cursor decoder. -/
theorem DecodeDir_rejects_reserved_bytes_witness :
    DecodeDir (NewDecoder [1, 0, 2, 0, 1, 0] false false)
      = .error (.FormatError (notKindMsg false)) :=
  DecodeDir_rejects_reserved_bytes [1, 0, 2, 0, 1, 0] false false (by decide) (by decide)

/-! ## An empty image list -/

/-- C30: `EncodeAll` with an empty image list returns no error and writes exactly 6 bytes,
the kind magic followed by a zero count; `DecodeAll`, `Decode` and `DecodeConfig` fail on
these 6 bytes with the FormatError "no icons" ("no cursors" for `cur`). -/
theorem EncodeAll_empty_is_not_decodable (cod : Codecs) (w : List Nat) (seekable : Bool) :
    Ico.EncodeAll cod w [] = (w ++ [0, 0, 1, 0, 0, 0], none)
    ∧ Cur.EncodeAll cod w [] = (w ++ [0, 0, 2, 0, 0, 0], none)
    ∧ Ico.DecodeAll cod [0, 0, 1, 0, 0, 0] seekable = .error (.FormatError "no icons")
    ∧ Ico.Decode cod [0, 0, 1, 0, 0, 0] seekable = .error (.FormatError "no icons")
    ∧ Ico.DecodeConfig cod [0, 0, 1, 0, 0, 0] seekable = .error (.FormatError "no icons")
    ∧ Cur.DecodeAll cod [0, 0, 2, 0, 0, 0] seekable = .error (.FormatError "no cursors")
    ∧ Cur.Decode cod [0, 0, 2, 0, 0, 0] seekable = .error (.FormatError "no cursors")
    ∧ Cur.DecodeConfig cod [0, 0, 2, 0, 0, 0] seekable = .error (.FormatError "no cursors")
    ∧ (Ico.Error.FormatError "no icons").Error = "ico: invalid format: no icons"
    ∧ (Cur.Error.FormatError "no cursors").Error = "cur: invalid format: no cursors" := by
  have hi : DecodeDir (NewDecoder [0, 0, 1, 0, 0, 0] seekable true)
      = .error (.FormatError "no icons") :=
    DecodeDir_zero_count [0, 0, 1, 0, 0, 0] seekable true (by decide) (by decide) (by decide)
  have hc : DecodeDir (NewDecoder [0, 0, 2, 0, 0, 0] seekable false)
      = .error (.FormatError "no cursors") :=
    DecodeDir_zero_count [0, 0, 2, 0, 0, 0] seekable false (by decide) (by decide) (by decide)
  have hb1 : encodeBytes true [] = [0, 0, 1, 0, 0, 0] := by decide
  have hb2 : encodeBytes false [] = [0, 0, 2, 0, 0, 0] := by decide
  refine ⟨?_, ?_, ?_, ?_, ?_, ?_, ?_, ?_, by decide, by decide⟩
  · simp only [Ico.EncodeAll, Ico.addAll, NewEncoder, Encoder.Encode, hb1]
  · simp only [Cur.EncodeAll, Cur.addAll, NewEncoder, Encoder.Encode, hb2]
  · simp [Ico.DecodeAll, hi, Ico.convertErr, Err.Error]
  · simp [Ico.Decode, hi, Ico.convertErr, Err.Error]
  · simp [Ico.DecodeConfig, hi, Ico.convertErr, Err.Error]
  · simp [Cur.DecodeAll, hc, Cur.convertErr, Err.Error]
  · simp [Cur.Decode, hc, Cur.convertErr, Err.Error]
  · simp [Cur.DecodeConfig, hc, Cur.convertErr, Err.Error]

/-! ## What `Best` guarantees -/

/-- The comparison of the loop of `Best`: `e` replaces the current best `b`. -/
def beats (e b : Entry) : Prop :=
  wrapInt64 (e.Width * e.Height) > wrapInt64 (b.Width * b.Height) ∨ e.BPP > b.BPP

instance (e b : Entry) : Decidable (beats e b) := by
  unfold beats
  exact inferInstance

theorem bestStep_some (b e : Entry) :
    bestStep (some b) e = if beats e b then some e else some b := by
  unfold bestStep beats
  rfl

/-- The loop of `Best` started with a current best `b`: the result is `b`, which nothing in
the list replaces, or an element of the list that nothing after it replaces. -/
theorem foldl_bestStep (es : List Entry) : ∀ b : Entry,
    ∃ r, es.foldl bestStep (some b) = some r ∧
      ((r = b ∧ ∀ j (hj : j < es.length), ¬ beats es[j] r) ∨
        ∃ i, ∃ hi : i < es.length, r = es[i] ∧
          ∀ j (hj : j < es.length), i < j → ¬ beats es[j] r) := by
  induction es with
  | nil => intro b; exact ⟨b, rfl, Or.inl ⟨rfl, fun j hj => absurd hj (by simp)⟩⟩
  | cons x xs ih =>
    intro b
    rw [List.foldl_cons, bestStep_some]
    by_cases hx : beats x b
    · rw [if_pos hx]
      obtain ⟨r, hr, h⟩ := ih x
      refine ⟨r, hr, Or.inr ?_⟩
      rcases h with ⟨hrx, hno⟩ | ⟨i, hi, hri, hno⟩
      · refine ⟨0, by simp, by simpa using hrx, ?_⟩
        intro j hj hlt
        obtain ⟨k, rfl⟩ : ∃ k, j = k + 1 := ⟨j - 1, by omega⟩
        simp only [List.getElem_cons_succ]
        exact hno k (by simpa using hj)
      · refine ⟨i + 1, by simpa using hi, by simpa using hri, ?_⟩
        intro j hj hlt
        obtain ⟨k, rfl⟩ : ∃ k, j = k + 1 := ⟨j - 1, by omega⟩
        simp only [List.getElem_cons_succ]
        exact hno k (by simpa using hj) (by omega)
    · rw [if_neg hx]
      obtain ⟨r, hr, h⟩ := ih b
      refine ⟨r, hr, ?_⟩
      rcases h with ⟨hrb, hno⟩ | ⟨i, hi, hri, hno⟩
      · refine Or.inl ⟨hrb, ?_⟩
        intro j hj
        cases j with
        | zero => simpa [hrb] using hx
        | succ k =>
          simp only [List.getElem_cons_succ]
          exact hno k (by simpa using hj)
      · refine Or.inr ⟨i + 1, by simpa using hi, by simpa using hri, ?_⟩
        intro j hj hlt
        obtain ⟨k, rfl⟩ : ∃ k, j = k + 1 := ⟨j - 1, by omega⟩
        simp only [List.getElem_cons_succ]
        exact hno k (by simpa using hj) (by omega)

/-- The loop of `Best` keeps the current best when nothing in the list replaces it. -/
theorem foldl_bestStep_keeps (es : List Entry) (b : Entry)
    (h : ∀ x ∈ es, ¬ beats x b) : es.foldl bestStep (some b) = some b := by
  induction es with
  | nil => rfl
  | cons x xs ih =>
    rw [List.foldl_cons, bestStep_some, if_neg (h x (by simp))]
    exact ih (fun y hy => h y (by simp [hy]))

theorem wrapInt64_of_fits (x : Int)
    (h : -9223372036854775808 ≤ x ∧ x < 9223372036854775808) : wrapInt64 x = x := by
  unfold wrapInt64
  omega

/-- A PNG payload of 33 bytes: the signature and an IHDR chunk with the given width and
height (as four big-endian bytes each), bit depth 8 and colour type 6. -/
def pngStub (width height : List Nat) : List Nat :=
  pngPrefix ++ [0, 0, 0, 13, 0x49, 0x48, 0x44, 0x52] ++ width ++ height
    ++ [8, 6, 0, 0, 0] ++ [0, 0, 0, 0]

/-- An icon file with a 1x1 PNG entry followed by a PNG entry whose IHDR declares
4294967295 x 4294967295. -/
def hugePngInput : List Nat :=
  [0, 0, 1, 0, 2, 0]
    ++ [1, 1, 0, 0, 1, 0, 32, 0, 33, 0, 0, 0, 38, 0, 0, 0]
    ++ [0, 0, 0, 0, 1, 0, 32, 0, 33, 0, 0, 0, 71, 0, 0, 0]
    ++ pngStub [0, 0, 0, 1] [0, 0, 0, 1] ++ pngStub [255, 255, 255, 255] [255, 255, 255, 255]

/-- C32 (counterexample): the directory of `hugePngInput` decodes to a 1x1 entry followed
by a 4294967295 x 4294967295 entry of the same bit depth; `Best` returns the first one,
although the second one, which comes after it, has a strictly larger width*height: the
product does not fit in 64 bits and the wrapped value the code compares is negative. -/
theorem Best_compares_wrapped_areas :
    ∃ d, DecodeDir (NewDecoder hugePngInput true true) = .ok d
      ∧ d.entries.map Entry.shape = [(1, 1, 32), (4294967295, 4294967295, 32)]
      ∧ ((Best d).1.map Entry.shape, (Best d).2) = (some (1, 1, 32), none)
      ∧ (1 : Int) * 1 < 4294967295 * 4294967295
      ∧ wrapInt64 (4294967295 * 4294967295) = -8589934591 := by
  refine ⟨(DecodeDir (NewDecoder hugePngInput true true)).toOption.getD
    (NewDecoder [] true true), ?_, ?_, ?_, ?_, ?_⟩ <;> decide

/-- An entry with the given width, height and bit depth. -/
def shapedEntry (w h bpp : Int) : Entry :=
  { Entry.zero with Width := w, Height := h, BPP := bpp }

/-- C32 (amended): for every non-empty entry list `Best` returns one of the entries of the
list and no error, and no entry that comes after the returned one has a strictly larger
width*height, computed as the code does in wrapping 64-bit arithmetic, or a strictly
larger BPP; whenever no entry has a larger wrapped area or a larger BPP than the first
one (in particular when all areas and all BPP are equal) the first entry is returned. The
wrapped product is the true product whenever the true product fits in 64 bits. -/
theorem Best_spec (d : Decoder) (hne : d.entries ≠ []) :
    (Best d).2 = none
    ∧ (∃ i, ∃ hi : i < d.entries.length, (Best d).1 = some d.entries[i]
        ∧ ∀ j (hj : j < d.entries.length), i < j →
            ¬ (wrapInt64 (d.entries[j].Width * d.entries[j].Height)
                  > wrapInt64 (d.entries[i].Width * d.entries[i].Height))
            ∧ ¬ (d.entries[j].BPP > d.entries[i].BPP))
    ∧ (∀ e0, d.entries.head? = some e0 →
        (∀ x ∈ d.entries,
          ¬ (wrapInt64 (x.Width * x.Height) > wrapInt64 (e0.Width * e0.Height))
            ∧ ¬ (x.BPP > e0.BPP)) →
        (Best d).1 = some e0)
    ∧ ((∀ x ∈ d.entries, ∀ y ∈ d.entries,
          wrapInt64 (x.Width * x.Height) = wrapInt64 (y.Width * y.Height) ∧ x.BPP = y.BPP) →
        (Best d).1 = d.entries.head?)
    ∧ (∀ x ∈ d.entries, -9223372036854775808 ≤ x.Width * x.Height →
          x.Width * x.Height < 9223372036854775808 →
          wrapInt64 (x.Width * x.Height) = x.Width * x.Height) := by
  have hfirst : ∀ e0, d.entries.head? = some e0 →
      (∀ x ∈ d.entries,
        ¬ (wrapInt64 (x.Width * x.Height) > wrapInt64 (e0.Width * e0.Height))
          ∧ ¬ (x.BPP > e0.BPP)) →
      (Best d).1 = some e0 := by
    intro e0 hhead hall
    unfold Best
    cases hes : d.entries with
    | nil => exact absurd hes hne
    | cons e1 es =>
      rw [hes] at hall hhead
      simp only [List.head?_cons, Option.some.injEq] at hhead
      subst hhead
      simp only [List.foldl_cons]
      have h0 : bestStep none e1 = some e1 := rfl
      rw [h0]
      apply foldl_bestStep_keeps
      intro x hx
      have := hall x (by simp [hx])
      unfold beats
      exact not_or.mpr this
  refine ⟨rfl, ?_, hfirst, ?_, fun x _ h1 h2 => wrapInt64_of_fits _ ⟨h1, h2⟩⟩
  · unfold Best
    cases hes : d.entries with
    | nil => exact absurd hes hne
    | cons e0 es =>
      simp only [List.foldl_cons]
      have h0 : bestStep none e0 = some e0 := rfl
      rw [h0]
      obtain ⟨r, hr, h⟩ := foldl_bestStep es e0
      rw [hr]
      rcases h with ⟨hrb, hno⟩ | ⟨i, hi, hri, hno⟩
      · refine ⟨0, by simp, by simp [hrb], ?_⟩
        intro j hj hlt
        obtain ⟨k, rfl⟩ : ∃ k, j = k + 1 := ⟨j - 1, by omega⟩
        have := hno k (by simpa using hj)
        simp only [List.getElem_cons_succ, List.getElem_cons_zero]
        rw [hrb] at this
        unfold beats at this
        exact not_or.mp this
      · refine ⟨i + 1, by simpa using hi, by simp [hri], ?_⟩
        intro j hj hlt
        obtain ⟨k, rfl⟩ : ∃ k, j = k + 1 := ⟨j - 1, by omega⟩
        have := hno k (by simpa using hj) (by omega)
        simp only [List.getElem_cons_succ]
        rw [hri] at this
        unfold beats at this
        exact not_or.mp this
  · intro hall
    cases hes : d.entries with
    | nil => exact absurd hes hne
    | cons e0 es =>
      rw [List.head?_cons]
      apply hfirst e0 (by rw [hes]; rfl)
      intro x hx
      have := hall x hx e0 (by rw [hes]; simp)
      omega

/-- C32 (witness): a 256x256 entry of 32 bits per pixel followed by a 16x16 entry of
8 bits per pixel: nothing beats the first entry, which is returned. -/
theorem Best_spec_witness :
    (Best { r := { r := [], pos := 0, canSeekBackward := true }, icon := true,
            entries := [shapedEntry 256 256 32, shapedEntry 16 16 8] }).1
      = some (shapedEntry 256 256 32) :=
  (Best_spec { r := { r := [], pos := 0, canSeekBackward := true }, icon := true,
               entries := [shapedEntry 256 256 32, shapedEntry 16 16 8] } (by decide)).2.2.1
    (shapedEntry 256 256 32) rfl (by decide)


/-! ## Chunk scanning in `decodePNGHeader` -/

/-- One round of the loop of `seekChunk`. -/
theorem seekChunkAux_succ (typ : List Nat) (fuel : Nat) (s : List Nat) :
    seekChunkAux typ (fuel + 1) s =
      if 8 ≤ s.length then
        if (s.take 8).drop 4 = typ then some (.ok ((BigEndian.Uint32 (s.take 8) : Int), s.drop 8))
        else if BigEndian.Uint32 (s.take 8) + 4 ≤ (s.drop 8).length then
          seekChunkAux typ fuel ((s.drop 8).drop (BigEndian.Uint32 (s.take 8) + 4))
        else some (.ok (-1, []))
      else some (.error .ErrUnexpectedEOF) := by
  rw [seekChunkAux]
  by_cases h8 : 8 ≤ s.length
  · rw [readFull_of_le s 8 h8, if_pos h8]
    simp only
    by_cases ht : (List.take 8 s).drop 4 = typ
    · rw [if_pos ht, if_pos ht]
    · rw [if_neg ht, if_neg ht]
      unfold copyNDiscard
      by_cases hn : BigEndian.Uint32 (List.take 8 s) + 4 ≤ (List.drop 8 s).length
      · rw [if_pos hn, if_pos hn]
      · rw [if_neg hn, if_neg hn]
        simp
  · obtain ⟨e1, h1, h2⟩ := readFull_short s 8 (by omega)
    rw [h1, if_neg h8]
    simp only [h2]

/-- The result of the loop does not depend on the fuel once it exceeds the stream length. -/
theorem seekChunkAux_fuel (typ : List Nat) :
    ∀ (f1 f2 : Nat) (s : List Nat), s.length < f1 → s.length < f2 →
      seekChunkAux typ f1 s = seekChunkAux typ f2 s := by
  intro f1
  induction f1 with
  | zero => intro f2 s h; omega
  | succ f1 ih =>
    intro f2 s h1 h2
    obtain ⟨g2, rfl⟩ : ∃ g, f2 = g + 1 := ⟨f2 - 1, by omega⟩
    rw [seekChunkAux_succ, seekChunkAux_succ]
    by_cases h8 : 8 ≤ s.length
    · rw [if_pos h8, if_pos h8]
      by_cases ht : (List.take 8 s).drop 4 = typ
      · rw [if_pos ht, if_pos ht]
      · rw [if_neg ht, if_neg ht]
        by_cases hn : BigEndian.Uint32 (List.take 8 s) + 4 ≤ (List.drop 8 s).length
        · rw [if_pos hn, if_pos hn]
          have hl : ((s.drop 8).drop (BigEndian.Uint32 (s.take 8) + 4)).length + 12 ≤ s.length := by
            simp only [List.length_drop] at hn ⊢
            omega
          exact ih g2 _ (by omega) (by omega)
        · rw [if_neg hn, if_neg hn]
    · rw [if_neg h8, if_neg h8]

/-- One round of `seekChunk`. -/
theorem seekChunk_step (typ : List Nat) (s : List Nat) :
    seekChunk typ s =
      if 8 ≤ s.length then
        if (s.take 8).drop 4 = typ then .ok ((BigEndian.Uint32 (s.take 8) : Int), s.drop 8)
        else if BigEndian.Uint32 (s.take 8) + 4 ≤ (s.drop 8).length then
          seekChunk typ ((s.drop 8).drop (BigEndian.Uint32 (s.take 8) + 4))
        else .ok (-1, [])
      else .error .ErrUnexpectedEOF := by
  unfold seekChunk
  rw [seekChunkAux_succ]
  by_cases h8 : 8 ≤ s.length
  · rw [if_pos h8, if_pos h8]
    by_cases ht : (List.take 8 s).drop 4 = typ
    · rw [if_pos ht, if_pos ht]
      rfl
    · rw [if_neg ht, if_neg ht]
      by_cases hn : BigEndian.Uint32 (List.take 8 s) + 4 ≤ (List.drop 8 s).length
      · rw [if_pos hn, if_pos hn]
        have hl : ((s.drop 8).drop (BigEndian.Uint32 (s.take 8) + 4)).length + 12 ≤ s.length := by
          simp only [List.length_drop] at hn ⊢
          omega
        rw [seekChunkAux_fuel typ s.length
          (((s.drop 8).drop (BigEndian.Uint32 (s.take 8) + 4)).length + 1) _ (by omega) (by omega)]
      · rw [if_neg hn, if_neg hn]
        rfl
  · rw [if_neg h8, if_neg h8]
    rfl

/-- A complete chunk of a type other than `typ`: an 8-byte header, a body of the declared
length and 4 more bytes. -/
def IsOtherChunk (typ : List Nat) (c : List Nat) : Prop :=
  (c.take 8).drop 4 ≠ typ ∧ c.length = 8 + BigEndian.Uint32 (c.take 8) + 4

instance (typ c : List Nat) : Decidable (IsOtherChunk typ c) := by
  unfold IsOtherChunk
  exact inferInstance

/-- The function `seekChunk` skips a complete chunk of another type. -/
theorem seekChunk_skip (typ : List Nat) (c s : List Nat) (hc : IsOtherChunk typ c) :
    seekChunk typ (c ++ s) = seekChunk typ s := by
  obtain ⟨ht, hl⟩ := hc
  have h8 : 8 ≤ c.length := by omega
  have htake : (c ++ s).take 8 = c.take 8 := by
    rw [List.take_append_of_le_length h8]
  have hdrop : ((c ++ s).drop 8).drop (BigEndian.Uint32 (c.take 8) + 4) = s := by
    rw [List.drop_drop]
    have : 8 + (BigEndian.Uint32 (c.take 8) + 4) = c.length := by omega
    rw [this, List.drop_left]
  rw [seekChunk_step, if_pos (by simp; omega), htake, if_neg ht, if_pos, hdrop]
  simp only [List.length_drop, List.length_append]
  omega

/-- The function `seekChunk` skips any sequence of complete chunks of other types. -/
theorem seekChunk_skip_all (typ : List Nat) (cs : List (List Nat)) (s : List Nat)
    (hcs : ∀ c ∈ cs, IsOtherChunk typ c) :
    seekChunk typ (cs.flatten ++ s) = seekChunk typ s := by
  induction cs with
  | nil => rfl
  | cons c cs ih =>
    rw [List.flatten_cons, List.append_assoc, seekChunk_skip typ c _ (hcs c (by simp))]
    exact ih (fun x hx => hcs x (by simp [hx]))

/-- The function `seekChunk` finds a chunk header of the wanted type. -/
theorem seekChunk_hit (typ : List Nat) (a b c d : Nat) (s : List Nat) (ht : typ.length = 4) :
    seekChunk typ ([a, b, c, d] ++ typ ++ s)
      = .ok ((BigEndian.Uint32 [a, b, c, d] : Int), s) := by
  obtain ⟨t0, t1, t2, t3, rfl⟩ : ∃ t0 t1 t2 t3, typ = [t0, t1, t2, t3] := by
    match typ, ht with
    | [t0, t1, t2, t3], _ => exact ⟨t0, t1, t2, t3, rfl⟩
  rw [seekChunk_step, if_pos (by simp), if_pos (by simp)]
  simp [BigEndian.Uint32]


/-- The chunk types `decodePNGHeader` looks for. -/
def typeIHDR : List Nat := [0x49, 0x48, 0x44, 0x52]
def typePLTE : List Nat := [0x50, 0x4C, 0x54, 0x45]

/-- The entry `decodePNGHeader` returns: width, height, bit depth and, when a palette chunk
was found, the colour count. -/
def pngEntry (e : Entry) (width height bpp : Int) (colors : Option Int) : Entry :=
  { e with Width := width, Height := height, BPP := bpp,
           Colors := match colors with
             | some c => c
             | none => e.Colors }

/-- What `decodePNGHeader` does once the 17 bytes `body` after the IHDR chunk header are
read: the depth switch and the palette scan on the rest of the stream. -/
def afterIHDR (body rest : List Nat) (e : Entry) : Except Err Entry :=
  let w : Int := (BigEndian.Uint32 body : Int)
  let h : Int := (BigEndian.Uint32 (body.drop 4) : Int)
  let r := pngDepth (body.getD 8 0) (body.getD 9 0) e.BPP
  if r.1 = 0 then .error (.UnsupportedError "PNG image")
  else if r.2 = true then
    match seekChunk typePLTE rest with
    | .error err => .error err
    | .ok (len, _) => if len ≠ -1 then .ok (pngEntry e w h r.1 (some (len / 3)))
                      else .ok (pngEntry e w h r.1 none)
  else .ok (pngEntry e w h r.1 none)

/-- The function `decodePNGHeader` in terms of `seekChunk` for payloads of at least 8
bytes. -/
theorem decodePNGHeader_eq (s : List Nat) (e : Entry) (h8 : 8 ≤ s.length) :
    decodePNGHeader s e =
      match seekChunk typeIHDR (s.drop 8) with
      | .error err => .error err
      | .ok (len, s2) =>
        if len ≠ 13 then .error (.UnsupportedError "PNG image")
        else if 17 ≤ s2.length then afterIHDR (s2.take 17) (s2.drop 17) e
        else .error .ErrUnexpectedEOF := by
  unfold decodePNGHeader
  have hc0 : copyNDiscard s pngPrefix.length = .ok (s.drop 8) := by
    simp [copyNDiscard, pngPrefix, h8]
  rw [hc0]
  simp only [typeIHDR]
  cases hc : seekChunk [0x49, 0x48, 0x44, 0x52] (s.drop 8) with
  | error e1 => rfl
  | ok v =>
    obtain ⟨len, s2⟩ := v
    simp only [ihdrLength, Nat.cast_ofNat]
    by_cases hl : len ≠ 13
    · rw [if_pos hl, if_pos hl]
    · rw [if_neg hl, if_neg hl]
      by_cases h17 : 17 ≤ s2.length
      · rw [readFull_of_le s2 _ h17, if_pos h17]
        simp only [afterIHDR, typePLTE]
        rw [List.getD_eq_getElem?_getD, List.getD_eq_getElem?_getD]
        cases hd : pngDepth ((List.take 17 s2)[8]?.getD 0) ((List.take 17 s2)[9]?.getD 0) e.BPP with
        | mk bpp pal =>
          simp only
          by_cases hb : bpp = 0
          · rw [if_pos hb, if_pos hb]
          · rw [if_neg hb, if_neg hb]
            cases pal with
            | false => simp [pngEntry]
            | true =>
              simp only [if_true]
              cases hp : seekChunk [0x50, 0x4C, 0x54, 0x45] (List.drop 17 s2) with
              | error e2 => rfl
              | ok v2 =>
                obtain ⟨len2, s4⟩ := v2
                simp only
                by_cases hl2 : len2 ≠ -1
                · rw [if_pos hl2, if_pos hl2]
                  rfl
                · rw [if_neg hl2, if_neg hl2]
                  rfl
      · obtain ⟨e1, h1, h2⟩ := readFull_short s2 17 (by omega)
        rw [h1, if_neg h17]
        simp only [h2]

/-- The number of channels of a PNG colour type: 1 for grayscale (0) and paletted (3),
3 for truecolor (2), 2 for grayscale+alpha (4), 4 for truecolor+alpha (6). -/
def channels (c : Nat) : Nat :=
  if c = 2 then 3 else if c = 4 then 2 else if c = 6 then 4 else 1

/-- The (bit depth, colour type) pairs listed as supported: paletted with depth 1, 2, 4, 8;
grayscale with depth 1, 2, 4, 8, 16; truecolor, grayscale+alpha and truecolor+alpha with
depth 8, 16. -/
def supportedDepth (d c : Nat) : Bool :=
  (c = 3 ∧ (d = 1 ∨ d = 2 ∨ d = 4 ∨ d = 8))
    ∨ (c = 0 ∧ (d = 1 ∨ d = 2 ∨ d = 4 ∨ d = 8 ∨ d = 16))
    ∨ ((c = 2 ∨ c = 4 ∨ c = 6) ∧ (d = 8 ∨ d = 16))

theorem pngDepth_supported (d c : Nat) (bpp : Int) (h : supportedDepth d c = true) :
    pngDepth d c bpp = (((d * channels c : Nat) : Int), decide (c = 3)) := by
  simp only [supportedDepth, Bool.decide_or, Bool.decide_and, Bool.or_eq_true, Bool.and_eq_true,
    decide_eq_true_eq] at h
  rcases h with ⟨rfl, h | h | h | h⟩ | ⟨rfl, h | h | h | h | h⟩
    | ⟨rfl | rfl | rfl, h | h⟩ <;> subst h <;> rfl

theorem pngDepth_unsupported (d c : Nat) (bpp : Int) (h : supportedDepth d c = false) :
    pngDepth d c bpp = (bpp, false) := by
  simp only [supportedDepth, Bool.decide_or, Bool.decide_and, Bool.or_eq_false_iff,
    Bool.and_eq_false_iff, decide_eq_false_iff_not] at h
  unfold pngDepth ctPaletted ctGrayscale ctTrueColor ctGrayscaleAlpha ctTrueColorAlpha
  split_ifs <;> first | rfl | (exfalso; omega)

/-- The function `decodePNGHeader` on a payload whose IHDR chunk follows complete chunks of
other types. -/
theorem decodePNGHeader_at_IHDR (s : List Nat) (pre : List (List Nat)) (body rest : List Nat)
    (e : Entry) (h8 : 8 ≤ s.length)
    (hs : s.drop 8 = pre.flatten ++ ([0, 0, 0, 13] ++ typeIHDR ++ (body ++ rest)))
    (hpre : ∀ c ∈ pre, IsOtherChunk typeIHDR c) (hb : body.length = 17) :
    decodePNGHeader s e = afterIHDR body rest e := by
  rw [decodePNGHeader_eq s e h8, hs, seekChunk_skip_all typeIHDR pre _ hpre,
    seekChunk_hit typeIHDR 0 0 0 13 _ rfl]
  have h13 : ((BigEndian.Uint32 [0, 0, 0, 13] : Nat) : Int) = 13 := by decide
  simp only [h13]
  rw [if_neg (by simp), if_pos (by simp [hb]), List.take_left' hb, List.drop_left' hb]


/-! ## The depth table of `decodePNGHeader` -/

/-- C13: for a PNG payload whose 13-byte IHDR (read with its 4 check bytes as `body`,
after any complete chunks of other types) declares bit depth d and colour type c, and an
entry whose BPP is still 0 as `DecodeDir` creates it: for a listed non-paletted pair
`decodePNGHeader` succeeds with BPP = d * channels(c); for a listed paletted pair it goes on
to the palette scan and every success has BPP = d * channels(c); for every other pair it
fails with UnsupportedError. -/
theorem decodePNGHeader_depth_table (s : List Nat) (pre : List (List Nat))
    (body rest : List Nat) (e : Entry) (h8 : 8 ≤ s.length)
    (hs : s.drop 8 = pre.flatten ++ ([0, 0, 0, 13] ++ typeIHDR ++ (body ++ rest)))
    (hpre : ∀ c ∈ pre, IsOtherChunk typeIHDR c) (hb : body.length = 17) (he : e.BPP = 0) :
    (supportedDepth (body.getD 8 0) (body.getD 9 0) = true → body.getD 9 0 ≠ 3 →
        decodePNGHeader s e = .ok (pngEntry e (BigEndian.Uint32 body)
          (BigEndian.Uint32 (body.drop 4)) ((body.getD 8 0 * channels (body.getD 9 0) : Nat) : Int)
          none))
    ∧ (supportedDepth (body.getD 8 0) (body.getD 9 0) = true → body.getD 9 0 = 3 →
        decodePNGHeader s e =
          match seekChunk typePLTE rest with
          | .error err => .error err
          | .ok (len, _) => .ok (pngEntry e (BigEndian.Uint32 body)
              (BigEndian.Uint32 (body.drop 4))
              ((body.getD 8 0 * channels (body.getD 9 0) : Nat) : Int)
              (if len ≠ -1 then some (len / 3) else none)))
    ∧ (supportedDepth (body.getD 8 0) (body.getD 9 0) = false →
        decodePNGHeader s e = .error (.UnsupportedError "PNG image")) := by
  rw [decodePNGHeader_at_IHDR s pre body rest e h8 hs hpre hb]
  unfold afterIHDR
  have hpos : ∀ d c, supportedDepth d c = true → ((d * channels c : Nat) : Int) ≠ 0 := by
    intro d c h
    simp only [supportedDepth, Bool.decide_or, Bool.decide_and, Bool.or_eq_true,
      Bool.and_eq_true, decide_eq_true_eq] at h
    rcases h with ⟨rfl, h | h | h | h⟩ | ⟨rfl, h | h | h | h | h⟩
      | ⟨rfl | rfl | rfl, h | h⟩ <;> subst h <;> decide
  refine ⟨fun h hc => ?_, fun h hc => ?_, fun h => ?_⟩
  · simp only [pngDepth_supported _ _ _ h]
    rw [if_neg (hpos _ _ h), if_neg (by rw [decide_eq_true_eq]; exact hc)]
  · simp only [pngDepth_supported _ _ _ h]
    rw [if_neg (hpos _ _ h), if_pos (by rw [decide_eq_true_eq]; exact hc)]
    cases hp : seekChunk typePLTE rest with
    | error err => rfl
    | ok v =>
      obtain ⟨len, s4⟩ := v
      simp only
      by_cases hl : len ≠ -1
      · rw [if_pos hl, if_pos hl]
      · rw [if_neg hl, if_neg hl]
  · simp only [pngDepth_unsupported _ _ _ h]
    rw [if_pos he]

/-- A PNG payload: signature, a complete `tEXt` chunk of one byte, and an IHDR chunk that
declares 3 x 5 pixels with the given bit depth and colour type. -/
def pngWithIHDR (d c : Nat) : List Nat :=
  pngPrefix ++ [0, 0, 0, 1, 0x74, 0x45, 0x58, 0x74, 7, 0, 0, 0, 0]
    ++ [0, 0, 0, 13] ++ typeIHDR ++ [0, 0, 0, 3, 0, 0, 0, 5, d, c, 0, 0, 0, 0, 0, 0, 0]

/-- C13 (witness): 16-bit truecolor+alpha gives 64 bits per pixel, 16-bit paletted is
refused. -/
theorem decodePNGHeader_depth_table_witness :
    decodePNGHeader (pngWithIHDR 16 6) Entry.zero
        = .ok (pngEntry Entry.zero 3 5 64 none)
      ∧ decodePNGHeader (pngWithIHDR 16 3) Entry.zero = .error (.UnsupportedError "PNG image") :=
  ⟨(decodePNGHeader_depth_table (pngWithIHDR 16 6)
      [[0, 0, 0, 1, 0x74, 0x45, 0x58, 0x74, 7, 0, 0, 0, 0]]
      [0, 0, 0, 3, 0, 0, 0, 5, 16, 6, 0, 0, 0, 0, 0, 0, 0] [] Entry.zero
      (by decide) (by decide) (by decide) (by decide) (by decide)).1 (by decide) (by decide),
   (decodePNGHeader_depth_table (pngWithIHDR 16 3)
      [[0, 0, 0, 1, 0x74, 0x45, 0x58, 0x74, 7, 0, 0, 0, 0]]
      [0, 0, 0, 3, 0, 0, 0, 5, 16, 3, 0, 0, 0, 0, 0, 0, 0] [] Entry.zero
      (by decide) (by decide) (by decide) (by decide) (by decide)).2.2 (by decide)⟩

/-! ## A PNG payload that ends before its IHDR chunk -/

/-- A payload with the PNG signature and a `tEXt` chunk header that declares 5 body bytes,
of which only 2 are present. -/
def pngCutInBody : List Nat :=
  pngPrefix ++ [0, 0, 0, 5, 0x74, 0x45, 0x58, 0x74, 1, 2]

/-- C25 (counterexample): the payload `pngCutInBody` starts with the PNG signature and
ends inside the body of the chunk that is being skipped, before any IHDR chunk header;
`decodePNGHeader` fails with UnsupportedError, not with the unexpected-EOF error. -/
theorem decodePNGHeader_cut_in_body_is_unsupported :
    pngCutInBody.take 8 = pngPrefix
      ∧ decodePNGHeader pngCutInBody Entry.zero = .error (.UnsupportedError "PNG image")
      ∧ decodeHeader pngCutInBody Entry.zero = .error (.UnsupportedError "PNG image") := by
  decide

/-- C25 (amended): for a payload of at least 8 bytes (the signature) followed by complete
chunks of types other than IHDR and a remainder `tail`: when `tail` is shorter than a chunk
header (the stream ends at a chunk boundary or inside a chunk header) `decodePNGHeader`
fails with the unexpected-EOF error; when `tail` is a chunk header of another type whose
body and check bytes are incomplete (the stream ends inside a chunk that is being skipped)
it fails with UnsupportedError "PNG image". -/
theorem decodePNGHeader_ends_before_IHDR (s : List Nat) (pre : List (List Nat))
    (tail : List Nat) (e : Entry) (h8 : 8 ≤ s.length)
    (hs : s.drop 8 = pre.flatten ++ tail) (hpre : ∀ c ∈ pre, IsOtherChunk typeIHDR c) :
    (tail.length < 8 → decodePNGHeader s e = .error .ErrUnexpectedEOF)
    ∧ (8 ≤ tail.length → (tail.take 8).drop 4 ≠ typeIHDR →
        tail.length < 8 + BigEndian.Uint32 (tail.take 8) + 4 →
        decodePNGHeader s e = .error (.UnsupportedError "PNG image")) := by
  rw [decodePNGHeader_eq s e h8, hs, seekChunk_skip_all typeIHDR pre _ hpre, seekChunk_step]
  refine ⟨fun h => ?_, fun h1 h2 h3 => ?_⟩
  · rw [if_neg (by omega)]
  · rw [if_pos h1, if_neg h2, if_neg (by simp only [List.length_drop]; omega)]
    simp only
    rw [if_pos (by decide)]

/-- C25 (witness): a payload that ends right after the signature, and `pngCutInBody`. -/
theorem decodePNGHeader_ends_before_IHDR_witness :
    decodePNGHeader pngPrefix Entry.zero = .error .ErrUnexpectedEOF
      ∧ decodePNGHeader pngCutInBody Entry.zero = .error (.UnsupportedError "PNG image") :=
  ⟨(decodePNGHeader_ends_before_IHDR pngPrefix [] [] Entry.zero (by decide) (by decide)
      (by decide)).1 (by decide),
   (decodePNGHeader_ends_before_IHDR pngCutInBody [] [0, 0, 0, 5, 0x74, 0x45, 0x58, 0x74, 1, 2]
      Entry.zero (by decide) (by decide) (by decide)).2 (by decide) (by decide) (by decide)⟩

/-! ## The palette scan -/

/-- A paletted PNG payload without palette: signature, an IHDR chunk declaring 3 x 5
pixels of depth 8 and colour type 3, and an IEND chunk; then the data ends. -/
def pngNoPalette : List Nat :=
  pngPrefix ++ [0, 0, 0, 13] ++ typeIHDR ++ [0, 0, 0, 3, 0, 0, 0, 5, 8, 3, 0, 0, 0, 0, 0, 0, 0]
    ++ [0, 0, 0, 0, 0x49, 0x45, 0x4E, 0x44, 0, 0, 0, 0]

/-- The same IHDR chunk followed by a PLTE chunk header that declares 6 bytes. -/
def pngWithPalette : List Nat :=
  pngPrefix ++ [0, 0, 0, 13] ++ typeIHDR ++ [0, 0, 0, 3, 0, 0, 0, 5, 8, 3, 0, 0, 0, 0, 0, 0, 0]
    ++ [0, 0, 0, 6] ++ typePLTE ++ [1, 2, 3, 4, 5, 6, 0, 0, 0, 0]

/-- The same IHDR chunk followed by an IEND chunk whose 4 check bytes are missing. -/
def pngCutAfterIHDR : List Nat :=
  pngPrefix ++ [0, 0, 0, 13] ++ typeIHDR ++ [0, 0, 0, 3, 0, 0, 0, 5, 8, 3, 0, 0, 0, 0, 0, 0, 0]
    ++ [0, 0, 0, 0, 0x49, 0x45, 0x4E, 0x44]

/-- C26 (evaluation at the failing input): for a paletted IHDR directly followed by IEND
and the end of the data `decodePNGHeader` fails with the unexpected-EOF error instead of
succeeding with Colors = 0; with a PLTE chunk of length 6 it succeeds with Colors = 2, and
it succeeds with Colors = 0 only when the data ends inside a chunk that is being
skipped. -/
theorem decodePNGHeader_missing_palette_fails :
    decodePNGHeader pngNoPalette Entry.zero = .error .ErrUnexpectedEOF
      ∧ decodePNGHeader pngWithPalette Entry.zero = .ok (pngEntry Entry.zero 3 5 8 (some 2))
      ∧ decodePNGHeader pngCutAfterIHDR Entry.zero = .ok (pngEntry Entry.zero 3 5 8 none)
      ∧ (pngEntry Entry.zero 3 5 8 none).Colors = 0 := by
  decide


/-! ## The 1-bit mask -/

/-- The bit of pixel position `q` in a mask row `b`: bit `7 - q mod 8` of byte `q div 8`. -/
def bitAt (b : List Nat) (q : Nat) : Nat := b.getD (q / 8) 0 / 2 ^ (7 - q % 8) % 2

theorem shiftRight_and_one (v k : Nat) : (v >>> k) &&& 1 = v / 2 ^ k % 2 := by
  rw [Nat.shiftRight_eq_div_pow, Nat.and_one_is_mod]

theorem decodeMaskRow_length (b : List Nat) :
    ∀ (n byte bit : Nat), (decodeMaskRow b n byte bit).length = n := by
  intro n
  induction n with
  | zero => intro byte bit; rfl
  | succ n ih =>
    intro byte bit
    rw [decodeMaskRow]
    by_cases hb : bit = 0
    · rw [if_pos hb, List.length_cons, ih]
    · rw [if_neg hb, List.length_cons, ih]

/-- The pixels the inner loop of `decodeMask` reads from a row. -/
theorem decodeMaskRow_getD (b : List Nat) :
    ∀ (n byte bit i : Nat), bit ≤ 7 → i < n →
      (decodeMaskRow b n byte bit).getD i 0 = bitAt b (8 * byte + (7 - bit) + i) := by
  intro n
  induction n with
  | zero => intro byte bit i _ hi; omega
  | succ n ih =>
    intro byte bit i hbit hi
    rw [decodeMaskRow]
    cases i with
    | zero =>
      rw [List.getD_cons_zero, shiftRight_and_one]
      unfold bitAt
      have h1 : (8 * byte + (7 - bit) + 0) / 8 = byte := by omega
      have h2 : 7 - (8 * byte + (7 - bit) + 0) % 8 = bit := by omega
      rw [h1, h2]
    | succ i =>
      rw [List.getD_cons_succ]
      by_cases hb : bit = 0
      · rw [if_pos hb, ih (byte + 1) 7 i (by omega) (by omega)]
        congr 1
        omega
      · rw [if_neg hb, ih byte (bit - 1) i (by omega) (by omega)]
        congr 1
        omega

/-- The outer loop of `decodeMask` on a stream that holds all rows. -/
theorem decodeMaskRows_ok (stride width : Nat) :
    ∀ (rows : Nat) (s : List Nat), rows * stride ≤ s.length →
      decodeMaskRows stride width rows s
        = .ok ((List.range rows).map
            (fun k => decodeMaskRow ((s.drop (k * stride)).take stride) width 0 7),
          s.drop (rows * stride)) := by
  intro rows
  induction rows with
  | zero => intro s _; simp [decodeMaskRows]
  | succ rows ih =>
    intro s h
    have hs : stride ≤ s.length := by
      have : (rows + 1) * stride = rows * stride + stride := by ring
      omega
    have h1 : rows * stride ≤ (s.drop stride).length := by
      have : (rows + 1) * stride = rows * stride + stride := by ring
      rw [List.length_drop]
      omega
    rw [decodeMaskRows, readFull_of_le s stride hs]
    simp only
    rw [ih (s.drop stride) h1, List.range_succ_eq_map]
    simp only [List.map_cons, List.map_map, Nat.zero_mul, List.drop_zero, List.drop_drop]
    have hf : ((fun k => decodeMaskRow (List.take stride (List.drop (k * stride) s)) width 0 7)
          ∘ Nat.succ)
        = (fun k => decodeMaskRow (List.take stride (List.drop (stride + k * stride) s)) width 0 7) := by
      funext k
      simp only [Function.comp, Nat.succ_eq_add_one]
      congr 3
      ring
    rw [hf]
    have hd : stride + rows * stride = (rows + 1) * stride := by ring
    rw [hd]

theorem maskStride_ge (w x : Nat) (hx : x < w) : x / 8 < maskStride w := by
  unfold maskStride
  omega

/-- The byte of a row inside the stream. -/
theorem getD_take_drop (s : List Nat) (k stride j : Nat) (hj : j < stride) :
    ((s.drop (k * stride)).take stride).getD j 0 = s.getD (k * stride + j) 0 := by
  simp only [List.getD_eq_getElem?_getD, List.getElem?_take, List.getElem?_drop]
  rw [if_pos hj]


/-- The rows `decodeMask` reads from a stream that holds all of them, in the order read. -/
def maskRowsOf (s : List Nat) (w h : Nat) : List (List Nat) :=
  (List.range h).map (fun k => decodeMaskRow ((s.drop (k * maskStride w)).take (maskStride w)) w 0 7)

theorem maskRowsOf_length (s : List Nat) (w h : Nat) : (maskRowsOf s w h).length = h := by
  simp [maskRowsOf]

theorem maskRowsOf_getElem (s : List Nat) (w h k : Nat) (hk : k < (maskRowsOf s w h).length) :
    (maskRowsOf s w h)[k]
      = decodeMaskRow ((s.drop (k * maskStride w)).take (maskStride w)) w 0 7 := by
  simp [maskRowsOf]

/-- A pixel of the rows read: the bit of the stream it comes from. -/
theorem maskRowsOf_getD (s : List Nat) (w h k x : Nat) (hk : k < h) (hx : x < w) :
    ((maskRowsOf s w h).getD k []).getD x 0
      = s.getD (k * maskStride w + x / 8) 0 / 2 ^ (7 - x % 8) % 2 := by
  have hk1 : k < (maskRowsOf s w h).length := by rw [maskRowsOf_length]; exact hk
  rw [List.getD_eq_getElem _ _ hk1, maskRowsOf_getElem s w h k hk1,
    decodeMaskRow_getD _ w 0 7 x (by omega) hx]
  unfold bitAt
  have h1 : (8 * 0 + (7 - 7) + x) = x := by omega
  rw [h1, getD_take_drop s k (maskStride w) (x / 8) (maskStride_ge w x hx)]

/-- The flag `opaque` in terms of the pixels read. -/
theorem maskRowsOf_all (s : List Nat) (w h : Nat) :
    (maskRowsOf s w h).all (fun row => row.all (fun v => v == 0)) = true
      ↔ ∀ k x : Nat, k < h → x < w → ((maskRowsOf s w h).getD k []).getD x 0 = 0 := by
  rw [List.all_eq_true]
  constructor
  · intro hall k x hk hx
    have hk1 : k < (maskRowsOf s w h).length := by rw [maskRowsOf_length]; exact hk
    have hrow := hall _ (List.getElem_mem hk1)
    rw [List.all_eq_true] at hrow
    have hx1 : x < ((maskRowsOf s w h)[k]).length := by
      rw [maskRowsOf_getElem, decodeMaskRow_length]; exact hx
    have hv := hrow _ (List.getElem_mem hx1)
    rw [List.getD_eq_getElem _ _ hk1, List.getD_eq_getElem _ _ hx1]
    exact beq_iff_eq.mp hv
  · intro hbits row hrow
    rw [List.all_eq_true]
    intro v hv
    obtain ⟨k, hk, rfl⟩ := List.getElem_of_mem hrow
    obtain ⟨x, hx, rfl⟩ := List.getElem_of_mem hv
    have hkh : k < h := by rw [maskRowsOf_length] at hk; exact hk
    have hxw : x < w := by
      rw [maskRowsOf_getElem, decodeMaskRow_length] at hx; exact hx
    have := hbits k x hkh hxw
    rw [List.getD_eq_getElem _ _ hk, List.getD_eq_getElem _ _ hx] at this
    exact beq_iff_eq.mpr this

/-- The function `decodeMask` on an entry of positive size and a stream that holds the
whole mask. -/
theorem decodeMask_ok (s : List Nat) (e : Entry) (w h : Nat) (hw : e.Width = (w : Int))
    (hh : e.Height = (h : Int)) (hw0 : 0 < w) (hh0 : 0 < h)
    (hlen : maskStride w * h ≤ s.length) :
    decodeMask s e = .ok
      (fun x y =>
        if 0 ≤ x ∧ x < e.Width ∧ 0 ≤ y ∧ y < e.Height then
          ((maskRowsOf s w h).getD (if e.topDown then y.toNat else h - 1 - y.toNat) []).getD
            x.toNat 0
        else 0,
       (maskRowsOf s w h).all (fun row => row.all (fun v => v == 0)),
       s.drop (maskStride w * h)) := by
  unfold decodeMask
  rw [if_neg (by omega), if_neg (by omega)]
  have hwn : e.Width.toNat = w := by omega
  have hhn : e.Height.toNat = h := by omega
  simp only [hwn, hhn]
  rw [decodeMaskRows_ok (maskStride w) w h s (by rw [Nat.mul_comm]; exact hlen)]
  simp only [maskRowsOf, Nat.mul_comm h (maskStride w)]

/-- C15: for width w > 0, height h > 0 and a stream holding at least s*h bytes, where
s = ((w+7)/8 + 3) & ~3, `decodeMask` consumes exactly s*h bytes and returns a mask whose
pixel (x, y) is bit (7 - x mod 8) of byte (x div 8) of the k-th s-byte row read, with
k = h-1-y when `topDown` is unset and k = y when it is set. -/
theorem decodeMask_bits (s : List Nat) (e : Entry) (w h : Nat) (hw : e.Width = (w : Int))
    (hh : e.Height = (h : Int)) (hw0 : 0 < w) (hh0 : 0 < h)
    (hlen : maskStride w * h ≤ s.length) :
    maskStride w = ((w + 7) / 8 + 3) / 4 * 4
    ∧ ∃ pix flag, decodeMask s e = .ok (pix, flag, s.drop (maskStride w * h))
      ∧ (s.drop (maskStride w * h)).length + maskStride w * h = s.length
      ∧ ∀ x y : Nat, x < w → y < h →
          pix (x : Int) (y : Int)
            = s.getD ((if e.topDown then y else h - 1 - y) * maskStride w + x / 8) 0
                / 2 ^ (7 - x % 8) % 2 := by
  refine ⟨rfl, _, _, decodeMask_ok s e w h hw hh hw0 hh0 hlen, ?_, ?_⟩
  · rw [List.length_drop]
    omega
  · intro x y hx hy
    have hc : 0 ≤ (x : Int) ∧ (x : Int) < e.Width ∧ 0 ≤ (y : Int) ∧ (y : Int) < e.Height := by
      omega
    show (if 0 ≤ (x : Int) ∧ (x : Int) < e.Width ∧ 0 ≤ (y : Int) ∧ (y : Int) < e.Height then
        ((maskRowsOf s w h).getD (if e.topDown then (y : Int).toNat else h - 1 - (y : Int).toNat)
          []).getD (x : Int).toNat 0 else 0) = _
    rw [if_pos hc, Int.toNat_ofNat, Int.toNat_ofNat]
    have hk : (if e.topDown = true then y else h - 1 - y) < h := by
      split <;> omega
    exact maskRowsOf_getD s w h _ x hk hx

/-- An entry of the given size. -/
def sizedEntry (w h : Int) (topDown : Bool) : Entry :=
  { Entry.zero with Width := w, Height := h, topDown := topDown }

/-- C15 (witness): a 9 x 2 mask read bottom-up from 8 bytes followed by one more byte. -/
theorem decodeMask_bits_witness :
    ∃ pix flag, decodeMask [128, 0, 0, 0, 0, 128, 0, 0, 77] (sizedEntry 9 2 false)
        = .ok (pix, flag, [77])
      ∧ pix 0 1 = 1 ∧ pix 8 0 = 1 ∧ pix 0 0 = 0 := by
  obtain ⟨pix, flag, h1, _, h3⟩ :=
    (decodeMask_bits [128, 0, 0, 0, 0, 128, 0, 0, 77] (sizedEntry 9 2 false) 9 2 rfl rfl
      (by decide) (by decide) (by decide)).2
  exact ⟨pix, flag, h1, h3 0 1 (by decide) (by decide), h3 8 0 (by decide) (by decide),
    h3 0 0 (by decide) (by decide)⟩

/-- C28: when Width or Height is 0, `decodeMask` reports fully opaque, returns no error and
consumes nothing; otherwise, when it succeeds, it reports the mask as fully opaque if and
only if every one of the width*height pixel bits it read is 0, so the padding bits of a
row have no influence on the flag. -/
theorem decodeMask_opaque_flag (s : List Nat) (e : Entry) :
    ((e.Width = 0 ∨ e.Height = 0) → decodeMask s e = .ok (fun _ _ => 0, true, s))
    ∧ (0 < e.Width → 0 < e.Height →
        maskStride e.Width.toNat * e.Height.toNat ≤ s.length →
        ∃ pix flag rest, decodeMask s e = .ok (pix, flag, rest)
          ∧ (flag = true ↔ ∀ x y : Nat, (x : Int) < e.Width → (y : Int) < e.Height →
              s.getD ((if e.topDown then y else e.Height.toNat - 1 - y)
                  * maskStride e.Width.toNat + x / 8) 0 / 2 ^ (7 - x % 8) % 2 = 0)) := by
  refine ⟨fun h => ?_, fun hw0 hh0 hlen => ?_⟩
  · unfold decodeMask
    rw [if_pos h]
  · have hw : e.Width = (e.Width.toNat : Int) := by omega
    have hh : e.Height = (e.Height.toNat : Int) := by omega
    generalize e.Width.toNat = w at hw hlen
    generalize e.Height.toNat = h at hh hlen
    refine ⟨_, _, _, decodeMask_ok s e w h hw hh (by omega) (by omega) hlen, ?_⟩
    rw [maskRowsOf_all]
    constructor
    · intro hall x y hx hy
      have hk : (if e.topDown = true then y else h - 1 - y) < h := by
        split <;> omega
      rw [← maskRowsOf_getD s w h _ x hk (by omega)]
      exact hall _ x hk (by omega)
    · intro hbits k x hk hx
      rw [maskRowsOf_getD s w h k x hk hx]
      have hb := hbits x (if e.topDown = true then k else h - 1 - k) (by omega)
        (by split <;> omega)
      have hkk : (if e.topDown = true then (if e.topDown = true then k else h - 1 - k)
          else h - 1 - (if e.topDown = true then k else h - 1 - k)) = k := by
        split <;> omega
      rw [hkk] at hb
      exact hb

/-- C28 (witness): an empty mask consumes nothing; a 1 x 1 mask whose only set bits are
padding bits is fully opaque. -/
theorem decodeMask_opaque_flag_witness :
    decodeMask [9, 9] (sizedEntry 0 5 false) = .ok (fun _ _ => 0, true, [9, 9])
      ∧ ∃ pix flag rest, decodeMask [127, 255, 255, 255] (sizedEntry 1 1 false)
          = .ok (pix, flag, rest)
        ∧ (flag = true ↔ ∀ x y : Nat, (x : Int) < (sizedEntry 1 1 false).Width →
            (y : Int) < (sizedEntry 1 1 false).Height →
            [127, 255, 255, 255].getD ((if (sizedEntry 1 1 false).topDown then y
                else (sizedEntry 1 1 false).Height.toNat - 1 - y)
              * maskStride (sizedEntry 1 1 false).Width.toNat + x / 8) 0
                / 2 ^ (7 - x % 8) % 2 = 0) :=
  ⟨(decodeMask_opaque_flag [9, 9] (sizedEntry 0 5 false)).1 (Or.inl rfl),
   (decodeMask_opaque_flag [127, 255, 255, 255] (sizedEntry 1 1 false)).2 (by decide)
     (by decide) (by decide)⟩


/-! ## Mask encoding -/

/-- The byte update of the inner loop of `encodeMask`:
`(b[byte] & ^(1 << bit)) | (p << bit)`. -/
def stepByte (v bit p : Nat) : Nat := ((v &&& (255 - 2 ^ bit)) ||| (p <<< bit)) % 256

/-- Exhaustive check of the byte update over all bytes, bit positions and pixel values. -/
def stepByteCheck : Bool :=
  (List.range 256).all fun v => (List.range 8).all fun bit => (List.range 2).all fun p =>
    (List.range 8).all fun j =>
      stepByte v bit p / 2 ^ j % 2 == (if j = bit then p else v / 2 ^ j % 2)
        && decide (stepByte v bit p < 256)

set_option maxRecDepth 100000 in
theorem stepByteCheck_true : stepByteCheck = true := by decide

/-- The byte update sets bit `bit` to `p` and keeps the other bits. -/
theorem stepByte_bit (v bit p j : Nat) (hv : v < 256) (hbit : bit < 8) (hp : p < 2)
    (hj : j < 8) :
    stepByte v bit p / 2 ^ j % 2 = (if j = bit then p else v / 2 ^ j % 2)
      ∧ stepByte v bit p < 256 := by
  have h := stepByteCheck_true
  unfold stepByteCheck at h
  rw [List.all_eq_true] at h
  have h1 := h v (List.mem_range.mpr hv)
  rw [List.all_eq_true] at h1
  have h2 := h1 bit (List.mem_range.mpr hbit)
  rw [List.all_eq_true] at h2
  have h3 := h2 p (List.mem_range.mpr hp)
  rw [List.all_eq_true] at h3
  have h4 := h3 j (List.mem_range.mpr hj)
  rw [Bool.and_eq_true, beq_iff_eq, decide_eq_true_eq] at h4
  exact h4

theorem getD_set (b : List Nat) (i j v : Nat) (hi : i < b.length) :
    (b.set i v).getD j 0 = if j = i then v else b.getD j 0 := by
  simp only [List.getD_eq_getElem?_getD, List.getElem?_set]
  by_cases h : i = j
  · subst h
    simp [hi]
  · rw [if_neg h, if_neg (fun hc => h hc.symm)]

/-- One round of the inner loop of `encodeMask` sets the bit of one pixel position. -/
theorem bitAt_set (b : List Nat) (byte bit p q : Nat) (hb : byte < b.length)
    (hv : b.getD byte 0 < 256) (hbit : bit ≤ 7) (hp : p ≤ 1) :
    bitAt (b.set byte (stepByte (b.getD byte 0) bit p)) q
      = if q = 8 * byte + (7 - bit) then p else bitAt b q := by
  unfold bitAt
  rw [getD_set b byte (q / 8) _ hb]
  by_cases h1 : q / 8 = byte
  · rw [if_pos h1]
    have hs := (stepByte_bit (b.getD byte 0) bit p (7 - q % 8) hv (by omega) (by omega)
      (by omega)).1
    rw [hs, h1]
    by_cases h2 : 7 - q % 8 = bit
    · rw [if_pos h2, if_pos (by omega)]
    · rw [if_neg h2, if_neg (by omega)]
  · rw [if_neg h1, if_neg (by omega)]

theorem encodeMaskRow_succ (pix : Nat → Nat) (n : Nat) (b : List Nat) (x byte bit : Nat) :
    encodeMaskRow pix (n + 1) b x byte bit =
      if bit = 0 then
        encodeMaskRow pix n (b.set byte (stepByte (b.getD byte 0) bit (pix x))) (x + 1)
          (byte + 1) 7
      else encodeMaskRow pix n (b.set byte (stepByte (b.getD byte 0) bit (pix x))) (x + 1)
          byte (bit - 1) := by
  rw [encodeMaskRow]
  rfl

/-- The inner loop of `encodeMask`: the row buffer keeps its length, its bytes stay
bytes, the bits of the `n` pixels are written and all other bits are kept. -/
theorem encodeMaskRow_spec (pix : Nat → Nat) (hpix : ∀ x, pix x ≤ 1) :
    ∀ (n : Nat) (b : List Nat) (x byte bit : Nat), bit ≤ 7 →
      8 * byte + (7 - bit) + n ≤ 8 * b.length → (∀ v ∈ b, v < 256) →
      (encodeMaskRow pix n b x byte bit).length = b.length
        ∧ (∀ v ∈ encodeMaskRow pix n b x byte bit, v < 256)
        ∧ ∀ q, bitAt (encodeMaskRow pix n b x byte bit) q
            = if 8 * byte + (7 - bit) ≤ q ∧ q < 8 * byte + (7 - bit) + n
              then pix (x + (q - (8 * byte + (7 - bit)))) else bitAt b q := by
  intro n
  induction n with
  | zero =>
    intro b x byte bit _ _ hb
    refine ⟨rfl, hb, fun q => ?_⟩
    rw [if_neg (by omega)]
    rfl
  | succ n ih =>
    intro b x byte bit hbit hlen hb
    have hbyte : byte < b.length := by omega
    have hv : b.getD byte 0 < 256 := by
      rw [List.getD_eq_getElem _ _ hbyte]
      exact hb _ (List.getElem_mem hbyte)
    have hb1 : ∀ v ∈ b.set byte (stepByte (b.getD byte 0) bit (pix x)), v < 256 := by
      intro v hvm
      rcases List.mem_or_eq_of_mem_set hvm with h | h
      · exact hb v h
      · rw [h]
        exact (stepByte_bit _ bit (pix x) 0 hv (by omega) (by have := hpix x; omega)
          (by omega)).2
    have hl1 : (b.set byte (stepByte (b.getD byte 0) bit (pix x))).length = b.length :=
      List.length_set _ _ _
    have hset := fun q => bitAt_set b byte bit (pix x) q hbyte hv hbit (hpix x)
    rw [encodeMaskRow_succ]
    by_cases h0 : bit = 0
    · rw [if_pos h0]
      obtain ⟨i1, i2, i3⟩ := ih (b.set byte (stepByte (b.getD byte 0) bit (pix x))) (x + 1)
        (byte + 1) 7 (by omega) (by rw [hl1]; omega) hb1
      refine ⟨by rw [i1, hl1], i2, fun q => ?_⟩
      rw [i3 q, hset q]
      by_cases hq : q = 8 * byte + (7 - bit)
      · rw [if_neg (by omega), if_pos hq, if_pos (by omega)]
        congr 1
        omega
      · by_cases hr : 8 * (byte + 1) + (7 - 7) ≤ q ∧ q < 8 * (byte + 1) + (7 - 7) + n
        · rw [if_pos hr, if_pos (by omega)]
          congr 1
          omega
        · rw [if_neg hr, if_neg hq, if_neg (by omega)]
    · rw [if_neg h0]
      obtain ⟨i1, i2, i3⟩ := ih (b.set byte (stepByte (b.getD byte 0) bit (pix x))) (x + 1)
        byte (bit - 1) (by omega) (by rw [hl1]; omega) hb1
      refine ⟨by rw [i1, hl1], i2, fun q => ?_⟩
      rw [i3 q, hset q]
      by_cases hq : q = 8 * byte + (7 - bit)
      · rw [if_neg (by omega), if_pos hq, if_pos (by omega)]
        congr 1
        omega
      · by_cases hr : 8 * byte + (7 - (bit - 1)) ≤ q ∧ q < 8 * byte + (7 - (bit - 1)) + n
        · rw [if_pos hr, if_pos (by omega)]
          congr 1
          omega
        · rw [if_neg hr, if_neg hq, if_neg (by omega)]


/-- The outer loop of `encodeMask`: `rows` rows of `stride` bytes are written; the k-th
row holds the bits of image row `rows - 1 - k` and zero padding bits. -/
theorem encodeMaskRows_spec (pix : Nat → Nat → Nat) (hpix : ∀ x y, pix x y ≤ 1)
    (width stride : Nat) (hws : width ≤ 8 * stride) :
    ∀ (rows : Nat) (b : List Nat), b.length = stride → (∀ v ∈ b, v < 256) →
      (∀ q, width ≤ q → bitAt b q = 0) →
      (encodeMaskRows pix width rows b).length = stride * rows
        ∧ ∀ k, k < rows → ∀ q,
            bitAt (((encodeMaskRows pix width rows b).drop (k * stride)).take stride) q
              = if q < width then pix q (rows - 1 - k) else 0 := by
  intro rows
  induction rows with
  | zero =>
    intro b _ _ _
    exact ⟨rfl, fun k hk => absurd hk (by omega)⟩
  | succ y ih =>
    intro b hlen hb hpad
    obtain ⟨r1, r2, r3⟩ := encodeMaskRow_spec (fun x => pix x y) (fun x => hpix x y) width b 0 0 7
      (by omega) (by omega) hb
    have hl1 : (encodeMaskRow (fun x => pix x y) width b 0 0 7).length = stride := by
      rw [r1, hlen]
    have hbit : ∀ q, bitAt (encodeMaskRow (fun x => pix x y) width b 0 0 7) q
        = if q < width then pix q y else 0 := by
      intro q
      rw [r3 q]
      by_cases hq : q < width
      · rw [if_pos (by omega), if_pos hq]
        congr 1
        omega
      · rw [if_neg (by omega), if_neg hq]
        exact hpad q (by omega)
    obtain ⟨i1, i2⟩ := ih (encodeMaskRow (fun x => pix x y) width b 0 0 7) hl1 r2
      (fun q hq => by rw [hbit q, if_neg (by omega)])
    rw [encodeMaskRows]
    refine ⟨?_, fun k hk q => ?_⟩
    · show (encodeMaskRow (fun x => pix x y) width b 0 0 7
        ++ encodeMaskRows pix width y (encodeMaskRow (fun x => pix x y) width b 0 0 7)).length = _
      rw [List.length_append, i1, hl1]
      ring
    · show bitAt (((encodeMaskRow (fun x => pix x y) width b 0 0 7
        ++ encodeMaskRows pix width y (encodeMaskRow (fun x => pix x y) width b 0 0 7)).drop
          (k * stride)).take stride) q = _
      cases k with
      | zero =>
        rw [Nat.zero_mul, List.drop_zero, List.take_left' hl1, hbit q]
        simp
      | succ k =>
        have hd : (k + 1) * stride = stride + k * stride := by ring
        rw [hd, ← List.drop_drop, List.drop_left' hl1, i2 k (by omega) q]
        have : y + 1 - 1 - (k + 1) = y - 1 - k := by omega
        rw [this]

theorem encodeMaskPix_le (m : Image) (x y : Nat) : encodeMaskPix m x y ≤ 1 := by
  unfold encodeMaskPix
  split
  · decide
  · omega

theorem encodeMaskPix_eq (m : Image) (x y : Nat) :
    encodeMaskPix m x y
      = if (m.At (m.Bounds.Min.X + (x : Int)) (m.Bounds.Min.Y + (y : Int))).A = 0 then 1 else 0 := by
  unfold encodeMaskPix
  split
  · decide
  · rfl

theorem maskStride_bits (w : Nat) : w ≤ 8 * maskStride w := by
  unfold maskStride
  omega

theorem bitAt_replicate (n q : Nat) : bitAt (List.replicate n 0) q = 0 := by
  unfold bitAt
  rw [List.getD_eq_getElem?_getD, List.getElem?_replicate]
  split <;> simp

/-- The bytes `encodeMask` writes: their count, the row stride, and every bit of every
row. -/
theorem encodeMask_rows (m : Image) (w h : Nat) (hw : m.Bounds.Size.X = (w : Int))
    (hh : m.Bounds.Size.Y = (h : Int)) :
    (encodeMask m).1.length = maskStride w * h
    ∧ (encodeMask m).2 = maskStride w * h
    ∧ maskStride w = ((w + 7) / 8 + 3) / 4 * 4
    ∧ ∀ k, k < h → ∀ q,
        (((encodeMask m).1.drop (k * maskStride w)).take (maskStride w)).getD (q / 8) 0
            / 2 ^ (7 - q % 8) % 2
          = if q < w then
              (if (m.At (m.Bounds.Min.X + (q : Int))
                    (m.Bounds.Min.Y + ((h - 1 - k : Nat) : Int))).A = 0 then 1 else 0)
            else 0 := by
  have hwn : m.Bounds.Size.X.toNat = w := by omega
  have hhn : m.Bounds.Size.Y.toNat = h := by omega
  obtain ⟨s1, s2⟩ := encodeMaskRows_spec (encodeMaskPix m) (encodeMaskPix_le m) w (maskStride w)
    (maskStride_bits w) h (List.replicate (maskStride w) 0) (List.length_replicate _ _)
    (fun v hv => by rw [List.eq_of_mem_replicate hv]; omega)
    (fun q _ => bitAt_replicate _ q)
  have hout : (encodeMask m).1
      = encodeMaskRows (encodeMaskPix m) w h (List.replicate (maskStride w) 0) := by
    unfold encodeMask
    simp only [hwn, hhn]
  have hcnt : (encodeMask m).2 = (encodeMask m).1.length := by
    unfold encodeMask
    rfl
  refine ⟨by rw [hout, s1], by rw [hcnt, hout, s1], rfl, fun k hk q => ?_⟩
  have := s2 k hk q
  unfold bitAt at this
  rw [hout, this, encodeMaskPix_eq]

/-- C16: for every image of width w and height h, `encodeMask` writes exactly s*h bytes
(s = ((w+7)/8 + 3) & ~3) and returns that count; the k-th s-byte row written describes
image row h-1-k, the bit for pixel x is bit (7 - x mod 8) of byte (x div 8) and is 1 if and
only if that pixel's alpha is exactly zero, and every padding bit beyond pixel w-1 in
every row is 0. -/
theorem encodeMask_bits (m : Image) (w h : Nat) (hw : m.Bounds.Size.X = (w : Int))
    (hh : m.Bounds.Size.Y = (h : Int)) :
    (encodeMask m).1.length = maskStride w * h
    ∧ (encodeMask m).2 = maskStride w * h
    ∧ maskStride w = ((w + 7) / 8 + 3) / 4 * 4
    ∧ ∀ k, k < h → ∀ q,
        (((encodeMask m).1.drop (k * maskStride w)).take (maskStride w)).getD (q / 8) 0
            / 2 ^ (7 - q % 8) % 2
          = if q < w then
              (if (m.At (m.Bounds.Min.X + (q : Int))
                    (m.Bounds.Min.Y + ((h - 1 - k : Nat) : Int))).A = 0 then 1 else 0)
            else 0 :=
  encodeMask_rows m w h hw hh

/-- A 9 x 2 raster whose pixels (0, 1) and (8, 0) are transparent and whose other pixels
are opaque. -/
def twoHoles : Image :=
  .Other (Rect 0 0 9 2)
    (fun x y => if (x = 0 ∧ y = 1) ∨ (x = 8 ∧ y = 0) then ⟨0, 0, 0, 0⟩ else ⟨0, 0, 0, 0xffff⟩)
    none none

/-- C16 (witness): the mask of `twoHoles` takes 2 rows of 4 bytes. -/
theorem encodeMask_bits_witness :
    (encodeMask twoHoles).1.length = maskStride 9 * 2 ∧ (encodeMask twoHoles).2 = maskStride 9 * 2 :=
  ⟨(encodeMask_bits twoHoles 9 2 (by decide) (by decide)).1,
   (encodeMask_bits twoHoles 9 2 (by decide) (by decide)).2.1⟩

/-! ## Mask decoding inverts mask encoding -/

/-- C17: for every image m of size w x h (w, h >= 1), `decodeMask` with Width = w,
Height = h and `topDown` unset on the bytes written by `encodeMask(m)` consumes all of
them and returns a mask in which pixel (x, y) is set exactly when m's pixel (x, y) has
alpha zero, with the fully-opaque flag true exactly when no pixel of m has alpha zero. -/
theorem decodeMask_encodeMask (m : Image) (e : Entry) (w h : Nat)
    (hw : m.Bounds.Size.X = (w : Int)) (hh : m.Bounds.Size.Y = (h : Int))
    (hw0 : 1 ≤ w) (hh0 : 1 ≤ h) (hew : e.Width = (w : Int)) (heh : e.Height = (h : Int))
    (htd : e.topDown = false) :
    ∃ pix flag, decodeMask (encodeMask m).1 e = .ok (pix, flag, [])
      ∧ (∀ x y : Nat, x < w → y < h →
          pix (x : Int) (y : Int)
            = if (m.At (m.Bounds.Min.X + (x : Int)) (m.Bounds.Min.Y + (y : Int))).A = 0
              then 1 else 0)
      ∧ (flag = true ↔ ∀ x y : Nat, x < w → y < h →
          (m.At (m.Bounds.Min.X + (x : Int)) (m.Bounds.Min.Y + (y : Int))).A ≠ 0) := by
  obtain ⟨l1, _, _, l4⟩ := encodeMask_rows m w h hw hh
  have hrest : (encodeMask m).1.drop (maskStride w * h) = [] := by
    rw [List.drop_eq_nil_iff]
    omega
  have hok := decodeMask_ok (encodeMask m).1 e w h hew heh (by omega) (by omega) (by omega)
  rw [hrest] at hok
  have hpix : ∀ k x : Nat, k < h → x < w →
      ((maskRowsOf (encodeMask m).1 w h).getD k []).getD x 0
        = if (m.At (m.Bounds.Min.X + (x : Int))
              (m.Bounds.Min.Y + ((h - 1 - k : Nat) : Int))).A = 0 then 1 else 0 := by
    intro k x hk hx
    rw [maskRowsOf_getD _ w h k x hk hx, ← getD_take_drop _ k (maskStride w) (x / 8)
      (maskStride_ge w x hx), l4 k hk x, if_pos hx]
  refine ⟨_, _, hok, fun x y hx hy => ?_, ?_⟩
  · show (if 0 ≤ (x : Int) ∧ (x : Int) < e.Width ∧ 0 ≤ (y : Int) ∧ (y : Int) < e.Height then
        ((maskRowsOf (encodeMask m).1 w h).getD
          (if e.topDown then (y : Int).toNat else h - 1 - (y : Int).toNat) []).getD
            (x : Int).toNat 0 else 0) = _
    rw [if_pos (by omega), htd, Int.toNat_ofNat, Int.toNat_ofNat]
    simp only [Bool.false_eq_true, if_false]
    rw [hpix (h - 1 - y) x (by omega) hx]
    have : h - 1 - (h - 1 - y) = y := by omega
    rw [this]
  · rw [maskRowsOf_all]
    constructor
    · intro hall x y hx hy hA
      have := hall (h - 1 - y) x (by omega) hx
      rw [hpix (h - 1 - y) x (by omega) hx] at this
      have hyy : h - 1 - (h - 1 - y) = y := by omega
      rw [hyy, if_pos hA] at this
      omega
    · intro hno k x hk hx
      rw [hpix k x hk hx, if_neg]
      have := hno x (h - 1 - k) hx (by omega)
      exact this

/-- C17 (witness): the mask of `twoHoles` read back. -/
theorem decodeMask_encodeMask_witness :
    ∃ pix flag, decodeMask (encodeMask twoHoles).1 (sizedEntry 9 2 false) = .ok (pix, flag, [])
      ∧ (∀ x y : Nat, x < 9 → y < 2 →
          pix (x : Int) (y : Int)
            = if (twoHoles.At (twoHoles.Bounds.Min.X + (x : Int))
                (twoHoles.Bounds.Min.Y + (y : Int))).A = 0 then 1 else 0)
      ∧ (flag = true ↔ ∀ x y : Nat, x < 9 → y < 2 →
          (twoHoles.At (twoHoles.Bounds.Min.X + (x : Int))
            (twoHoles.Bounds.Min.Y + (y : Int))).A ≠ 0) :=
  decodeMask_encodeMask twoHoles (sizedEntry 9 2 false) 9 2 (by decide) (by decide) (by decide)
    (by decide) rfl rfl rfl


/-! ## Which errors the container reader can return -/

/-- Is the error a value of the type `FormatError` of package `icondir`? -/
def Err.isFormat : Err → Bool
  | .FormatError _ => true
  | _ => false

/-- The errors of `Seek`. -/
theorem Seek_error_cases (r : reader) (o : Int) (whence : Nat) :
    (r.Seek o whence).2 = none
      ∨ (∃ msg, (r.Seek o whence).2 = some (.external msg))
      ∨ (∃ msg, (r.Seek o whence).2 = some (.UnsupportedError msg))
      ∨ (r.Seek o whence).2 = some .EOF := by
  by_cases hs : r.canSeekBackward = true
  · unfold reader.Seek
    rw [if_pos hs]
    by_cases h1 : whence = SeekStart
    · rw [if_pos h1]
      by_cases hn : o < 0
      · simp [hn]
      · simp [hn]
    · rw [if_neg h1]
      by_cases h2 : whence = SeekCurrent
      · rw [if_pos h2]
        by_cases hn : (r.pos : Int) + o < 0
        · simp [hn]
        · simp [hn]
      · rw [if_neg h2]
        by_cases h3 : whence = SeekEnd
        · rw [if_pos h3]
          by_cases hn : (r.r.length : Int) + o < 0
          · simp [hn]
          · simp [hn]
        · rw [if_neg h3]
          simp
  · have hf : r.canSeekBackward = false := by simpa using hs
    have hstart : ∀ t : Int, (r.Seek t SeekStart).2 = none
        ∨ (∃ msg, (r.Seek t SeekStart).2 = some (.external msg))
        ∨ (∃ msg, (r.Seek t SeekStart).2 = some (.UnsupportedError msg))
        ∨ (r.Seek t SeekStart).2 = some .EOF := by
      intro t
      rw [Seek_forward_start r hf]
      by_cases h1 : t < (r.pos : Int)
      · rw [if_pos h1]
        exact Or.inr (Or.inr (Or.inl ⟨_, rfl⟩))
      · rw [if_neg h1]
        by_cases h2 : t = (r.pos : Int)
        · rw [if_pos h2]
          exact Or.inl rfl
        · rw [if_neg h2]
          unfold copyNDiscard
          by_cases h3 : (t - (r.pos : Int)).toNat ≤ (r.r.drop r.pos).length
          · rw [if_pos h3]
            exact Or.inl rfl
          · rw [if_neg h3]
            exact Or.inr (Or.inr (Or.inr rfl))
    by_cases h1 : whence = SeekStart
    · rw [h1]
      exact hstart o
    · by_cases h2 : whence = SeekCurrent
      · rw [h2, Seek_forward_current r hf]
        exact hstart _
      · rw [Seek_forward_other r hf o whence h1 h2]
        exact Or.inr (Or.inr (Or.inl ⟨_, rfl⟩))

theorem Seek_error_not_format (r : reader) (o : Int) (whence : Nat) (r1 : reader) (err : Err)
    (h : r.Seek o whence = (r1, some err)) : err.isFormat = false := by
  have h2 : (r.Seek o whence).2 = some err := by rw [h]
  rcases Seek_error_cases r o whence with h1 | ⟨msg, h1⟩ | ⟨msg, h1⟩ | h1 <;>
    rw [h1] at h2 <;> cases h2 <;> rfl

theorem readFull_error_not_format (s : List Nat) (n : Nat) (err : Err)
    (h : readFull s n = .error err) : err = .EOF ∨ err = .ErrUnexpectedEOF := by
  unfold readFull at h
  split at h
  · cases h
  · split at h
    · cases h; exact Or.inl rfl
    · cases h; exact Or.inr rfl

theorem ReadFull_error_not_format (r : reader) (n : Nat) (r1 : reader) (err : Err)
    (h : r.ReadFull n = (.error err, r1)) : err = .EOF ∨ err = .ErrUnexpectedEOF := by
  unfold reader.ReadFull at h
  cases hr : readFull (r.r.drop r.pos) n with
  | ok v =>
    rw [hr] at h
    cases h
  | error e1 =>
    rw [hr] at h
    simp only [Prod.mk.injEq, Except.error.injEq] at h
    rw [← h.1]
    exact readFull_error_not_format _ _ _ hr

theorem decodeHeader_error_not_format (s : List Nat) (e : Entry) (err : Err)
    (h : decodeHeader s e = .error err) : err.isFormat = false := by
  rcases decodeHeader_error s e err h with h1 | ⟨msg, h1⟩ <;> rw [h1] <;> rfl

theorem readHeadersLoop_error_not_format :
    ∀ (es : List Entry) (r : reader) (err : Err),
      readHeadersLoop r es = .error err → err.isFormat = false := by
  intro es
  induction es with
  | nil => intro r err h; simp [readHeadersLoop] at h
  | cons e es ih =>
    intro r err h
    rw [readHeadersLoop] at h
    cases hs : r.Seek e.Offset SeekStart with
    | mk r1 oerr =>
      rw [hs] at h
      cases oerr with
      | some e1 =>
        simp only [Except.error.injEq] at h
        rw [← h]
        exact Seek_error_not_format _ _ _ _ _ hs
      | none =>
        simp only at h
        cases hd : decodeHeader (r1.r.drop r1.pos) e with
        | error e2 =>
          rw [hd] at h
          simp only [Except.error.injEq] at h
          rw [← h]
          exact decodeHeader_error_not_format _ _ _ hd
        | ok t =>
          rw [hd] at h
          simp only at h
          cases hl : readHeadersLoop r1 es with
          | error e3 =>
            rw [hl] at h
            simp only [Except.error.injEq] at h
            rw [← h]
            exact ih _ _ hl
          | ok v =>
            rw [hl] at h
            cases h

theorem readDataLoop_error_not_format :
    ∀ (es : List (Nat × Entry)) (r : reader) (err : Err),
      readDataLoop r es = .error err → err.isFormat = false := by
  intro es
  induction es with
  | nil => intro r err h; simp [readDataLoop] at h
  | cons p es ih =>
    intro r err h
    obtain ⟨i, e⟩ := p
    rw [readDataLoop] at h
    cases hs : r.Seek e.Offset SeekStart with
    | mk r1 oerr =>
      rw [hs] at h
      cases oerr with
      | some e1 =>
        simp only [Except.error.injEq] at h
        rw [← h]
        exact Seek_error_not_format _ _ _ _ _ hs
      | none =>
        simp only at h
        cases hf : r1.ReadFull e.Size.toNat with
        | mk res r2 =>
          rw [hf] at h
          cases res with
          | error e2 =>
            simp only [Except.error.injEq] at h
            rw [← h]
            rcases ReadFull_error_not_format _ _ _ _ hf with h1 | h1 <;> rw [h1] <;> rfl
          | ok data =>
            simp only at h
            cases hd : decodeHeader data { e with data := data } with
            | error e3 =>
              rw [hd] at h
              simp only [Except.error.injEq] at h
              rw [← h]
              exact decodeHeader_error_not_format _ _ _ hd
            | ok t =>
              rw [hd] at h
              simp only at h
              cases hl : readDataLoop r2 es with
              | error e4 =>
                rw [hl] at h
                simp only [Except.error.injEq] at h
                rw [← h]
                exact ih _ _ hl
              | ok v =>
                rw [hl] at h
                cases h

theorem readHeaders_error_not_format (d : Decoder) (err : Err)
    (h : readHeaders d = .error err) : err.isFormat = false := by
  unfold readHeaders at h
  split at h
  · unfold readData at h
    cases hl : readDataLoop d.r (sortByOffset d.entries.enum) with
    | error e1 =>
      rw [hl] at h
      simp only [Except.error.injEq] at h
      rw [← h]
      exact readDataLoop_error_not_format _ _ _ hl
    | ok v =>
      rw [hl] at h
      cases h
  · cases hl : readHeadersLoop d.r d.entries with
    | error e1 =>
      rw [hl] at h
      simp only [Except.error.injEq] at h
      rw [← h]
      exact readHeadersLoop_error_not_format _ _ _ hl
    | ok v =>
      rw [hl] at h
      cases h

theorem decodeMaskRows_error_not_format (stride width : Nat) :
    ∀ (rows : Nat) (s : List Nat) (err : Err),
      decodeMaskRows stride width rows s = .error err → err.isFormat = false := by
  intro rows
  induction rows with
  | zero => intro s err h; simp [decodeMaskRows] at h
  | succ rows ih =>
    intro s err h
    rw [decodeMaskRows] at h
    cases hr : readFull s stride with
    | error e1 =>
      rw [hr] at h
      simp only [Except.error.injEq] at h
      rw [← h]
      rcases readFull_error_not_format _ _ _ hr with h1 | h1 <;> rw [h1] <;> rfl
    | ok v =>
      rw [hr] at h
      simp only at h
      cases hl : decodeMaskRows stride width rows v.2 with
      | error e2 =>
        rw [hl] at h
        simp only [Except.error.injEq] at h
        rw [← h]
        exact ih _ _ hl
      | ok w =>
        rw [hl] at h
        cases h

theorem decodeMask_error_not_format (s : List Nat) (e : Entry) (err : Err)
    (h : decodeMask s e = .error err) : err.isFormat = false := by
  unfold decodeMask at h
  by_cases h0 : e.Width = 0 ∨ e.Height = 0
  · rw [if_pos h0] at h
    cases h
  · rw [if_neg h0] at h
    by_cases h1 : e.Width < 0 ∨ e.Height < 0
    · rw [if_pos h1] at h
      simp only [Except.error.injEq] at h
      rw [← h]
      rfl
    · rw [if_neg h1] at h
      simp only at h
      cases hl : decodeMaskRows (maskStride e.Width.toNat) e.Width.toNat e.Height.toNat s with
      | error e2 =>
        rw [hl] at h
        simp only [Except.error.injEq] at h
        rw [← h]
        exact decodeMaskRows_error_not_format _ _ _ _ _ hl
      | ok w =>
        rw [hl] at h
        cases h

theorem applyMask_error_not_format (m : Image) (mask : Int → Int → Nat) (e : Entry) (err : Err)
    (h : applyMask m mask e = .error err) : err.isFormat = false := by
  unfold applyMask at h
  simp only at h
  split at h
  · simp only [Except.error.injEq] at h
    rw [← h]
    rfl
  · cases h

theorem toErr_not_format (err : CodecErr) : err.toErr.isFormat = false := by
  cases err <;> rfl

theorem Decoder_reader_error_not_format (d : Decoder) (e : Entry) (err : Err)
    (h : d.reader e = .error err) : err.isFormat = false := by
  unfold Decoder.reader at h
  by_cases hs : d.r.canSeekBackward = true
  · simp only [hs, if_true] at h
    cases hk : d.r.Seek e.Offset SeekStart with
    | mk r1 oerr =>
      rw [hk] at h
      cases oerr with
      | some e1 =>
        simp only [Except.error.injEq] at h
        rw [← h]
        exact Seek_error_not_format _ _ _ _ _ hk
      | none =>
        simp only at h
        cases hb : e.bmpHeader <;> rw [hb] at h <;> cases h
  · simp only [hs, if_false] at h
    cases hb : e.bmpHeader <;> rw [hb] at h <;> cases h

theorem Decoder_Decode_error_not_format (cod : Codecs) (d : Decoder) (e : Entry) (err : Err)
    (h : d.Decode cod e = .error err) : err.isFormat = false := by
  unfold Decoder.Decode at h
  cases hr : d.reader e with
  | error e1 =>
    rw [hr] at h
    simp only [Except.error.injEq] at h
    rw [← h]
    exact Decoder_reader_error_not_format _ _ _ hr
  | ok v =>
    obtain ⟨s, isPNG⟩ := v
    rw [hr] at h
    simp only at h
    cases isPNG with
    | true =>
      simp only [if_true] at h
      cases hp : cod.pngDecode s with
      | error e2 =>
        rw [hp] at h
        simp only [Except.error.injEq] at h
        rw [← h]
        exact toErr_not_format _
      | ok m =>
        rw [hp] at h
        cases h
    | false =>
      simp only [Bool.false_eq_true, if_false] at h
      cases hp : cod.bmpDecode s with
      | error e2 =>
        rw [hp] at h
        simp only [Except.error.injEq] at h
        rw [← h]
        exact toErr_not_format _
      | ok v2 =>
        obtain ⟨m, rest⟩ := v2
        rw [hp] at h
        simp only at h
        cases hm : decodeMask rest e with
        | error e3 =>
          rw [hm] at h
          simp only [Except.error.injEq] at h
          rw [← h]
          exact decodeMask_error_not_format _ _ _ hm
        | ok v3 =>
          obtain ⟨mask, isOpaque, rest2⟩ := v3
          rw [hm] at h
          simp only at h
          cases isOpaque with
          | true => simp at h
          | false =>
            simp only [Bool.false_eq_true, not_false_eq_true, if_true] at h
            exact applyMask_error_not_format _ _ _ _ h

theorem Decoder_DecodeConfig_error_not_format (cod : Codecs) (d : Decoder) (e : Entry)
    (err : Err) (h : d.DecodeConfig cod e = .error err) : err.isFormat = false := by
  unfold Decoder.DecodeConfig at h
  cases hr : d.reader e with
  | error e1 =>
    rw [hr] at h
    simp only [Except.error.injEq] at h
    rw [← h]
    exact Decoder_reader_error_not_format _ _ _ hr
  | ok v =>
    obtain ⟨s, isPNG⟩ := v
    rw [hr] at h
    simp only at h
    cases hc : (if isPNG = true then cod.pngDecodeConfig s else cod.bmpDecodeConfig s) with
    | error e2 =>
      rw [hc] at h
      simp only [Except.error.injEq] at h
      rw [← h]
      exact toErr_not_format _
    | ok c =>
      rw [hc] at h
      cases h

theorem decodeAllLoop_error_not_format (cod : Codecs) (d : Decoder) :
    ∀ (es : List Entry) (err : Err),
      decodeAllLoop cod d es = .error err → err.isFormat = false := by
  intro es
  induction es with
  | nil => intro err h; simp [decodeAllLoop] at h
  | cons e es ih =>
    intro err h
    rw [decodeAllLoop] at h
    cases hd : d.Decode cod e with
    | error e1 =>
      rw [hd] at h
      simp only [Except.error.injEq] at h
      rw [← h]
      exact Decoder_Decode_error_not_format _ _ _ _ hd
    | ok m =>
      rw [hd] at h
      simp only at h
      cases hl : decodeAllLoop cod d es with
      | error e2 =>
        rw [hl] at h
        simp only [Except.error.injEq] at h
        rw [← h]
        exact ih _ hl
      | ok mm =>
        rw [hl] at h
        cases h

theorem Decoder_DecodeAll_error_not_format (cod : Codecs) (d : Decoder) (err : Err)
    (h : d.DecodeAll cod = .error err) : err.isFormat = false := by
  unfold Decoder.DecodeAll at h
  cases hl : decodeAllLoop cod d d.entries with
  | error e2 =>
    rw [hl] at h
    simp only [Except.error.injEq] at h
    rw [← h]
    exact decodeAllLoop_error_not_format _ _ _ _ hl
  | ok mm =>
    rw [hl] at h
    cases h

/-- The directory loop either reads all records or fails with the unexpected-EOF error. -/
theorem readDirEntries_error (icon : Bool) (input : List Nat) (sk : Bool) (n pos : Nat)
    (hpos : pos ≤ input.length) (err : Err)
    (h : readDirEntries icon n { r := input, pos := pos, canSeekBackward := sk } = .error err) :
    err = .ErrUnexpectedEOF ∧ input.length < pos + 16 * n := by
  by_cases hl : pos + 16 * n ≤ input.length
  · rw [readDirEntries_ok icon input sk n pos hl] at h
    cases h
  · rw [readDirEntries_short icon input sk n pos hpos (by omega)] at h
    simp only [Except.error.injEq] at h
    exact ⟨h.symm, by omega⟩

/-- The method `DecodeDir` returns a `FormatError` only after a complete file header, for a
wrong magic or a zero count. -/
theorem DecodeDir_FormatError (input : List Nat) (seekable icon : Bool) (err : Err)
    (h : DecodeDir (NewDecoder input seekable icon) = .error err) (hf : err.isFormat = true) :
    6 ≤ input.length
      ∧ ((input.take 4 ≠ magic icon ∧ err = .FormatError (notKindMsg icon))
        ∨ (input.take 4 = magic icon ∧ LittleEndian.Uint16 (input.drop 4) = 0
            ∧ err = .FormatError (noEntriesMsg icon))) := by
  by_cases h6 : 6 ≤ input.length
  · refine ⟨h6, ?_⟩
    by_cases hm : input.take 4 = magic icon
    · by_cases hc : LittleEndian.Uint16 (input.drop 4) = 0
      · rw [DecodeDir_zero_count input seekable icon h6 hm hc] at h
        simp only [Except.error.injEq] at h
        exact Or.inr ⟨hm, hc, h.symm⟩
      · exfalso
        rw [DecodeDir_header input seekable icon h6] at h
        have hm1 : ¬ (icon = true ∧ input.take 4 ≠ icoPrefix) := by
          intro hx
          rw [hx.1] at hm
          exact hx.2 hm
        have hm2 : ¬ (¬ icon = true ∧ input.take 4 ≠ curPrefix) := by
          intro hx
          have : icon = false := by simpa using hx.1
          rw [this] at hm
          exact hx.2 hm
        rw [if_neg hm1, if_neg hm2, if_neg hc] at h
        cases hr : readDirEntries icon (LittleEndian.Uint16 (input.drop 4))
            { r := input, pos := 6, canSeekBackward := seekable } with
        | error e1 =>
          rw [hr] at h
          simp only [Except.error.injEq] at h
          have := (readDirEntries_error icon input seekable _ 6 h6 e1 hr).1
          rw [← h, this] at hf
          cases hf
        | ok v =>
          rw [hr] at h
          simp only at h
          have := readHeaders_error_not_format _ _ h
          rw [this] at hf
          cases hf
    · rw [DecodeDir_bad_magic input seekable icon h6 hm] at h
      simp only [Except.error.injEq] at h
      exact Or.inl ⟨hm, h.symm⟩
  · exfalso
    rw [DecodeDir_short_header input seekable icon (by omega)] at h
    simp only [Except.error.injEq] at h
    rw [← h] at hf
    cases hf

/-! ## Truncated sub-image headers -/

/-- The byte stream `s` of a sub-image ends inside one of the fixed-size structures of its
header: the 8 bytes of the signature sniff; the 40 bytes of a DIB info-header; for a PNG
payload, after complete chunks of other types, a chunk header or the 17 bytes read for
IHDR; for a paletted PNG payload, a chunk header met while looking for PLTE. -/
def HeaderCut (s : List Nat) : Prop :=
  s.length < 8
    ∨ (s.take 8 ≠ pngPrefix ∧ s.length < 40)
    ∨ (s.take 8 = pngPrefix ∧ ∃ (pre : List (List Nat)) (tail : List Nat), s.drop 8 = pre.flatten ++ tail
        ∧ (∀ c ∈ pre, IsOtherChunk typeIHDR c)
        ∧ (tail.length < 8 ∨ (tail.take 8 = [0, 0, 0, 13] ++ typeIHDR ∧ tail.length < 25)))
    ∨ (s.take 8 = pngPrefix ∧ ∃ (pre : List (List Nat)) (body : List Nat) (pre2 : List (List Nat)) (tail2 : List Nat),
        s.drop 8 = pre.flatten ++ ([0, 0, 0, 13] ++ typeIHDR ++ (body ++ (pre2.flatten ++ tail2)))
        ∧ (∀ c ∈ pre, IsOtherChunk typeIHDR c) ∧ body.length = 17
        ∧ supportedDepth (body.getD 8 0) (body.getD 9 0) = true ∧ body.getD 9 0 = 3
        ∧ (∀ c ∈ pre2, IsOtherChunk typePLTE c) ∧ tail2.length < 8)

/-- A header parse that runs into the end of the stream inside a fixed-size structure
fails with the unexpected-EOF error. -/
theorem decodeHeader_cut (s : List Nat) (e : Entry) (h : HeaderCut s) :
    decodeHeader s e = .error .ErrUnexpectedEOF := by
  rcases h with h | h | ⟨hp, pre, tail, hs, hpre, ht⟩
    | ⟨hp, pre, body, pre2, tail2, hs, hpre, hb, hsup, hc, hpre2, ht2⟩
  · exact decodeHeader_short s e (Or.inl h)
  · exact decodeHeader_short s e (Or.inr h)
  · have h8 : 8 ≤ s.length := by
      by_contra hc
      have : (s.take 8).length = 8 := by rw [hp]; rfl
      rw [List.length_take] at this
      omega
    rw [decodeHeader_eq, if_neg (by omega), if_pos hp, decodePNGHeader_eq s e h8, hs,
      seekChunk_skip_all typeIHDR pre _ hpre, seekChunk_step]
    rcases ht with ht | ⟨ht, hl⟩
    · rw [if_neg (by omega)]
    · have h8t : 8 ≤ tail.length := by
        by_contra hc
        have : (tail.take 8).length = 8 := by rw [ht]; rfl
        rw [List.length_take] at this
        omega
      rw [if_pos h8t, if_pos (by rw [ht]; rfl)]
      simp only
      have h13 : ((BigEndian.Uint32 (tail.take 8) : Nat) : Int) = 13 := by rw [ht]; decide
      rw [h13, if_neg (by simp), if_neg (by rw [List.length_drop]; omega)]
  · have h8 : 8 ≤ s.length := by
      by_contra hc
      have : (s.take 8).length = 8 := by rw [hp]; rfl
      rw [List.length_take] at this
      omega
    rw [decodeHeader_eq, if_neg (by omega), if_pos hp,
      decodePNGHeader_at_IHDR s pre body (pre2.flatten ++ tail2) e h8 hs hpre hb]
    unfold afterIHDR
    simp only [pngDepth_supported _ _ _ hsup]
    have hne : ((body.getD 8 0 * channels (body.getD 9 0) : Nat) : Int) ≠ 0 := by
      rw [hc] at hsup ⊢
      simp only [supportedDepth, Bool.decide_or, Bool.decide_and, Bool.or_eq_true,
        Bool.and_eq_true, decide_eq_true_eq] at hsup
      have hch : channels 3 = 1 := by decide
      rw [hch]
      omega
    rw [if_neg hne, if_pos (by rw [decide_eq_true_eq]; exact hc),
      seekChunk_skip_all typePLTE pre2 _ hpre2, seekChunk_step, if_neg (by omega)]

/-- On a seekable source the loop of `readHeaders` returns the error of the first entry
whose header does not parse. -/
theorem readHeadersLoop_first_error (input : List Nat) :
    ∀ (es : List Entry) (k p : Nat) (err : Err) (hk : k < es.length),
      (∀ j (hj : j < es.length), j ≤ k → 0 ≤ es[j].Offset) →
      (∀ j (hj : j < es.length), j < k →
        ∃ t, decodeHeader (input.drop es[j].Offset.toNat) es[j] = .ok t) →
      decodeHeader (input.drop es[k].Offset.toNat) es[k] = .error err →
      readHeadersLoop { r := input, pos := p, canSeekBackward := true } es = .error err := by
  intro es
  induction es with
  | nil => intro k p err hk; simp at hk
  | cons e es ih =>
    intro k p err hk hoff hok herr
    have hseek : reader.Seek { r := input, pos := p, canSeekBackward := true } e.Offset SeekStart
        = ({ r := input, pos := e.Offset.toNat, canSeekBackward := true }, none) := by
      have h0 : 0 ≤ e.Offset := hoff 0 (by simp) (by omega)
      simp [reader.Seek, SeekStart, h0]
    rw [readHeadersLoop, hseek]
    simp only
    cases k with
    | zero =>
      simp only [List.getElem_cons_zero] at herr
      rw [herr]
    | succ k =>
      obtain ⟨t, ht⟩ := hok 0 (by simp) (by omega)
      simp only [List.getElem_cons_zero] at ht
      rw [ht]
      simp only
      have hk1 : k < es.length := by simpa using hk
      rw [ih k e.Offset.toNat err hk1
        (fun j hj hjk => by
          have := hoff (j + 1) (by simpa using hj) (by omega)
          simpa using this)
        (fun j hj hjk => by
          have := hok (j + 1) (by simpa using hj) (by omega)
          simpa using this)
        (by simpa using herr)]

/-- The k-th directory record of the input, as `DecodeDir` parses it. -/
def dirEntryAt (icon : Bool) (input : List Nat) (k : Nat) : Entry :=
  parseDirEntry icon (input.drop (6 + 16 * k))

/-- The offset field of the k-th directory record. -/
def dirOffset (input : List Nat) (k : Nat) : Nat := LittleEndian.Uint32 (input.drop (18 + 16 * k))

theorem dirEntryAt_Offset (icon : Bool) (input : List Nat) (k : Nat) :
    (dirEntryAt icon input k).Offset = (dirOffset input k : Int) := by
  unfold dirEntryAt dirOffset parseDirEntry
  simp only [List.drop_drop]
  have : 6 + 16 * k + 12 = 18 + 16 * k := by omega
  rw [this]

/-- The directory is complete and the input ends inside a fixed-size structure of the
sub-image header of entry `k`, the headers of the entries before it being parsed. -/
def EndsInHeaderOf (icon : Bool) (input : List Nat) (k : Nat) : Prop :=
  input.take 4 = magic icon ∧ k < LittleEndian.Uint16 (input.drop 4)
    ∧ 6 + 16 * LittleEndian.Uint16 (input.drop 4) ≤ input.length
    ∧ (∀ j, j < k →
        ∃ t, decodeHeader (input.drop (dirOffset input j)) (dirEntryAt icon input j) = .ok t)
    ∧ HeaderCut (input.drop (dirOffset input k))

/-- On a seekable source a header cut of any entry makes `DecodeDir` fail with the
unexpected-EOF error. -/
theorem DecodeDir_header_cut (input : List Nat) (icon : Bool) (k : Nat)
    (h : EndsInHeaderOf icon input k) :
    DecodeDir (NewDecoder input true icon) = .error .ErrUnexpectedEOF := by
  obtain ⟨hm, hk, hl, hok, hcut⟩ := h
  have h6 : 6 ≤ input.length := by omega
  rw [DecodeDir_header input true icon h6]
  have hm1 : ¬ (icon = true ∧ input.take 4 ≠ icoPrefix) := by
    intro hx
    rw [hx.1] at hm
    exact hx.2 hm
  have hm2 : ¬ (¬ icon = true ∧ input.take 4 ≠ curPrefix) := by
    intro hx
    have : icon = false := by simpa using hx.1
    rw [this] at hm
    exact hx.2 hm
  rw [if_neg hm1, if_neg hm2, if_neg (by omega),
    readDirEntries_ok icon input true (LittleEndian.Uint16 (input.drop 4)) 6 hl]
  simp only
  unfold readHeaders
  simp only [not_true_eq_false, if_false]
  have hlen : ((List.range (LittleEndian.Uint16 (input.drop 4))).map
      (fun i => parseDirEntry icon (input.drop (6 + 16 * i)))).length
        = LittleEndian.Uint16 (input.drop 4) := by simp
  have hget : ∀ j (hj : j < ((List.range (LittleEndian.Uint16 (input.drop 4))).map
      (fun i => parseDirEntry icon (input.drop (6 + 16 * i)))).length),
      ((List.range (LittleEndian.Uint16 (input.drop 4))).map
        (fun i => parseDirEntry icon (input.drop (6 + 16 * i))))[j] = dirEntryAt icon input j := by
    intro j hj
    simp [dirEntryAt]
  rw [readHeadersLoop_first_error input _ k _ .ErrUnexpectedEOF (by rw [hlen]; exact hk)
    (fun j hj _ => by rw [hget j hj, dirEntryAt_Offset]; omega)
    (fun j hj hjk => by
      rw [hget j hj, dirEntryAt_Offset, Int.toNat_ofNat]
      exact hok j hjk)
    (by
      rw [hget k (by rw [hlen]; exact hk), dirEntryAt_Offset, Int.toNat_ofNat]
      exact decodeHeader_cut _ _ hcut)]

/-! ## Errors of the directory stage on a forward-only source -/

theorem Seek_canSeekBackward (r : reader) (o : Int) (whence : Nat) :
    (r.Seek o whence).1.canSeekBackward = r.canSeekBackward := by
  by_cases hs : r.canSeekBackward = true
  · unfold reader.Seek
    rw [if_pos hs]
    by_cases h1 : whence = SeekStart
    · rw [if_pos h1]
      by_cases hn : o < 0 <;> simp [hn]
    · rw [if_neg h1]
      by_cases h2 : whence = SeekCurrent
      · rw [if_pos h2]
        by_cases hn : (r.pos : Int) + o < 0 <;> simp [hn]
      · rw [if_neg h2]
        by_cases h3 : whence = SeekEnd
        · rw [if_pos h3]
          by_cases hn : (r.r.length : Int) + o < 0 <;> simp [hn]
        · rw [if_neg h3]
  · have hf : r.canSeekBackward = false := by simpa using hs
    have hstart : ∀ t : Int, (r.Seek t SeekStart).1.canSeekBackward = r.canSeekBackward := by
      intro t
      rw [Seek_forward_start r hf]
      by_cases h1 : t < (r.pos : Int)
      · rw [if_pos h1]
      · rw [if_neg h1]
        by_cases h3 : t = (r.pos : Int)
        · rw [if_pos h3]
        · rw [if_neg h3]
          unfold copyNDiscard
          by_cases h4 : (t - (r.pos : Int)).toNat ≤ (r.r.drop r.pos).length
          · rw [if_pos h4]
          · rw [if_neg h4]
    by_cases h1 : whence = SeekStart
    · rw [h1]
      exact hstart o
    · by_cases h2 : whence = SeekCurrent
      · rw [h2, Seek_forward_current r hf]
        exact hstart _
      · rw [Seek_forward_other r hf o whence h1 h2]

theorem ReadFull_canSeekBackward (r : reader) (n : Nat) :
    (r.ReadFull n).2.canSeekBackward = r.canSeekBackward := by
  unfold reader.ReadFull
  cases readFull (List.drop r.pos r.r) n <;> rfl

/-- The errors of `Seek` on a forward-only source. -/
theorem Seek_forward_error (r : reader) (hf : r.canSeekBackward = false) (o : Int)
    (whence : Nat) (r1 : reader) (err : Err) (h : r.Seek o whence = (r1, some err)) :
    err = .EOF ∨ ∃ msg, err = .UnsupportedError msg := by
  have hstart : ∀ (t : Int) (r2 : reader) (e2 : Err), r.Seek t SeekStart = (r2, some e2) →
      e2 = .EOF ∨ ∃ msg, e2 = .UnsupportedError msg := by
    intro t r2 e2 h2
    rw [Seek_forward_start r hf] at h2
    by_cases h1 : t < (r.pos : Int)
    · rw [if_pos h1] at h2
      simp only [Prod.mk.injEq, Option.some.injEq] at h2
      exact Or.inr ⟨_, h2.2.symm⟩
    · rw [if_neg h1] at h2
      by_cases h3 : t = (r.pos : Int)
      · rw [if_pos h3] at h2
        simp at h2
      · rw [if_neg h3] at h2
        unfold copyNDiscard at h2
        by_cases h4 : (t - (r.pos : Int)).toNat ≤ (r.r.drop r.pos).length
        · rw [if_pos h4] at h2
          simp at h2
        · rw [if_neg h4] at h2
          simp only [Prod.mk.injEq, Option.some.injEq] at h2
          exact Or.inl h2.2.symm
  by_cases h1 : whence = SeekStart
  · rw [h1] at h
    exact hstart o r1 err h
  · by_cases h2 : whence = SeekCurrent
    · rw [h2, Seek_forward_current r hf] at h
      exact hstart _ r1 err h
    · rw [Seek_forward_other r hf o whence h1 h2] at h
      simp only [Prod.mk.injEq, Option.some.injEq] at h
      exact Or.inr ⟨_, h.2.symm⟩

/-- The errors of the loop of `readData` on a forward-only source: bare `io.EOF`, the
unexpected-EOF error, or an `UnsupportedError`. -/
theorem readDataLoop_error_class :
    ∀ (es : List (Nat × Entry)) (r : reader) (err : Err), r.canSeekBackward = false →
      readDataLoop r es = .error err →
      err = .EOF ∨ err = .ErrUnexpectedEOF ∨ ∃ msg, err = .UnsupportedError msg := by
  intro es
  induction es with
  | nil => intro r err _ h; simp [readDataLoop] at h
  | cons p es ih =>
    intro r err hf h
    obtain ⟨i, e⟩ := p
    rw [readDataLoop] at h
    cases hs : r.Seek e.Offset SeekStart with
    | mk r1 oerr =>
      have hf1 : r1.canSeekBackward = false := by
        have := Seek_canSeekBackward r e.Offset SeekStart
        rw [hs] at this
        rw [← hf]
        exact this
      rw [hs] at h
      cases oerr with
      | some e1 =>
        simp only [Except.error.injEq] at h
        rw [← h]
        rcases Seek_forward_error r hf _ _ _ _ hs with h1 | h1
        · exact Or.inl h1
        · exact Or.inr (Or.inr h1)
      | none =>
        simp only at h
        cases hr : r1.ReadFull e.Size.toNat with
        | mk res r2 =>
          have hf2 : r2.canSeekBackward = false := by
            have := ReadFull_canSeekBackward r1 e.Size.toNat
            rw [hr] at this
            rw [← hf1]
            exact this
          rw [hr] at h
          cases res with
          | error e2 =>
            simp only [Except.error.injEq] at h
            rw [← h]
            rcases ReadFull_error_not_format _ _ _ _ hr with h1 | h1
            · exact Or.inl h1
            · exact Or.inr (Or.inl h1)
          | ok data =>
            simp only at h
            cases hd : decodeHeader data { e with data := data } with
            | error e3 =>
              rw [hd] at h
              simp only [Except.error.injEq] at h
              rw [← h]
              rcases decodeHeader_error _ _ _ hd with h1 | h1
              · exact Or.inr (Or.inl h1)
              · exact Or.inr (Or.inr h1)
            | ok t =>
              rw [hd] at h
              simp only at h
              cases hl : readDataLoop r2 es with
              | error e4 =>
                rw [hl] at h
                simp only [Except.error.injEq] at h
                rw [← h]
                exact ih _ _ hf2 hl
              | ok v =>
                rw [hl] at h
                cases h

/-- The errors of `DecodeDir` on a forward-only source. -/
theorem DecodeDir_forward_error_class (input : List Nat) (icon : Bool) (err : Err)
    (h : DecodeDir (NewDecoder input false icon) = .error err) :
    err = .EOF ∨ err = .ErrUnexpectedEOF ∨ (∃ msg, err = .UnsupportedError msg)
      ∨ err.isFormat = true := by
  by_cases h6 : 6 ≤ input.length
  · rw [DecodeDir_header input false icon h6] at h
    split_ifs at h
    · cases h; exact Or.inr (Or.inr (Or.inr rfl))
    · cases h; exact Or.inr (Or.inr (Or.inr rfl))
    · cases h; exact Or.inr (Or.inr (Or.inr rfl))
    · cases h; exact Or.inr (Or.inr (Or.inr rfl))
    · cases hr : readDirEntries icon (LittleEndian.Uint16 (input.drop 4))
          { r := input, pos := 6, canSeekBackward := false } with
      | error e1 =>
        rw [hr] at h
        simp only [Except.error.injEq] at h
        rw [← h, (readDirEntries_error icon input false _ 6 h6 e1 hr).1]
        exact Or.inr (Or.inl rfl)
      | ok v =>
        obtain ⟨es, r2⟩ := v
        rw [hr] at h
        simp only at h
        have hr2 : r2.canSeekBackward = false := by
          by_cases hl : 6 + 16 * LittleEndian.Uint16 (input.drop 4) ≤ input.length
          · rw [readDirEntries_ok icon input false _ 6 hl] at hr
            simp only [Except.ok.injEq, Prod.mk.injEq] at hr
            rw [← hr.2]
          · rw [readDirEntries_short icon input false _ 6 h6 (by omega)] at hr
            cases hr
        unfold readHeaders readData at h
        simp only [hr2, Bool.false_eq_true, not_false_eq_true, if_true] at h
        cases hl : readDataLoop r2 (sortByOffset es.enum) with
        | error e2 =>
          rw [hl] at h
          simp only [Except.error.injEq] at h
          rw [← h]
          rcases readDataLoop_error_class _ _ _ hr2 hl with h1 | h1 | h1
          · exact Or.inl h1
          · exact Or.inr (Or.inl h1)
          · exact Or.inr (Or.inr (Or.inl h1))
        | ok v2 =>
          rw [hl] at h
          cases h
  · rw [DecodeDir_short_header input false icon (by omega)] at h
    simp only [Except.error.injEq] at h
    exact Or.inr (Or.inl h.symm)

/-! ## The error class of a truncated input -/

theorem ico_convertErr_isFormat (err : Err) :
    isIcoFormatError (Ico.convertErr err) = err.isFormat := by
  cases err <;> rfl

theorem cur_convertErr_isFormat (err : Err) :
    isCurFormatError (Cur.convertErr err) = err.isFormat := by
  cases err <;> rfl

theorem Best_snd (d : Decoder) : (Best d).2 = none := rfl

/-- A `FormatError` of `ico.Decode` is a `FormatError` of `DecodeDir`. -/
theorem ico_Decode_FormatError (cod : Codecs) (input : List Nat) (sk : Bool) (e : Ico.Error)
    (h : Ico.Decode cod input sk = .error e) (hf : isIcoFormatError e = true) :
    ∃ err, DecodeDir (NewDecoder input sk true) = .error err ∧ err.isFormat = true := by
  unfold Ico.Decode at h
  cases hd : DecodeDir (NewDecoder input sk true) with
  | error err =>
    rw [hd] at h
    simp only [Except.error.injEq] at h
    rw [← h, ico_convertErr_isFormat] at hf
    exact ⟨err, rfl, hf⟩
  | ok d =>
    exfalso
    rw [hd] at h
    simp only at h
    cases hb : Best d with
    | mk b oerr =>
      have h2 : oerr = none := by
        have := Best_snd d
        rw [hb] at this
        exact this
      subst h2
      rw [hb] at h
      cases b with
      | none =>
        simp only [Except.error.injEq] at h
        rw [← h] at hf
        cases hf
      | some en =>
        simp only at h
        cases hx : d.Decode cod en with
        | error e1 =>
          rw [hx] at h
          simp only [Except.error.injEq] at h
          rw [← h, ico_convertErr_isFormat, Decoder_Decode_error_not_format _ _ _ _ hx] at hf
          cases hf
        | ok m =>
          rw [hx] at h
          cases h

theorem ico_DecodeConfig_FormatError (cod : Codecs) (input : List Nat) (sk : Bool)
    (e : Ico.Error) (h : Ico.DecodeConfig cod input sk = .error e)
    (hf : isIcoFormatError e = true) :
    ∃ err, DecodeDir (NewDecoder input sk true) = .error err ∧ err.isFormat = true := by
  unfold Ico.DecodeConfig at h
  cases hd : DecodeDir (NewDecoder input sk true) with
  | error err =>
    rw [hd] at h
    simp only [Except.error.injEq] at h
    rw [← h, ico_convertErr_isFormat] at hf
    exact ⟨err, rfl, hf⟩
  | ok d =>
    exfalso
    rw [hd] at h
    simp only at h
    cases hb : Best d with
    | mk b oerr =>
      have h2 : oerr = none := by
        have := Best_snd d
        rw [hb] at this
        exact this
      subst h2
      rw [hb] at h
      cases b with
      | none =>
        simp only [Except.error.injEq] at h
        rw [← h] at hf
        cases hf
      | some en =>
        simp only at h
        cases hx : d.DecodeConfig cod en with
        | error e1 =>
          rw [hx] at h
          simp only [Except.error.injEq] at h
          rw [← h, ico_convertErr_isFormat,
            Decoder_DecodeConfig_error_not_format _ _ _ _ hx] at hf
          cases hf
        | ok m =>
          rw [hx] at h
          cases h

theorem ico_DecodeAll_FormatError (cod : Codecs) (input : List Nat) (sk : Bool)
    (e : Ico.Error) (h : Ico.DecodeAll cod input sk = .error e)
    (hf : isIcoFormatError e = true) :
    ∃ err, DecodeDir (NewDecoder input sk true) = .error err ∧ err.isFormat = true := by
  unfold Ico.DecodeAll at h
  cases hd : DecodeDir (NewDecoder input sk true) with
  | error err =>
    rw [hd] at h
    simp only [Except.error.injEq] at h
    rw [← h, ico_convertErr_isFormat] at hf
    exact ⟨err, rfl, hf⟩
  | ok d =>
    exfalso
    rw [hd] at h
    simp only at h
    cases hx : d.DecodeAll cod with
    | error e1 =>
      rw [hx] at h
      simp only [Except.error.injEq] at h
      rw [← h, ico_convertErr_isFormat, Decoder_DecodeAll_error_not_format _ _ _ hx] at hf
      cases hf
    | ok m =>
      rw [hx] at h
      cases h

theorem cur_Decode_FormatError (cod : Codecs) (input : List Nat) (sk : Bool) (e : Cur.Error)
    (h : Cur.Decode cod input sk = .error e) (hf : isCurFormatError e = true) :
    ∃ err, DecodeDir (NewDecoder input sk false) = .error err ∧ err.isFormat = true := by
  unfold Cur.Decode at h
  cases hd : DecodeDir (NewDecoder input sk false) with
  | error err =>
    rw [hd] at h
    simp only [Except.error.injEq] at h
    rw [← h, cur_convertErr_isFormat] at hf
    exact ⟨err, rfl, hf⟩
  | ok d =>
    exfalso
    rw [hd] at h
    simp only at h
    cases hb : Best d with
    | mk b oerr =>
      have h2 : oerr = none := by
        have := Best_snd d
        rw [hb] at this
        exact this
      subst h2
      rw [hb] at h
      cases b with
      | none =>
        simp only [Except.error.injEq] at h
        rw [← h] at hf
        cases hf
      | some en =>
        simp only at h
        cases hx : d.Decode cod en with
        | error e1 =>
          rw [hx] at h
          simp only [Except.error.injEq] at h
          rw [← h, cur_convertErr_isFormat, Decoder_Decode_error_not_format _ _ _ _ hx] at hf
          cases hf
        | ok m =>
          rw [hx] at h
          cases h

theorem cur_DecodeConfig_FormatError (cod : Codecs) (input : List Nat) (sk : Bool)
    (e : Cur.Error) (h : Cur.DecodeConfig cod input sk = .error e)
    (hf : isCurFormatError e = true) :
    ∃ err, DecodeDir (NewDecoder input sk false) = .error err ∧ err.isFormat = true := by
  unfold Cur.DecodeConfig at h
  cases hd : DecodeDir (NewDecoder input sk false) with
  | error err =>
    rw [hd] at h
    simp only [Except.error.injEq] at h
    rw [← h, cur_convertErr_isFormat] at hf
    exact ⟨err, rfl, hf⟩
  | ok d =>
    exfalso
    rw [hd] at h
    simp only at h
    cases hb : Best d with
    | mk b oerr =>
      have h2 : oerr = none := by
        have := Best_snd d
        rw [hb] at this
        exact this
      subst h2
      rw [hb] at h
      cases b with
      | none =>
        simp only [Except.error.injEq] at h
        rw [← h] at hf
        cases hf
      | some en =>
        simp only at h
        cases hx : d.DecodeConfig cod en with
        | error e1 =>
          rw [hx] at h
          simp only [Except.error.injEq] at h
          rw [← h, cur_convertErr_isFormat,
            Decoder_DecodeConfig_error_not_format _ _ _ _ hx] at hf
          cases hf
        | ok m =>
          rw [hx] at h
          cases h

theorem cur_DecodeAll_FormatError (cod : Codecs) (input : List Nat) (sk : Bool)
    (e : Cur.Error) (h : Cur.DecodeAll cod input sk = .error e)
    (hf : isCurFormatError e = true) :
    ∃ err, DecodeDir (NewDecoder input sk false) = .error err ∧ err.isFormat = true := by
  unfold Cur.DecodeAll at h
  cases hd : DecodeDir (NewDecoder input sk false) with
  | error err =>
    rw [hd] at h
    simp only [Except.error.injEq] at h
    rw [← h, cur_convertErr_isFormat] at hf
    exact ⟨err, rfl, hf⟩
  | ok d =>
    exfalso
    rw [hd] at h
    simp only at h
    cases hx : d.DecodeAll cod with
    | error e1 =>
      rw [hx] at h
      simp only [Except.error.injEq] at h
      rw [← h, cur_convertErr_isFormat, Decoder_DecodeAll_error_not_format _ _ _ hx] at hf
      cases hf
    | ok m =>
      obtain ⟨es, mm⟩ := m
      rw [hx] at h
      cases h

/-- A failure of `DecodeDir` is what the three public functions of `ico` return, after
`convertErr`. -/
theorem ico_public_of_DecodeDir_error (cod : Codecs) (input : List Nat) (sk : Bool) (err : Err)
    (h : DecodeDir (NewDecoder input sk true) = .error err) :
    Ico.Decode cod input sk = .error (Ico.convertErr err)
      ∧ Ico.DecodeAll cod input sk = .error (Ico.convertErr err)
      ∧ Ico.DecodeConfig cod input sk = .error (Ico.convertErr err) := by
  simp [Ico.Decode, Ico.DecodeAll, Ico.DecodeConfig, h]

theorem cur_public_of_DecodeDir_error (cod : Codecs) (input : List Nat) (sk : Bool) (err : Err)
    (h : DecodeDir (NewDecoder input sk false) = .error err) :
    Cur.Decode cod input sk = .error (Cur.convertErr err)
      ∧ Cur.DecodeAll cod input sk = .error (Cur.convertErr err)
      ∧ Cur.DecodeConfig cod input sk = .error (Cur.convertErr err) := by
  simp [Cur.Decode, Cur.DecodeAll, Cur.DecodeConfig, h]

/-- The cases in which `DecodeDir` fails with the unexpected-EOF error because the input
ends inside a fixed-size structure. -/
theorem DecodeDir_cut (input : List Nat) (seekable icon : Bool)
    (h : EndsInDirectory icon input ∨ (seekable = true ∧ ∃ k, EndsInHeaderOf icon input k)) :
    DecodeDir (NewDecoder input seekable icon) = .error .ErrUnexpectedEOF := by
  rcases h with h | ⟨hs, k, hk⟩
  · exact DecodeDir_truncated input seekable icon (Or.inl h)
  · rw [hs]
    exact DecodeDir_header_cut input icon k hk

/-- The first 100 bytes of `bestInput` end inside the DIB info-header of the second
entry. -/
theorem bestInput_cut : EndsInHeaderOf true (bestInput.take 100) 1 := by
  refine ⟨by decide, by decide, by decide, ?_, Or.inr (Or.inl (by decide))⟩
  intro j hj
  have hj0 : j = 0 := by omega
  subst hj0
  have h38 : dirOffset (bestInput.take 100) 0 = 38 := by decide
  rw [h38, decodeHeader_eq, if_neg (by decide), if_neg (by decide),
    decodeBMPHeader_eq _ _ (by decide)]
  have h1 : ¬ LittleEndian.Uint32 (((bestInput.take 100).drop 38).take 40) < 40 := by decide
  have h2 : ¬ dibAbsHeight (((bestInput.take 100).drop 38).take 40) % 2 ≠ 0 := by decide
  rw [if_neg h1, if_neg h2]
  exact ⟨_, rfl⟩

/-- C5 (amended): when the input ends while a fixed-size structure is being read, the
error returned by the public `Decode`, `DecodeAll` and `DecodeConfig` of `ico` and of `cur`
is not a value of the package's `FormatError` type. It is `io.ErrUnexpectedEOF` itself
(message "unexpected EOF"), handed on unchanged, when the input ends inside the file
header or a directory record, and, on a seekable source, when it ends inside a fixed-size
structure of the sub-image header of any entry (signature sniff, DIB info-header, PNG
chunk header or IHDR body) whose predecessors' headers parse. The public functions return
a `FormatError` only for a complete 6-byte file header with a wrong magic or a zero
count. Every failure of `DecodeDir` is returned through `convertErr`; on a forward-only
source, where a payload is read whole before its header is parsed, a failure of
`DecodeDir` that is no `FormatError` is bare `io.EOF`, `io.ErrUnexpectedEOF` or an
`UnsupportedError`. -/
theorem public_decode_truncated (cod : Codecs) (input : List Nat) (seekable : Bool) :
    ((EndsInDirectory true input ∨ (seekable = true ∧ ∃ k, EndsInHeaderOf true input k)) →
        Ico.Decode cod input seekable = .error (.other .ErrUnexpectedEOF)
        ∧ Ico.DecodeAll cod input seekable = .error (.other .ErrUnexpectedEOF)
        ∧ Ico.DecodeConfig cod input seekable = .error (.other .ErrUnexpectedEOF))
    ∧ ((EndsInDirectory false input ∨ (seekable = true ∧ ∃ k, EndsInHeaderOf false input k)) →
        Cur.Decode cod input seekable = .error (.other .ErrUnexpectedEOF)
        ∧ Cur.DecodeAll cod input seekable = .error (.other .ErrUnexpectedEOF)
        ∧ Cur.DecodeConfig cod input seekable = .error (.other .ErrUnexpectedEOF))
    ∧ (∀ e, (Ico.Decode cod input seekable = .error e
              ∨ Ico.DecodeAll cod input seekable = .error e
              ∨ Ico.DecodeConfig cod input seekable = .error e) →
          isIcoFormatError e = true →
          6 ≤ input.length
            ∧ (input.take 4 ≠ icoPrefix ∨ LittleEndian.Uint16 (input.drop 4) = 0))
    ∧ (∀ e, (Cur.Decode cod input seekable = .error e
              ∨ Cur.DecodeAll cod input seekable = .error e
              ∨ Cur.DecodeConfig cod input seekable = .error e) →
          isCurFormatError e = true →
          6 ≤ input.length
            ∧ (input.take 4 ≠ curPrefix ∨ LittleEndian.Uint16 (input.drop 4) = 0))
    ∧ (∀ err, DecodeDir (NewDecoder input seekable true) = .error err →
          Ico.Decode cod input seekable = .error (Ico.convertErr err)
          ∧ Ico.DecodeAll cod input seekable = .error (Ico.convertErr err)
          ∧ Ico.DecodeConfig cod input seekable = .error (Ico.convertErr err))
    ∧ (∀ err, DecodeDir (NewDecoder input seekable false) = .error err →
          Cur.Decode cod input seekable = .error (Cur.convertErr err)
          ∧ Cur.DecodeAll cod input seekable = .error (Cur.convertErr err)
          ∧ Cur.DecodeConfig cod input seekable = .error (Cur.convertErr err))
    ∧ (∀ icon err, DecodeDir (NewDecoder input false icon) = .error err →
          err.isFormat = false →
          err = .EOF ∨ err = .ErrUnexpectedEOF ∨ ∃ msg, err = .UnsupportedError msg)
    ∧ (Ico.Error.other .ErrUnexpectedEOF).Error = "unexpected EOF"
    ∧ (Cur.Error.other .ErrUnexpectedEOF).Error = "unexpected EOF"
    ∧ isIcoFormatError (.other .ErrUnexpectedEOF) = false
    ∧ isCurFormatError (.other .ErrUnexpectedEOF) = false
    ∧ isIcoFormatError (.other .EOF) = false
    ∧ isCurFormatError (.other .EOF) = false := by
  refine ⟨fun h => ?_, fun h => ?_, fun e h hf => ?_, fun e h hf => ?_,
    fun err h => ico_public_of_DecodeDir_error cod input seekable err h,
    fun err h => cur_public_of_DecodeDir_error cod input seekable err h,
    fun icon err h hf => ?_, rfl, rfl, rfl, rfl, rfl, rfl⟩
  · exact ico_public_of_DecodeDir_error cod input seekable _ (DecodeDir_cut input seekable true h)
  · exact cur_public_of_DecodeDir_error cod input seekable _ (DecodeDir_cut input seekable false h)
  · have hex : ∃ err, DecodeDir (NewDecoder input seekable true) = .error err
        ∧ err.isFormat = true := by
      rcases h with h | h | h
      · exact ico_Decode_FormatError cod input seekable e h hf
      · exact ico_DecodeAll_FormatError cod input seekable e h hf
      · exact ico_DecodeConfig_FormatError cod input seekable e h hf
    obtain ⟨err, hd, hfe⟩ := hex
    obtain ⟨h6, hc⟩ := DecodeDir_FormatError input seekable true err hd hfe
    refine ⟨h6, ?_⟩
    rcases hc with ⟨hm, _⟩ | ⟨_, hz, _⟩
    · exact Or.inl hm
    · exact Or.inr hz
  · have hex : ∃ err, DecodeDir (NewDecoder input seekable false) = .error err
        ∧ err.isFormat = true := by
      rcases h with h | h | h
      · exact cur_Decode_FormatError cod input seekable e h hf
      · exact cur_DecodeAll_FormatError cod input seekable e h hf
      · exact cur_DecodeConfig_FormatError cod input seekable e h hf
    obtain ⟨err, hd, hfe⟩ := hex
    obtain ⟨h6, hc⟩ := DecodeDir_FormatError input seekable false err hd hfe
    refine ⟨h6, ?_⟩
    rcases hc with ⟨hm, _⟩ | ⟨_, hz, _⟩
    · exact Or.inl hm
    · exact Or.inr hz
  · rcases DecodeDir_forward_error_class input icon err h with h1 | h1 | h1 | h1
    · exact Or.inl h1
    · exact Or.inr (Or.inl h1)
    · exact Or.inr (Or.inr h1)
    · rw [h1] at hf
      cases hf

/-- C5 (witness): the first 100 bytes of `bestInput`, which end inside the DIB info-header
of the second entry, on a seekable source; three bytes on a forward-only source for `cur`;
and the six bytes of an empty icon file, for which a `FormatError` comes back. -/
theorem public_decode_truncated_witness :
    (Ico.Decode toyCodecs (bestInput.take 100) true = .error (.other .ErrUnexpectedEOF)
      ∧ Ico.DecodeAll toyCodecs (bestInput.take 100) true = .error (.other .ErrUnexpectedEOF)
      ∧ Ico.DecodeConfig toyCodecs (bestInput.take 100) true
          = .error (.other .ErrUnexpectedEOF))
    ∧ (Cur.Decode toyCodecs [0, 0, 2] false = .error (.other .ErrUnexpectedEOF)
      ∧ Cur.DecodeAll toyCodecs [0, 0, 2] false = .error (.other .ErrUnexpectedEOF)
      ∧ Cur.DecodeConfig toyCodecs [0, 0, 2] false = .error (.other .ErrUnexpectedEOF))
    ∧ (6 ≤ [0, 0, 1, 0, 0, 0].length
        ∧ ([0, 0, 1, 0, 0, 0].take 4 ≠ icoPrefix
            ∨ LittleEndian.Uint16 ([0, 0, 1, 0, 0, 0].drop 4) = 0)) :=
  ⟨(public_decode_truncated toyCodecs (bestInput.take 100) true).1
      (Or.inr ⟨rfl, 1, bestInput_cut⟩),
   (public_decode_truncated toyCodecs [0, 0, 2] false).2.1
      (Or.inl three_bytes_end_in_directory),
   (public_decode_truncated toyCodecs [0, 0, 1, 0, 0, 0] true).2.2.1
      (.FormatError "no icons") (Or.inl rfl) rfl⟩


/-! ## What a successful header parse returns -/

theorem lookupEntry_cons (i : Nat) (q : Nat × Entry) (l : List (Nat × Entry)) :
    lookupEntry i (q :: l) = if q.1 = i then some q.2 else lookupEntry i l := by
  obtain ⟨j, e⟩ := q
  rw [lookupEntry]

theorem lookupEntry_none (i : Nat) :
    ∀ (l : List (Nat × Entry)), (∀ q ∈ l, q.1 ≠ i) → lookupEntry i l = none := by
  intro l
  induction l with
  | nil => intro _; rfl
  | cons q l ih =>
    intro h
    rw [lookupEntry_cons, if_neg (h q (by simp))]
    exact ih (fun x hx => h x (by simp [hx]))

end Icondir
